import Mathlib

/-!
Tumbling-block game: state machine and rule engine.

Shallow embedding of the game logic of `src/GLFW/Sample_GL3_2D.cpp`
(`keyboard`, `createBoard`, the state-changing part of `draw`, and the
initial values set up by the global initialisers and `initGL`).

Modelling conventions.

* `float` / `double` quantities (extents, centre, angle) are exact rationals.
  Every value the program can hold is a multiple of 1/4 of small magnitude,
  on which binary floating point arithmetic is exact.
* A conversion `int = <floating expression>` truncates toward zero (`to_int`).
* `board[i][j]` with an index outside `[0,9]` is an out-of-bounds read of a
  global array, undefined behaviour in C++: `board_at` returns `none` there
  and `draw` is `none` when such a read is executed. The short-circuit order
  of `||` decides which reads are executed and is kept.
* Rendering (matrices, VAOs, colours, `rotate_vector`, `board_pieces`, the
  camera `v_eye`), `printf` and `system("play ...")` do not influence the game
  state and are left out. The main loop leaves within one second after
  `game_check == -1` or `level == 4`; that wall-clock exit is not part of the
  model, so the model admits every event sequence the program can see.
-/

namespace BlockGame

/-! ## Data model -/

/-- Three float coordinates, as `glm::vec3` (`center[0]`, `center[1]`, `center[2]`). -/
structure vec3 where
  x : ℚ
  y : ℚ
  z : ℚ
deriving DecidableEq

/-- The game-relevant fields of `struct object_type` (lines 212-222). -/
structure object_type where
  height : ℚ
  width : ℚ
  length : ℚ
  rotate : ℚ
  rotate_check : Int
  center : vec3
deriving DecidableEq

/-- A board: `int board[10][10]`, a list of rows `board[i]`. -/
abbrev Board := List (List Int)

/-- The global variables of the program (lines 224-236 and 964). -/
structure Game where
  block : object_type
  no_of_moves : Int
  level : Int
  switch_check : Int
  x_check : Int
  z_check : Int
  x1_check : Int
  z1_check : Int
  game_check : Int
  base_check : Int
  board : Board
deriving DecidableEq

/-- Level table `board_1` (lines 237-249). -/
def board_1 : Board :=
  [ [1,1,1,1,1,1,0,0,0,0],
    [1,1,1,1,1,1,0,0,6,0],
    [1,1,0,0,1,1,0,0,1,0],
    [1,1,0,0,1,1,1,1,1,0],
    [1,1,0,0,0,1,0,1,1,1],
    [1,1,0,0,0,1,0,1,1,1],
    [1,1,0,0,0,0,0,1,1,1],
    [1,1,0,0,0,0,0,1,1,0],
    [1,1,1,1,1,1,1,1,1,0],
    [1,1,1,1,1,1,1,1,1,0] ]

/-- Level table `board_2` (lines 251-263). -/
def board_2 : Board :=
  [ [0,0,0,0,0,0,0,0,0,0],
    [0,1,1,1,1,1,1,0,6,0],
    [0,1,1,1,1,1,1,0,1,0],
    [1,1,1,0,0,3,0,1,1,1],
    [1,1,1,0,0,3,0,1,1,1],
    [1,1,1,0,0,1,0,1,1,1],
    [0,1,1,0,0,1,0,1,1,1],
    [0,1,1,0,0,4,0,1,1,1],
    [0,1,1,1,1,1,1,1,1,0],
    [0,1,1,1,1,1,1,1,1,0] ]

/-- Level table `board_3` (lines 266-278). -/
def board_3 : Board :=
  [ [0,0,0,1,1,1,0,0,0,0],
    [0,0,1,1,1,1,0,0,6,0],
    [1,1,1,1,1,1,0,0,1,0],
    [2,2,1,0,0,3,0,1,1,0],
    [1,1,1,0,0,3,0,1,1,0],
    [0,1,1,0,0,1,0,1,1,0],
    [1,1,1,0,0,4,0,1,1,0],
    [2,2,1,1,1,1,1,1,1,0],
    [1,1,1,1,1,1,1,1,1,1],
    [0,0,0,1,1,0,0,0,0,0] ]

/-- The read `board[i][j]`; `none` when an index is outside `[0,9]`
(out-of-bounds read). -/
def board_at (b : Board) (i j : Int) : Option Int :=
  if 0 ≤ i ∧ i < 10 ∧ 0 ≤ j ∧ j < 10 then (b.getD i.toNat []).get? j.toNat else none

/-- Conversion of a floating value to `int`: truncation toward zero. -/
def to_int (q : ℚ) : Int := Int.tdiv q.num q.den

/-! ## `keyboard` (lines 284-369) -/

/-- The keys `keyboard` distinguishes on release; every key that does not
touch the game state (C, P, X, D, A, W, S, anything else) is `OTHER`. -/
inductive Key where
  | LEFT
  | RIGHT
  | UP
  | DOWN
  | OTHER
deriving DecidableEq

/-- GLFW key action. -/
inductive Action where
  | RELEASE
  | PRESS
deriving DecidableEq

/-- The callback `keyboard`: on release of an arrow key the tumble direction
is stored and the angle reset, with no test of the current phase or outcome. -/
def keyboard (key : Key) (action : Action) (g : Game) : Game :=
  match action with
  | .RELEASE =>
    match key with
    | .LEFT => { g with block := { g.block with rotate_check := -1, rotate := 0 } }
    | .RIGHT => { g with block := { g.block with rotate_check := 1, rotate := 0 } }
    | .UP => { g with block := { g.block with rotate_check := 2, rotate := 0 } }
    | .DOWN => { g with block := { g.block with rotate_check := -2, rotate := 0 } }
    | .OTHER => g
  | .PRESS => g

/-! ## `createBoard` (lines 922-957) -/

/-- The function `createBoard`: copies the table of the current level into
`board`; for any other level the board is left as it is. -/
def createBoard (g : Game) : Game :=
  if g.level = 1 then { g with board := board_1 }
  else if g.level = 2 then { g with board := board_2 }
  else if g.level = 3 then { g with board := board_3 }
  else g

/-! ## `draw`: the geometric transform of each directional branch -/

/-- Left branch, lines 1095-1106: centre shift, height correction, the
three-step exchange of height and length, `base_check`, back to idle. -/
def turn_left (g : Game) : Game :=
  let c0 := g.block.center.x - g.block.length / 2 - g.block.height / 2
  let c1 := if g.block.length ≠ g.block.height then g.block.center.y - 0.25 * g.base_check
            else g.block.center.y
  let h1 := g.block.length - g.block.height
  let l2 := g.block.length - h1
  let h3 := h1 + l2
  { g with
    block := { g.block with
      center := { g.block.center with x := c0, y := c1 },
      height := h3, length := l2, rotate_check := 0, rotate := 0 },
    base_check := if h3 ≠ 1 then -1 else 1 }

/-- Right branch, lines 1241-1254. -/
def turn_right (g : Game) : Game :=
  let c0 := g.block.center.x + g.block.length / 2 + g.block.height / 2
  let c1 := if g.block.length ≠ g.block.height then g.block.center.y - 0.25 * g.base_check
            else g.block.center.y
  let h1 := g.block.length - g.block.height
  let l2 := g.block.length - h1
  let h3 := h1 + l2
  { g with
    block := { g.block with
      center := { g.block.center with x := c0, y := c1 },
      height := h3, length := l2, rotate_check := 0, rotate := 0 },
    base_check := if h3 ≠ 1 then -1 else 1 }

/-- Up branch (forward), lines 1387-1400. -/
def turn_up (g : Game) : Game :=
  let c2 := g.block.center.z - g.block.width / 2 - g.block.height / 2
  let c1 := if g.block.width ≠ g.block.height then g.block.center.y - 0.25 * g.base_check
            else g.block.center.y
  let h1 := g.block.width - g.block.height
  let w2 := g.block.width - h1
  let h3 := h1 + w2
  { g with
    block := { g.block with
      center := { g.block.center with z := c2, y := c1 },
      height := h3, width := w2, rotate_check := 0, rotate := 0 },
    base_check := if h3 ≠ 1 then -1 else 1 }

/-- Down branch (back), lines 1528-1539. -/
def turn_down (g : Game) : Game :=
  let c2 := g.block.center.z + g.block.width / 2 + g.block.height / 2
  let c1 := if g.block.width ≠ g.block.height then g.block.center.y - 0.25 * g.base_check
            else g.block.center.y
  let h1 := g.block.width - g.block.height
  let w2 := g.block.width - h1
  let h3 := h1 + w2
  { g with
    block := { g.block with
      center := { g.block.center with z := c2, y := c1 },
      height := h3, width := w2, rotate_check := 0, rotate := 0 },
    base_check := if h3 ≠ 1 then -1 else 1 }

/-! ## `draw`: the rule checks of each directional branch -/

/-- The statement pair `no_of_moves++; game_check=-1;`. -/
def lose (g : Game) : Game :=
  { g with no_of_moves := g.no_of_moves + 1, game_check := -1 }

/-- The statement `no_of_moves++;`. -/
def count (g : Game) : Game :=
  { g with no_of_moves := g.no_of_moves + 1 }

/-- The statements `game_check=1; level++; no_of_moves++;`. -/
def clear (g : Game) : Game :=
  { g with game_check := 1, level := g.level + 1, no_of_moves := g.no_of_moves + 1 }

/-- The switch flip: `if(switch_check==0) switch_check=1; else if (switch_check==1) switch_check=0;`. -/
def flip (g : Game) : Game :=
  if g.switch_check = 0 then { g with switch_check := 1 }
  else if g.switch_check = 1 then { g with switch_check := 0 }
  else g

/-- Index pair of a standing block: `x_check=(center[0]+2.5)/0.5; z_check=(-center[2]+2.5)/0.5;`. -/
def index_standing (g : Game) : Game :=
  { g with
    x_check := to_int ((g.block.center.x + 2.5) / 0.5),
    z_check := to_int ((-g.block.center.z + 2.5) / 0.5) }

/-- Index pairs of a block lying along X (`length==1`), e.g. lines 1152-1155. -/
def index_lying_x (g : Game) : Game :=
  { g with
    x_check := to_int ((g.block.center.x + 0.25 + 2.5) / 0.5),
    z_check := to_int ((-g.block.center.z + 2.5) / 0.5),
    x1_check := to_int ((g.block.center.x - 0.25 + 2.5) / 0.5),
    z1_check := to_int ((-g.block.center.z + 2.5) / 0.5) }

/-- Index pairs of a block lying along Z (`width==1`), e.g. lines 1194-1197. -/
def index_lying_z (g : Game) : Game :=
  { g with
    z_check := to_int ((-g.block.center.z + 0.25 + 2.5) / 0.5),
    x_check := to_int ((g.block.center.x + 2.5) / 0.5),
    z1_check := to_int ((-g.block.center.z - 0.25 + 2.5) / 0.5),
    x1_check := to_int ((g.block.center.x + 2.5) / 0.5) }

/-- Standing rule chain in the order of the left and down branches
(lines 1112-1146 and 1545-1576): 0 or 2, then 6, then 4, then 1. -/
def standing_rules_a (g : Game) : Option Game :=
  (board_at g.board g.x_check g.z_check).bind fun c =>
    if c = 0 ∨ c = 2 then some (lose g)
    else if c = 6 then some (clear g)
    else if c = 4 then some (count (flip g))
    else if c = 1 then some (count g)
    else some g

/-- Standing rule chain in the order of the right and up branches
(lines 1260-1293 and 1406-1438): 0 or 2, then 6, then 1, then 4. -/
def standing_rules_b (g : Game) : Option Game :=
  (board_at g.board g.x_check g.z_check).bind fun c =>
    if c = 0 ∨ c = 2 then some (lose g)
    else if c = 6 then some (clear g)
    else if c = 1 then some (count g)
    else if c = 4 then some (count (flip g))
    else some g

/-- Lying rule chain `if / else if / else if / else` over the two cells
(lines 1157-1190, 1199-1231, 1304-1337, 1449-1480, 1489-1519, 1587-1617,
1626-1655). The second cell is read only when the first is not 0. -/
def lying_rules (g : Game) : Option Game :=
  (board_at g.board g.x_check g.z_check).bind fun a =>
    if a = 0 then some (lose g)
    else
      (board_at g.board g.x1_check g.z1_check).bind fun b =>
        if b = 0 then some (lose g)
        else if a = 4 ∨ b = 4 then some (count (flip g))
        else if a = 2 ∨ b = 2 then
          if a * b = 4 then some (count g)
          else if a * b ≠ 4 then some (lose g)
          else some g
        else some (count g)

/-- Lying rule chain of the right branch for `width==1` (lines 1346-1378):
the test for code 4 starts a new `if` instead of continuing with `else if`,
so it also runs after the test for code 0 has fired. Both cells are read. -/
def lying_rules_right_z (g : Game) : Option Game :=
  (board_at g.board g.x_check g.z_check).bind fun a =>
    (board_at g.board g.x1_check g.z1_check).bind fun b =>
      let g1 := if a = 0 ∨ b = 0 then lose g else g
      if a = 4 ∨ b = 4 then some (count (flip g1))
      else if a = 2 ∨ b = 2 then
        if a * b = 4 then some (count g1)
        else if a * b ≠ 4 then some (lose g1)
        else some g1
      else some (count g1)

/-- The nesting `if(height==1) ... if(height==0.5) { if(length==1) ... if(width==1) ... }`
shared by the four branches, over the rule chains of a branch. -/
def check_with (on_standing on_lying_x on_lying_z : Game → Option Game) (g : Game) :
    Option Game :=
  (if g.block.height = 1 then on_standing (index_standing g) else some g).bind fun g1 =>
    if g1.block.height = 0.5 then
      (if g1.block.length = 1 then on_lying_x (index_lying_x g1) else some g1).bind fun g2 =>
        if g2.block.width = 1 then on_lying_z (index_lying_z g2) else some g2
    else some g1

/-- Rule checks of the left branch, lines 1107-1233. -/
def check_left : Game → Option Game :=
  check_with standing_rules_a lying_rules lying_rules

/-- Rule checks of the right branch, lines 1255-1380. -/
def check_right : Game → Option Game :=
  check_with standing_rules_b lying_rules lying_rules_right_z

/-- Rule checks of the up branch, lines 1401-1521. -/
def check_up : Game → Option Game :=
  check_with standing_rules_b lying_rules lying_rules

/-- Rule checks of the down branch, lines 1540-1657. -/
def check_down : Game → Option Game :=
  check_with standing_rules_a lying_rules lying_rules

/-! ## `draw`: dispatch, animation and level reset -/

/-- The four tumble directions, named after the spec's commands. -/
inductive Dir where
  | Left
  | Right
  | Forward
  | Back
deriving DecidableEq

/-- Value of `rotate_check` that selects the branch of a direction. -/
def Dir.code : Dir → Int
  | .Left => -1
  | .Right => 1
  | .Forward => 2
  | .Back => -2

/-- Arrow key of a direction. -/
def Dir.key : Dir → Key
  | .Left => .LEFT
  | .Right => .RIGHT
  | .Forward => .UP
  | .Back => .DOWN

/-- Geometric transform of the branch of a direction. -/
def turn : Dir → Game → Game
  | .Left => turn_left
  | .Right => turn_right
  | .Forward => turn_up
  | .Back => turn_down

/-- Rule checks of the branch of a direction. -/
def check : Dir → Game → Option Game
  | .Left => check_left
  | .Right => check_right
  | .Forward => check_up
  | .Back => check_down

/-- One `if(block.rotate_check==...) { ... }` block of the commit part. The
closing `createblock(center, length, height, width, ...)` stores the
values the block already has and is the identity on the game state. -/
def branch (d : Dir) (g : Game) : Option Game :=
  if g.block.rotate_check = d.code then check d (turn d g) else some g

/-- The block `if(game_check==1) { ... }`, lines 1664-1676. -/
def level_reset (g : Game) : Game :=
  let g1 := createBoard g
  { g1 with
    block := { g1.block with
      length := 0.5, height := 1, width := 0.5, center := ⟨0, 0, 0⟩,
      rotate_check := 0, rotate := 0 },
    game_check := 0,
    switch_check := 0 }

/-- End of a frame: the level reset when `game_check==1`. -/
def finish (g : Game) : Game :=
  if g.game_check = 1 then level_reset g else g

/-- One call of `draw` (one frame tick), lines 1086-1676: either the angle
advances by `5*2`, or the four branches run in the order left, right, up,
down; then the level reset. -/
def draw (g : Game) : Option Game :=
  (if g.block.rotate < 90 ∧ g.block.rotate_check ≠ 0 then
      some { g with block := { g.block with rotate := g.block.rotate + 5 * 2 } }
    else
      (branch .Left g).bind fun a =>
        (branch .Right a).bind fun b =>
          (branch .Forward b).bind fun c =>
            branch .Back c).map finish

/-- The state after the global initialisers and `initGL`:
`createblock(0,0,0,0.5,1,0.5,...)` and `createBoard()` at level 1. -/
def init : Game :=
  createBoard
    { block := { height := 1, width := 0.5, length := 0.5, rotate := 0, rotate_check := 0,
                 center := ⟨0, 0, 0⟩ },
      no_of_moves := 0, level := 1, switch_check := 0,
      x_check := -1, z_check := -1, x1_check := -1, z1_check := -1,
      game_check := 0, base_check := 1,
      board := List.replicate 10 (List.replicate 10 0) }

/-- The run of `n` successive frame ticks. -/
def ticks : Nat → Game → Option Game
  | 0, g => some g
  | n + 1, g => (draw g).bind (ticks n)

/-- A complete move: release of the arrow key of a direction followed by
the ten frame ticks of its tumble (nine that advance the angle from 0 to
90 and the one that commits). -/
def move (d : Dir) (g : Game) : Option Game :=
  ticks 10 (keyboard d.key .RELEASE g)

/-- States the program can reach: from `init` by key events and frame ticks. -/
inductive Reachable : Game → Prop where
  | start : Reachable init
  | key (k : Key) (a : Action) {g : Game} : Reachable g → Reachable (keyboard k a g)
  | tick {g g1 : Game} : Reachable g → draw g = some g1 → Reachable g1

/-! ## Shapes, footprints and auxiliary definitions -/

/-- Standing block: extents (length, height, width) = (0.5, 1, 0.5). -/
def standing (b : object_type) : Prop := b.length = 0.5 ∧ b.height = 1 ∧ b.width = 0.5

/-- Block lying along X: extents (1, 0.5, 0.5). -/
def lying_x (b : object_type) : Prop := b.length = 1 ∧ b.height = 0.5 ∧ b.width = 0.5

/-- Block lying along Z: extents (0.5, 0.5, 1). -/
def lying_z (b : object_type) : Prop := b.length = 0.5 ∧ b.height = 0.5 ∧ b.width = 1

instance (b : object_type) : Decidable (standing b) := by unfold standing; infer_instance

instance (b : object_type) : Decidable (lying_x b) := by unfold lying_x; infer_instance

instance (b : object_type) : Decidable (lying_z b) := by unfold lying_z; infer_instance

/-- The cell under a standing block, as `index_standing` computes it. -/
def cell (b : object_type) : Int × Int :=
  (to_int ((b.center.x + 2.5) / 0.5), to_int ((-b.center.z + 2.5) / 0.5))

/-- First cell `(x_check, z_check)` under a block lying along X, as
`index_lying_x` computes it. -/
def cell_x0 (b : object_type) : Int × Int :=
  (to_int ((b.center.x + 0.25 + 2.5) / 0.5), to_int ((-b.center.z + 2.5) / 0.5))

/-- Second cell `(x1_check, z1_check)` under a block lying along X. -/
def cell_x1 (b : object_type) : Int × Int :=
  (to_int ((b.center.x - 0.25 + 2.5) / 0.5), to_int ((-b.center.z + 2.5) / 0.5))

/-- First cell `(x_check, z_check)` under a block lying along Z, as
`index_lying_z` computes it. -/
def cell_z0 (b : object_type) : Int × Int :=
  (to_int ((b.center.x + 2.5) / 0.5), to_int ((-b.center.z + 0.25 + 2.5) / 0.5))

/-- Second cell `(x1_check, z1_check)` under a block lying along Z. -/
def cell_z1 (b : object_type) : Int × Int :=
  (to_int ((b.center.x + 2.5) / 0.5), to_int ((-b.center.z - 0.25 + 2.5) / 0.5))

/-- The grid cells the rule checks look up for a block, following the
nesting of `check_with`. -/
def footprint (b : object_type) : List (Int × Int) :=
  if b.height = 1 then [cell b]
  else if b.height = 0.5 then
    (if b.length = 1 then [cell_x0 b, cell_x1 b] else []) ++
      (if b.width = 1 then [cell_z0 b, cell_z1 b] else [])
  else []

/-- The tile code under a cell of the grid, `none` off the grid. -/
def tile (b : Board) (c : Int × Int) : Option Int := board_at b c.1 c.2

/-- Result of both standing rule chains for a cell holding code `c`. -/
def standing_outcome (c : Int) (g : Game) : Game :=
  if c = 0 ∨ c = 2 then lose g
  else if c = 6 then clear g
  else if c = 4 then count (flip g)
  else if c = 1 then count g
  else g

/-- Result of the lying rule chain `lying_rules` for cells holding `a` and `b`. -/
def lying_outcome (a b : Int) (g : Game) : Game :=
  if a = 0 ∨ b = 0 then lose g
  else if a = 4 ∨ b = 4 then count (flip g)
  else if a = 2 ∨ b = 2 then (if a * b = 4 then count g else lose g)
  else count g

/-- Result of the rule chain `lying_rules_right_z` for cells holding `a` and `b`. -/
def lying_outcome_right_z (a b : Int) (g : Game) : Game :=
  if a = 4 ∨ b = 4 then count (flip (if a = 0 ∨ b = 0 then lose g else g))
  else if a = 2 ∨ b = 2 then
    (if a * b = 4 then count (if a = 0 ∨ b = 0 then lose g else g)
     else lose (if a = 0 ∨ b = 0 then lose g else g))
  else count (if a = 0 ∨ b = 0 then lose g else g)

/-- Result of the rule chain of a direction for a block lying along Z. -/
def lying_z_outcome : Dir → Int → Int → Game → Game
  | .Right => lying_outcome_right_z
  | _ => lying_outcome

/-- The three shapes a block can have. -/
def valid_shape (b : object_type) : Prop := standing b ∨ lying_x b ∨ lying_z b

/-- Every cell of the footprint of a block lies on the 10x10 grid of the board. -/
def on_grid (brd : Board) (b : object_type) : Prop :=
  ∀ c ∈ footprint b, (tile brd c).isSome

instance (b : object_type) : Decidable (valid_shape b) := by unfold valid_shape; infer_instance

instance (brd : Board) (b : object_type) : Decidable (on_grid brd b) := by
  unfold on_grid; infer_instance

/-- The commit tick of a tumble in direction `d`: the direction is stored
and the angle is no longer below 90. -/
def committing (d : Dir) (g : Game) : Prop :=
  g.block.rotate_check = d.code ∧ ¬ g.block.rotate < 90

instance (d : Dir) (g : Game) : Decidable (committing d g) := by unfold committing; infer_instance

/-- The state of a game at the commit tick of a tumble in direction `d`: the
direction is stored and the angle has reached 90. -/
def at_commit (d : Dir) (g : Game) : Game :=
  { g with block := { g.block with rotate_check := d.code, rotate := 90 } }

/-- A game on a given board with a given block (length, height, width and
centre) and correction sign, all counters as at the start. -/
def place (brd : Board) (lvl : Int) (l h w : ℚ) (c : vec3) (bc : Int) : Game :=
  { init with
    board := brd, level := lvl, base_check := bc,
    block := { init.block with length := l, height := h, width := w, center := c } }

/-- What no rule chain changes: block, board and correction sign. -/
def SameBlock (g g1 : Game) : Prop :=
  g1.block = g.block ∧ g1.board = g.board ∧ g1.base_check = g.base_check

/-- Standing rule chain of a direction. -/
def standing_rules : Dir → Game → Option Game
  | .Left => standing_rules_a
  | .Right => standing_rules_b
  | .Forward => standing_rules_b
  | .Back => standing_rules_a

/-- Rule chain of a direction for a block lying along Z. -/
def lying_z_rules : Dir → Game → Option Game
  | .Right => lying_rules_right_z
  | _ => lying_rules

/-- A rule chain that does not clear the level: block, board, correction
sign and level are kept and the outcome is kept or becomes Lost. -/
def Plain (s t : Game) : Prop :=
  SameBlock s t ∧ t.level = s.level ∧ (t.game_check = s.game_check ∨ t.game_check = -1)

/-- The block of every level start: standing on the centre of the board, idle. -/
def spawn_block : object_type :=
  { height := 1, width := 0.5, length := 0.5, rotate := 0, rotate_check := 0, center := ⟨0, 0, 0⟩ }

/-- The block stands on cell `(x, z)`: centre at the world position of that
cell (`-2.5 + x*0.5`, `2.5 - z*0.5`, as in `createBoard`), base on the floor. -/
def stands_at (g : Game) (x z : Int) : Prop :=
  standing g.block ∧ g.block.center = ⟨-2.5 + x * 0.5, 0, 2.5 - z * 0.5⟩ ∧ g.base_check = 1

/-- The block lies along X on cells `(x, z)` and `(x+1, z)`. -/
def lies_x_at (g : Game) (x z : Int) : Prop :=
  lying_x g.block ∧ g.block.center = ⟨-2.5 + x * 0.5 + 0.25, -0.25, 2.5 - z * 0.5⟩ ∧
    g.base_check = -1

/-- The block lies along Z on cells `(x, z)` and `(x, z+1)`. -/
def lies_z_at (g : Game) (x z : Int) : Prop :=
  lying_z g.block ∧ g.block.center = ⟨-2.5 + x * 0.5, -0.25, 2.5 - z * 0.5 - 0.25⟩ ∧
    g.base_check = -1

/-- The block is aligned with the grid: it stands on a cell or lies on two
neighbouring cells, with its base on the floor plane. -/
def posed (g : Game) : Prop :=
  ∃ x z : Int, stands_at g x z ∨ lies_x_at g x z ∨ lies_z_at g x z

/-- A block of height 1 is on a cell of the grid that does not hold code 6. -/
def off_goal (g : Game) : Prop :=
  g.block.height = 1 → ∃ c, tile g.board (cell g.block) = some c ∧ c ≠ 6

/-- The board is one of the three level tables. -/
def level_board (b : Board) : Prop := b = board_1 ∨ b = board_2 ∨ b = board_3

/-- Invariant of the reachable states. -/
def Inv (g : Game) : Prop :=
  g.game_check ≠ 1 ∧ posed g ∧ off_goal g ∧ level_board g.board

/-- A game with a tumble in direction `d` in flight at angle `r`. -/
def with_angle (d : Dir) (g : Game) (r : ℚ) : Game :=
  { g with block := { g.block with rotate_check := d.code, rotate := r } }

/-- The four recorded indices are the same in two states. -/
def SameIndex (s t : Game) : Prop :=
  t.x_check = s.x_check ∧ t.z_check = s.z_check ∧ t.x1_check = s.x1_check ∧
    t.z1_check = s.z1_check

/-- Opposite directions, in either order. -/
def opposite (d e : Dir) : Prop :=
  (d = .Right ∧ e = .Left) ∨ (d = .Left ∧ e = .Right) ∨
  (d = .Forward ∧ e = .Back) ∨ (d = .Back ∧ e = .Forward)

/-- A sequence of complete moves, each run to its commit tick. -/
def moves : List Dir → Game → Option Game
  | [], g => some g
  | d :: ds, g => (move d g).bind (moves ds)

/-- The extent of a block along the axis of a tumble: length for Left and
Right, width for Forward and Back. -/
def along (d : Dir) (b : object_type) : ℚ :=
  match d with
  | .Left => b.length
  | .Right => b.length
  | .Forward => b.width
  | .Back => b.width

/-- A sequence of safe moves that clears level 1 from its spawn. -/
def solve_1 : List Dir :=
  [.Left, .Left, .Left, .Back, .Back, .Back, .Back, .Right, .Right, .Right, .Right, .Right,
   .Forward, .Forward, .Forward, .Forward, .Left, .Left, .Forward, .Left, .Back, .Right,
   .Forward, .Left, .Left, .Left]

/-- A sequence of safe moves that clears level 2 from its spawn. -/
def solve_2 : List Dir :=
  [.Right, .Right, .Forward, .Forward, .Left, .Forward, .Left, .Back, .Left, .Forward, .Right,
   .Back, .Left, .Left, .Left]

/-- A sequence of safe moves that clears level 3 from its spawn. -/
def solve_3 : List Dir :=
  [.Right, .Right, .Forward, .Left, .Forward, .Left, .Left, .Left, .Left]

/-- The state after `solve_1`, `solve_2` and all but the last move of
`solve_3`: level 3, block lying along X on cells (2,8) and (3,8), next to
the Goal cell (1,8). -/
def before_win : Game :=
  { block := { height := 0.5, width := 0.5, length := 1, rotate := 0, rotate_check := 0,
               center := ⟨-1.25, -0.25, -1.5⟩ },
    no_of_moves := 49, level := 3, switch_check := 1,
    x_check := 3, z_check := 8, x1_check := 2, z1_check := 8,
    game_check := 0, base_check := -1, board := board_3 }

/-- The state after the last move of `solve_3`: level index 4, block reset. -/
def after_win : Game :=
  { block := { height := 1, width := 0.5, length := 0.5, rotate := 0, rotate_check := 0,
               center := ⟨0, 0, 0⟩ },
    no_of_moves := 50, level := 4, switch_check := 0,
    x_check := 1, z_check := 8, x1_check := 2, z1_check := 8,
    game_check := 0, base_check := 1, board := board_3 }

/-- The tile codes of the data model: Void, Floor, Fragile, Bridge, Switch, Goal. -/
def tile_codes : List Int := [0, 1, 2, 3, 4, 6]

/-- A table is 10x10 with every entry a tile code. -/
def well_formed (b : Board) : Prop :=
  b.length = 10 ∧ ∀ row ∈ b, row.length = 10 ∧ ∀ c ∈ row, c ∈ tile_codes

instance (b : Board) : Decidable (well_formed b) := by unfold well_formed; infer_instance

/-- The state reached from the initial state by the twenty safe moves
L L L B B B B R R R R R F R F F F L L F: level 1, Playing, score 20, block
lying along Z on cells (6,8) and (6,9). -/
def before_edge : Game :=
  { block := { height := 0.5, width := 1, length := 0.5, rotate := 0, rotate_check := 0,
               center := ⟨0.5, -0.25, -1.75⟩ },
    no_of_moves := 20, level := 1, switch_check := 0,
    x_check := 6, z_check := 9, x1_check := 6, z1_check := 8,
    game_check := 0, base_check := -1, board := board_1 }

/-- The start of a level: its table, the spawn block, switch off, Playing. -/
def spawn (brd : Board) (lvl : Int) : Game :=
  place brd lvl 0.5 1 0.5 ⟨0, 0, 0⟩ 1

/-- A sequence of complete moves each of which lands with its whole
footprint on the grid, returns, leaves the session Playing and keeps the
level. -/
def safe_path : List Dir → Game → Bool
  | [], _ => true
  | d :: ds, g =>
    decide (on_grid g.board (turn d g).block) &&
      match move d g with
      | some g1 => g1.game_check == 0 && g1.level == g.level && safe_path ds g1
      | none => false

/-- A complete move that lands standing on a cell of the grid holding 6 and
returns with the level incremented. -/
def wins (d : Dir) (g : Game) : Prop :=
  standing (turn d g).block ∧ tile g.board (cell (turn d g).block) = some 6 ∧
    (move d g).map (fun g1 => g1.level) = some (g.level + 1)

instance (d : Dir) (g : Game) : Decidable (wins d g) := by unfold wins; infer_instance

/-- A state with the switch flag masked: two states agree in everything but
`switch_check` exactly when their masked states are equal. -/
def erase_switch (g : Game) : Game := { g with switch_check := 0 }

/-- An input event: a key event or a frame tick. -/
inductive Event where
  | key (k : Key) (a : Action)
  | tick

/-- The effect of one event. -/
def step : Event → Game → Option Game
  | .key k a, g => some (keyboard k a g)
  | .tick, g => draw g

/-- The effect of a sequence of events, in order. -/
def run : List Event → Game → Option Game
  | [], g => some g
  | e :: es, g => (step e g).bind (run es)

/-- A computation whose result, up to the switch flag, does not depend on
the switch flag of its input. -/
def Blind (f : Game → Option Game) : Prop :=
  ∀ g, (f g).map erase_switch = (f (erase_switch g)).map erase_switch

/-- The two cells do not hold the codes 2 and 4, in either order. -/
def pair_clear (brd : Board) (p q : Int × Int) : Prop :=
  ¬ ((tile brd p = some 2 ∧ tile brd q = some 4) ∨ (tile brd p = some 4 ∧ tile brd q = some 2))

/-- On the board no cell holding 2 has a neighbour, along a row or along a
column, holding 4. -/
def fragile_apart_from_switch (brd : Board) : Prop :=
  ∀ i ∈ List.range 10, ∀ j ∈ List.range 10,
    pair_clear brd ((i : Int) + 1, (j : Int)) ((i : Int), (j : Int)) ∧
    pair_clear brd ((i : Int), (j : Int) + 1) ((i : Int), (j : Int))

instance (brd : Board) (p q : Int × Int) : Decidable (pair_clear brd p q) := by
  unfold pair_clear; infer_instance

instance (brd : Board) : Decidable (fragile_apart_from_switch brd) := by
  unfold fragile_apart_from_switch; infer_instance

/-- The state on level 3 reached from the start by `solve_1`, `solve_2` and
the moves Right, Right, Back, Back, Left: the block lies along X on the
cells (6,2) and (7,2); the move Back lands it on (7,1), Fragile, and (6,1),
Floor. -/
def before_fragile : Game :=
  { block := { height := 0.5, width := 0.5, length := 1, rotate := 0, rotate_check := 0,
               center := ⟨0.75, -0.25, 1.5⟩ },
    no_of_moves := 46, level := 3, switch_check := 1,
    x_check := 7, z_check := 2, x1_check := 6, z1_check := 2,
    game_check := 0, base_check := -1, board := board_3 }

/-- Centre of the piece drawn for cell `(i, j)` of the board, as `createBoard`
places it (line 953): `vec3(-2.5+i*0.5, -0.5-0.125, 2.5-j*0.5)`. -/
def piece_center (i j : Int) : vec3 :=
  ⟨-2.5 + i * 0.5, -0.5 - 0.125, 2.5 - j * 0.5⟩

/-! ## Theorems -/

theorem sameBlock_refl (g : Game) : SameBlock g g := ⟨rfl, rfl, rfl⟩

theorem sameBlock_trans {a b c : Game} (h1 : SameBlock a b) (h2 : SameBlock b c) : SameBlock a c :=
  ⟨h2.1.trans h1.1, h2.2.1.trans h1.2.1, h2.2.2.trans h1.2.2⟩

theorem flip_same (g : Game) : SameBlock g (flip g) := by
  unfold flip SameBlock
  split_ifs <;> simp

theorem standing_rules_a_same {g g1 : Game} (h : standing_rules_a g = some g1) : SameBlock g g1 := by
  unfold standing_rules_a at h
  cases hc : board_at g.board g.x_check g.z_check with
  | none => simp [hc] at h
  | some c =>
    simp only [hc, Option.bind_eq_bind, Option.some_bind, Option.pure_def] at h
    have hf := flip_same g
    split_ifs at h <;> simp at h <;> subst h <;>
      first
        | exact ⟨hf.1, hf.2.1, hf.2.2⟩
        | exact ⟨rfl, rfl, rfl⟩

theorem standing_rules_b_same {g g1 : Game} (h : standing_rules_b g = some g1) : SameBlock g g1 := by
  unfold standing_rules_b at h
  cases hc : board_at g.board g.x_check g.z_check with
  | none => simp [hc] at h
  | some c =>
    simp only [hc, Option.bind_eq_bind, Option.some_bind, Option.pure_def] at h
    have hf := flip_same g
    split_ifs at h <;> simp at h <;> subst h <;>
      first
        | exact ⟨hf.1, hf.2.1, hf.2.2⟩
        | exact ⟨rfl, rfl, rfl⟩

theorem lying_rules_same {g g1 : Game} (h : lying_rules g = some g1) : SameBlock g g1 := by
  unfold lying_rules at h
  cases ha : board_at g.board g.x_check g.z_check with
  | none => simp [ha] at h
  | some a =>
    simp only [ha, Option.bind_eq_bind, Option.some_bind, Option.pure_def] at h
    have hf := flip_same g
    by_cases ha0 : a = 0
    · simp [ha0] at h; subst h; exact ⟨rfl, rfl, rfl⟩
    · cases hb : board_at g.board g.x1_check g.z1_check with
      | none => simp [ha0, hb] at h
      | some b =>
        simp only [ha0, hb, if_false, Option.some_bind] at h
        split_ifs at h <;> simp at h <;> subst h <;>
          first
            | exact ⟨hf.1, hf.2.1, hf.2.2⟩
            | exact ⟨rfl, rfl, rfl⟩

theorem lying_rules_right_z_same {g g1 : Game} (h : lying_rules_right_z g = some g1) :
    SameBlock g g1 := by
  unfold lying_rules_right_z at h
  cases ha : board_at g.board g.x_check g.z_check with
  | none => simp [ha] at h
  | some a =>
    cases hb : board_at g.board g.x1_check g.z1_check with
    | none => simp [ha, hb] at h
    | some b =>
      simp only [ha, hb, Option.bind_eq_bind, Option.some_bind, Option.pure_def] at h
      have hf := flip_same g
      have hfl := flip_same (lose g)
      split_ifs at h <;> simp at h <;> subst h <;>
        first
          | exact ⟨hf.1, hf.2.1, hf.2.2⟩
          | exact ⟨hfl.1, hfl.2.1, hfl.2.2⟩
          | exact ⟨rfl, rfl, rfl⟩

theorem index_standing_same (g : Game) : SameBlock g (index_standing g) := ⟨rfl, rfl, rfl⟩

theorem index_lying_x_same (g : Game) : SameBlock g (index_lying_x g) := ⟨rfl, rfl, rfl⟩

theorem index_lying_z_same (g : Game) : SameBlock g (index_lying_z g) := ⟨rfl, rfl, rfl⟩

theorem check_with_same {s lx lz : Game → Option Game}
    (hs : ∀ g g1, s g = some g1 → SameBlock g g1)
    (hx : ∀ g g1, lx g = some g1 → SameBlock g g1)
    (hz : ∀ g g1, lz g = some g1 → SameBlock g g1)
    {g g1 : Game} (h : check_with s lx lz g = some g1) : SameBlock g g1 := by
  unfold check_with at h
  obtain ⟨a, ha, h⟩ := Option.bind_eq_some.mp h
  have h1 : SameBlock g a := by
    by_cases hh : g.block.height = 1
    · simp only [hh, if_true] at ha
      exact sameBlock_trans (index_standing_same g) (hs _ _ ha)
    · simp only [hh, if_false, Option.some.injEq] at ha
      subst ha; exact sameBlock_refl g
  refine sameBlock_trans h1 ?_
  by_cases hh : a.block.height = 0.5
  · simp only [hh, if_true] at h
    obtain ⟨b, hb, h⟩ := Option.bind_eq_some.mp h
    have h2 : SameBlock a b := by
      by_cases hl : a.block.length = 1
      · simp only [hl, if_true] at hb
        exact sameBlock_trans (index_lying_x_same a) (hx _ _ hb)
      · simp only [hl, if_false, Option.some.injEq] at hb
        subst hb; exact sameBlock_refl a
    refine sameBlock_trans h2 ?_
    by_cases hw : b.block.width = 1
    · simp only [hw, if_true] at h
      exact sameBlock_trans (index_lying_z_same b) (hz _ _ h)
    · simp only [hw, if_false, Option.some.injEq] at h
      subst h; exact sameBlock_refl b
  · simp only [hh, if_false, Option.some.injEq] at h
    subst h; exact sameBlock_refl a

theorem check_same {d : Dir} {g g1 : Game} (h : check d g = some g1) : SameBlock g g1 := by
  cases d <;> simp only [check, check_left, check_right, check_up, check_down] at h
  · exact check_with_same (fun _ _ => standing_rules_a_same) (fun _ _ => lying_rules_same)
      (fun _ _ => lying_rules_same) h
  · exact check_with_same (fun _ _ => standing_rules_b_same) (fun _ _ => lying_rules_same)
      (fun _ _ => lying_rules_right_z_same) h
  · exact check_with_same (fun _ _ => standing_rules_b_same) (fun _ _ => lying_rules_same)
      (fun _ _ => lying_rules_same) h
  · exact check_with_same (fun _ _ => standing_rules_a_same) (fun _ _ => lying_rules_same)
      (fun _ _ => lying_rules_same) h

theorem turn_rotate_check (d : Dir) (g : Game) : (turn d g).block.rotate_check = 0 := by
  cases d <;> rfl

/-- The standing rule chain of a direction. -/
theorem branch_other {d e : Dir} {g : Game} (h : g.block.rotate_check = d.code) (hne : e ≠ d) :
    branch e g = some g := by
  unfold branch
  have : ¬ g.block.rotate_check = e.code := by
    rw [h]; cases d <;> cases e <;> simp [Dir.code] at hne ⊢
  simp [this]

theorem branch_idle {e : Dir} {g : Game} (h : g.block.rotate_check = 0) :
    branch e g = some g := by
  unfold branch
  have : ¬ g.block.rotate_check = e.code := by
    rw [h]; cases e <;> simp [Dir.code]
  simp [this]

/-- On its commit tick a tumble runs the transform and the rule checks of
its own branch only, then the level reset. -/
theorem draw_commit {d : Dir} {g : Game} (h : committing d g) :
    draw g = (check d (turn d g)).map finish := by
  obtain ⟨hd, hr⟩ := h
  have hcond : ¬ (g.block.rotate < 90 ∧ g.block.rotate_check ≠ 0) := fun hc => hr hc.1
  have hown : branch d g = check d (turn d g) := by simp [branch, hd]
  unfold draw
  simp only [hcond, if_false, Option.bind_eq_bind, Option.pure_def]
  cases hres : check d (turn d g) with
  | none =>
    cases d
    · simp [hown, hres]
    · rw [branch_other hd (by decide : Dir.Left ≠ Dir.Right)]; simp [hown, hres]
    · rw [branch_other hd (by decide : Dir.Left ≠ Dir.Forward)]
      simp only [Option.some_bind]
      rw [branch_other hd (by decide : Dir.Right ≠ Dir.Forward)]; simp [hown, hres]
    · rw [branch_other hd (by decide : Dir.Left ≠ Dir.Back)]
      simp only [Option.some_bind]
      rw [branch_other hd (by decide : Dir.Right ≠ Dir.Back)]
      simp only [Option.some_bind]
      rw [branch_other hd (by decide : Dir.Forward ≠ Dir.Back)]; simp [hown, hres]
  | some t =>
    have ht : t.block.rotate_check = 0 := by
      rw [(check_same hres).1]; exact turn_rotate_check d g
    cases d
    · simp [hown, hres, branch_idle ht]
    · rw [branch_other hd (by decide : Dir.Left ≠ Dir.Right)]
      simp [hown, hres, branch_idle ht]
    · rw [branch_other hd (by decide : Dir.Left ≠ Dir.Forward)]
      simp only [Option.some_bind]
      rw [branch_other hd (by decide : Dir.Right ≠ Dir.Forward)]
      simp [hown, hres, branch_idle ht]
    · rw [branch_other hd (by decide : Dir.Left ≠ Dir.Back)]
      simp only [Option.some_bind]
      rw [branch_other hd (by decide : Dir.Right ≠ Dir.Back)]
      simp only [Option.some_bind]
      rw [branch_other hd (by decide : Dir.Forward ≠ Dir.Back)]
      simp [hown, hres, branch_idle ht]

theorem standing_rules_same {d : Dir} {g g1 : Game} (h : standing_rules d g = some g1) :
    SameBlock g g1 := by
  cases d <;> simp only [standing_rules] at h
  · exact standing_rules_a_same h
  · exact standing_rules_b_same h
  · exact standing_rules_b_same h
  · exact standing_rules_a_same h

theorem lying_z_rules_same {d : Dir} {g g1 : Game} (h : lying_z_rules d g = some g1) :
    SameBlock g g1 := by
  cases d <;> simp only [lying_z_rules] at h
  · exact lying_rules_same h
  · exact lying_rules_right_z_same h
  · exact lying_rules_same h
  · exact lying_rules_same h

theorem check_eq (d : Dir) :
    check d = check_with (standing_rules d) lying_rules (lying_z_rules d) := by
  cases d <;> rfl

theorem half_ne_one : ¬ ((0.5 : ℚ) = 1) := by norm_num

theorem one_ne_half : ¬ ((1 : ℚ) = 0.5) := by norm_num

theorem check_standing {d : Dir} {t : Game} (h : standing t.block) :
    check d t = standing_rules d (index_standing t) := by
  obtain ⟨_, hh, _⟩ := h
  rw [check_eq]
  unfold check_with
  simp only [hh, if_true, Option.bind_eq_bind, Option.pure_def]
  cases hres : standing_rules d (index_standing t) with
  | none => simp
  | some a =>
    have : a.block.height = 1 := by
      rw [(standing_rules_same hres).1]; exact hh
    simp [this, one_ne_half]

theorem check_lying_x {d : Dir} {t : Game} (h : lying_x t.block) :
    check d t = lying_rules (index_lying_x t) := by
  obtain ⟨hl, hh, hw⟩ := h
  rw [check_eq]
  unfold check_with
  simp only [hh, hl, half_ne_one, if_true, if_false, Option.bind_eq_bind, Option.pure_def,
    Option.some_bind]
  cases hres : lying_rules (index_lying_x t) with
  | none => simp
  | some a =>
    have : a.block.width = 0.5 := by
      rw [(lying_rules_same hres).1]; exact hw
    simp [this, half_ne_one]

theorem check_lying_z {d : Dir} {t : Game} (h : lying_z t.block) :
    check d t = lying_z_rules d (index_lying_z t) := by
  obtain ⟨hl, hh, hw⟩ := h
  rw [check_eq]
  unfold check_with
  simp [hh, hl, hw, half_ne_one]

theorem footprint_standing {b : object_type} (h : standing b) : footprint b = [cell b] := by
  simp [footprint, h.2.1]

theorem footprint_lying_x {b : object_type} (h : lying_x b) :
    footprint b = [cell_x0 b, cell_x1 b] := by
  simp [footprint, h.1, h.2.1, h.2.2, half_ne_one]

theorem footprint_lying_z {b : object_type} (h : lying_z b) :
    footprint b = [cell_z0 b, cell_z1 b] := by
  simp [footprint, h.1, h.2.1, h.2.2, half_ne_one]

theorem turn_board (d : Dir) (g : Game) : (turn d g).board = g.board := by
  cases d <;> rfl

theorem standing_rules_eval {d : Dir} {t : Game} {c : Int}
    (h : tile t.board (cell t.block) = some c) :
    standing_rules d (index_standing t) = some (standing_outcome c (index_standing t)) := by
  have h1 : board_at (index_standing t).board (index_standing t).x_check
      (index_standing t).z_check = some c := h
  cases d <;> simp only [standing_rules, standing_rules_a, standing_rules_b, h1,
    Option.some_bind, standing_outcome]
  all_goals split_ifs <;> first | rfl | omega

theorem lying_rules_eval {t : Game} {a b : Int}
    (ha : board_at t.board t.x_check t.z_check = some a)
    (hb : board_at t.board t.x1_check t.z1_check = some b) :
    lying_rules t = some (lying_outcome a b t) := by
  simp only [lying_rules, ha, hb, Option.some_bind, lying_outcome]
  split_ifs <;> simp_all

theorem lying_rules_right_z_eval {t : Game} {a b : Int}
    (ha : board_at t.board t.x_check t.z_check = some a)
    (hb : board_at t.board t.x1_check t.z1_check = some b) :
    lying_rules_right_z t = some (lying_outcome_right_z a b t) := by
  simp only [lying_rules_right_z, ha, hb, Option.some_bind, lying_outcome_right_z]
  split_ifs <;> simp_all

theorem lying_z_rules_eval {d : Dir} {t : Game} {a b : Int}
    (ha : board_at t.board t.x_check t.z_check = some a)
    (hb : board_at t.board t.x1_check t.z1_check = some b) :
    lying_z_rules d t = some (lying_z_outcome d a b t) := by
  cases d <;> simp only [lying_z_rules, lying_z_outcome]
  · exact lying_rules_eval ha hb
  · exact lying_rules_right_z_eval ha hb
  · exact lying_rules_eval ha hb
  · exact lying_rules_eval ha hb

/-- Commit tick of a tumble that ends standing on a cell of the grid. -/
theorem draw_standing {d : Dir} {g : Game} {c : Int} (hc : committing d g)
    (hs : standing (turn d g).block) (ht : tile g.board (cell (turn d g).block) = some c) :
    draw g = some (finish (standing_outcome c (index_standing (turn d g)))) := by
  rw [draw_commit hc, check_standing hs, standing_rules_eval (by rw [turn_board]; exact ht)]
  rfl

/-- Commit tick of a tumble that ends lying along X on two cells of the grid. -/
theorem draw_lying_x {d : Dir} {g : Game} {a b : Int} (hc : committing d g)
    (hs : lying_x (turn d g).block)
    (ha : tile g.board (cell_x0 (turn d g).block) = some a)
    (hb : tile g.board (cell_x1 (turn d g).block) = some b) :
    draw g = some (finish (lying_outcome a b (index_lying_x (turn d g)))) := by
  have ha1 : board_at (index_lying_x (turn d g)).board (index_lying_x (turn d g)).x_check
      (index_lying_x (turn d g)).z_check = some a := by
    rw [← turn_board d] at ha; exact ha
  have hb1 : board_at (index_lying_x (turn d g)).board (index_lying_x (turn d g)).x1_check
      (index_lying_x (turn d g)).z1_check = some b := by
    rw [← turn_board d] at hb; exact hb
  rw [draw_commit hc, check_lying_x hs, lying_rules_eval ha1 hb1]
  rfl

/-- Commit tick of a tumble that ends lying along Z on two cells of the grid. -/
theorem draw_lying_z {d : Dir} {g : Game} {a b : Int} (hc : committing d g)
    (hs : lying_z (turn d g).block)
    (ha : tile g.board (cell_z0 (turn d g).block) = some a)
    (hb : tile g.board (cell_z1 (turn d g).block) = some b) :
    draw g = some (finish (lying_z_outcome d a b (index_lying_z (turn d g)))) := by
  have ha1 : board_at (index_lying_z (turn d g)).board (index_lying_z (turn d g)).x_check
      (index_lying_z (turn d g)).z_check = some a := by
    rw [← turn_board d] at ha; exact ha
  have hb1 : board_at (index_lying_z (turn d g)).board (index_lying_z (turn d g)).x1_check
      (index_lying_z (turn d g)).z1_check = some b := by
    rw [← turn_board d] at hb; exact hb
  rw [draw_commit hc, check_lying_z hs, lying_z_rules_eval ha1 hb1]
  rfl

/-- A commit tick whose block ends in a valid shape on the grid is decided
by the tiles under the footprint. -/
theorem draw_cases {d : Dir} {g : Game} (hc : committing d g)
    (hs : valid_shape (turn d g).block) (hin : on_grid g.board (turn d g).block) :
    (standing (turn d g).block ∧ footprint (turn d g).block = [cell (turn d g).block] ∧
      ∃ c, tile g.board (cell (turn d g).block) = some c ∧
        draw g = some (finish (standing_outcome c (index_standing (turn d g))))) ∨
    (lying_x (turn d g).block ∧
      footprint (turn d g).block = [cell_x0 (turn d g).block, cell_x1 (turn d g).block] ∧
      ∃ a b, tile g.board (cell_x0 (turn d g).block) = some a ∧
        tile g.board (cell_x1 (turn d g).block) = some b ∧
        draw g = some (finish (lying_outcome a b (index_lying_x (turn d g))))) ∨
    (lying_z (turn d g).block ∧
      footprint (turn d g).block = [cell_z0 (turn d g).block, cell_z1 (turn d g).block] ∧
      ∃ a b, tile g.board (cell_z0 (turn d g).block) = some a ∧
        tile g.board (cell_z1 (turn d g).block) = some b ∧
        draw g = some (finish (lying_z_outcome d a b (index_lying_z (turn d g))))) := by
  rcases hs with hs | hs | hs
  · left
    have hf := footprint_standing hs
    have h1 := hin (cell (turn d g).block) (by rw [hf]; simp)
    obtain ⟨c, hcell⟩ := Option.isSome_iff_exists.mp h1
    exact ⟨hs, hf, c, hcell, draw_standing hc hs hcell⟩
  · right; left
    have hf := footprint_lying_x hs
    have h1 := hin (cell_x0 (turn d g).block) (by rw [hf]; simp)
    have h2 := hin (cell_x1 (turn d g).block) (by rw [hf]; simp)
    obtain ⟨a, ha⟩ := Option.isSome_iff_exists.mp h1
    obtain ⟨b, hb⟩ := Option.isSome_iff_exists.mp h2
    exact ⟨hs, hf, a, b, ha, hb, draw_lying_x hc hs ha hb⟩
  · right; right
    have hf := footprint_lying_z hs
    have h1 := hin (cell_z0 (turn d g).block) (by rw [hf]; simp)
    have h2 := hin (cell_z1 (turn d g).block) (by rw [hf]; simp)
    obtain ⟨a, ha⟩ := Option.isSome_iff_exists.mp h1
    obtain ⟨b, hb⟩ := Option.isSome_iff_exists.mp h2
    exact ⟨hs, hf, a, b, ha, hb, draw_lying_z hc hs ha hb⟩

theorem turn_game_check (d : Dir) (g : Game) : (turn d g).game_check = g.game_check := by
  cases d <;> rfl

theorem turn_level (d : Dir) (g : Game) : (turn d g).level = g.level := by
  cases d <;> rfl

theorem turn_switch_check (d : Dir) (g : Game) : (turn d g).switch_check = g.switch_check := by
  cases d <;> rfl

theorem turn_no_of_moves (d : Dir) (g : Game) : (turn d g).no_of_moves = g.no_of_moves := by
  cases d <;> rfl

theorem finish_of_ne {g : Game} (h : g.game_check ≠ 1) : finish g = g := by
  simp [finish, h]

theorem flip_game_check (g : Game) : (flip g).game_check = g.game_check := by
  unfold flip; split_ifs <;> rfl

theorem flip_level (g : Game) : (flip g).level = g.level := by
  unfold flip; split_ifs <;> rfl

theorem flip_no_of_moves (g : Game) : (flip g).no_of_moves = g.no_of_moves := by
  unfold flip; split_ifs <;> rfl

/-- A lying rule chain with a cell holding 0 ends with `game_check = -1`. -/
theorem lying_outcome_void {a b : Int} (t : Game) (h : a = 0 ∨ b = 0) :
    (lying_outcome a b t).game_check = -1 := by
  simp [lying_outcome, h, lose]

theorem lying_outcome_right_z_void {a b : Int} (t : Game) (h : a = 0 ∨ b = 0) :
    (lying_outcome_right_z a b t).game_check = -1 := by
  simp only [lying_outcome_right_z, h, if_true]
  split_ifs <;> simp [lose, count, flip_game_check]

theorem lying_z_outcome_void {a b : Int} (d : Dir) (t : Game) (h : a = 0 ∨ b = 0) :
    (lying_z_outcome d a b t).game_check = -1 := by
  cases d <;> simp only [lying_z_outcome]
  · exact lying_outcome_void t h
  · exact lying_outcome_right_z_void t h
  · exact lying_outcome_void t h
  · exact lying_outcome_void t h

/-- C1: on the commit tick of a tumble in any direction whose block ends
standing or lying on the grid, if a cell of the footprint holds code 0 then
the tick returns and the outcome after it is Lost (`game_check = -1`). -/
theorem void_is_lost (d : Dir) (g : Game) (hc : committing d g)
    (hs : valid_shape (turn d g).block) (hin : on_grid g.board (turn d g).block)
    (hv : ∃ c ∈ footprint (turn d g).block, tile g.board c = some 0) :
    ∃ g1, draw g = some g1 ∧ g1.game_check = -1 := by
  obtain ⟨c, hmem, hc0⟩ := hv
  rcases draw_cases hc hs hin with ⟨_, hf, c1, ht, hd⟩ | ⟨_, hf, a, b, ha, hb, hd⟩ |
      ⟨_, hf, a, b, ha, hb, hd⟩
  · rw [hf, List.mem_singleton] at hmem
    subst hmem
    have : c1 = 0 := by rw [ht] at hc0; exact Option.some.inj hc0
    subst this
    have hg : (standing_outcome 0 (index_standing (turn d g))).game_check = -1 := by
      simp [standing_outcome, lose]
    refine ⟨_, hd, ?_⟩
    rw [finish_of_ne (by rw [hg]; decide)]; exact hg
  · have hab : a = 0 ∨ b = 0 := by
      rw [hf] at hmem
      simp only [List.mem_cons, List.mem_singleton, List.not_mem_nil, or_false] at hmem
      rcases hmem with h | h
      · left; subst h; rw [ha] at hc0; exact Option.some.inj hc0
      · right; subst h; rw [hb] at hc0; exact Option.some.inj hc0
    have hg := lying_outcome_void (index_lying_x (turn d g)) hab
    refine ⟨_, hd, ?_⟩
    rw [finish_of_ne (by rw [hg]; decide)]; exact hg
  · have hab : a = 0 ∨ b = 0 := by
      rw [hf] at hmem
      simp only [List.mem_cons, List.mem_singleton, List.not_mem_nil, or_false] at hmem
      rcases hmem with h | h
      · left; subst h; rw [ha] at hc0; exact Option.some.inj hc0
      · right; subst h; rw [hb] at hc0; exact Option.some.inj hc0
    have hg := lying_z_outcome_void d (index_lying_z (turn d g)) hab
    refine ⟨_, hd, ?_⟩
    rw [finish_of_ne (by rw [hg]; decide)]; exact hg

theorem void_is_lost_witness :
    committing .Right (at_commit .Right init) ∧
    ∃ g1, draw (at_commit .Right init) = some g1 ∧ g1.game_check = -1 :=
  ⟨by decide!, void_is_lost .Right (at_commit .Right init) (by decide!) (by decide!) (by decide!)
    (by decide!)⟩

/-- C2: on the commit tick of a tumble in any direction, (1) a block that
ends standing on a cell holding code 2 gives Lost; (2) a block that ends
lying on two cells holding codes 2 and 1, in either order, gives Lost;
(3) a block that ends lying on two cells both holding code 2 leaves the
outcome as it was (the session not being in the transient cleared state)
and counts one move, with switch flag and level unchanged. -/
theorem fragile_rule (d : Dir) (g : Game) (hc : committing d g) :
    (standing (turn d g).block → tile g.board (cell (turn d g).block) = some 2 →
      ∃ g1, draw g = some g1 ∧ g1.game_check = -1) ∧
    (lying_x (turn d g).block ∨ lying_z (turn d g).block →
      ((footprint (turn d g).block).map (tile g.board) = [some 2, some 1] ∨
       (footprint (turn d g).block).map (tile g.board) = [some 1, some 2]) →
      ∃ g1, draw g = some g1 ∧ g1.game_check = -1) ∧
    (lying_x (turn d g).block ∨ lying_z (turn d g).block →
      (footprint (turn d g).block).map (tile g.board) = [some 2, some 2] →
      g.game_check ≠ 1 →
      ∃ g1, draw g = some g1 ∧ g1.game_check = g.game_check ∧
        g1.no_of_moves = g.no_of_moves + 1 ∧ g1.switch_check = g.switch_check ∧
        g1.level = g.level) := by
  refine ⟨?_, ?_, ?_⟩
  · intro hs ht
    refine ⟨_, draw_standing hc hs ht, ?_⟩
    have hg : (standing_outcome 2 (index_standing (turn d g))).game_check = -1 := by
      simp [standing_outcome, lose]
    rw [finish_of_ne (by rw [hg]; decide)]; exact hg
  · intro hs ht
    rcases hs with hs | hs
    · rw [footprint_lying_x hs] at ht
      simp only [List.map_cons, List.map_nil, List.cons.injEq, and_true] at ht
      have key : ∀ a b : Int, (a = 2 ∧ b = 1) ∨ (a = 1 ∧ b = 2) →
          tile g.board (cell_x0 (turn d g).block) = some a →
          tile g.board (cell_x1 (turn d g).block) = some b →
          ∃ g1, draw g = some g1 ∧ g1.game_check = -1 := by
        intro a b hab ha hb
        refine ⟨_, draw_lying_x hc hs ha hb, ?_⟩
        have hg : (lying_outcome a b (index_lying_x (turn d g))).game_check = -1 := by
          rcases hab with ⟨rfl, rfl⟩ | ⟨rfl, rfl⟩ <;> simp [lying_outcome, lose]
        rw [finish_of_ne (by rw [hg]; decide)]; exact hg
      rcases ht with ⟨h0, h1⟩ | ⟨h0, h1⟩
      · exact key 2 1 (Or.inl ⟨rfl, rfl⟩) h0 h1
      · exact key 1 2 (Or.inr ⟨rfl, rfl⟩) h0 h1
    · rw [footprint_lying_z hs] at ht
      simp only [List.map_cons, List.map_nil, List.cons.injEq, and_true] at ht
      have key : ∀ a b : Int, (a = 2 ∧ b = 1) ∨ (a = 1 ∧ b = 2) →
          tile g.board (cell_z0 (turn d g).block) = some a →
          tile g.board (cell_z1 (turn d g).block) = some b →
          ∃ g1, draw g = some g1 ∧ g1.game_check = -1 := by
        intro a b hab ha hb
        refine ⟨_, draw_lying_z hc hs ha hb, ?_⟩
        have hg : (lying_z_outcome d a b (index_lying_z (turn d g))).game_check = -1 := by
          rcases hab with ⟨rfl, rfl⟩ | ⟨rfl, rfl⟩ <;> cases d <;>
            simp [lying_z_outcome, lying_outcome, lying_outcome_right_z, lose]
        rw [finish_of_ne (by rw [hg]; decide)]; exact hg
      rcases ht with ⟨h0, h1⟩ | ⟨h0, h1⟩
      · exact key 2 1 (Or.inl ⟨rfl, rfl⟩) h0 h1
      · exact key 1 2 (Or.inr ⟨rfl, rfl⟩) h0 h1
  · intro hs ht hg1
    rcases hs with hs | hs
    · rw [footprint_lying_x hs] at ht
      simp only [List.map_cons, List.map_nil, List.cons.injEq, and_true] at ht
      refine ⟨_, draw_lying_x hc hs ht.1 ht.2, ?_⟩
      have ho : lying_outcome 2 2 (index_lying_x (turn d g)) =
          count (index_lying_x (turn d g)) := by
        simp [lying_outcome]
      have hgc : (count (index_lying_x (turn d g))).game_check = g.game_check :=
        turn_game_check d g
      rw [ho, finish_of_ne (by rw [hgc]; exact hg1)]
      refine ⟨hgc, ?_, turn_switch_check d g, turn_level d g⟩
      show (turn d g).no_of_moves + 1 = _
      rw [turn_no_of_moves]
    · rw [footprint_lying_z hs] at ht
      simp only [List.map_cons, List.map_nil, List.cons.injEq, and_true] at ht
      refine ⟨_, draw_lying_z hc hs ht.1 ht.2, ?_⟩
      have ho : lying_z_outcome d 2 2 (index_lying_z (turn d g)) =
          count (index_lying_z (turn d g)) := by
        cases d <;> simp [lying_z_outcome, lying_outcome, lying_outcome_right_z]
      have hgc : (count (index_lying_z (turn d g))).game_check = g.game_check :=
        turn_game_check d g
      rw [ho, finish_of_ne (by rw [hgc]; exact hg1)]
      refine ⟨hgc, ?_, turn_switch_check d g, turn_level d g⟩
      show (turn d g).no_of_moves + 1 = _
      rw [turn_no_of_moves]

theorem fragile_rule_witness :
    (∃ g1, draw (at_commit .Right (place board_3 3 1 0.5 0.5 ⟨-1.75, -0.25, 2.5⟩ (-1))) = some g1 ∧
      g1.game_check = -1) ∧
    (∃ g1, draw (at_commit .Right (place board_3 3 0.5 1 0.5 ⟨-1.5, 0, 2.5⟩ 1)) = some g1 ∧
      g1.game_check = -1) ∧
    (∃ g1, draw (at_commit .Right (place board_3 3 0.5 0.5 1 ⟨-1.5, -0.25, 2.25⟩ (-1))) = some g1 ∧
      g1.game_check = 0 ∧ g1.no_of_moves = 0 + 1 ∧ g1.switch_check = 0 ∧ g1.level = 3) :=
  ⟨(fragile_rule .Right (at_commit .Right (place board_3 3 1 0.5 0.5 ⟨-1.75, -0.25, 2.5⟩ (-1)))
      (by decide!)).1 (by decide!) (by decide!),
   (fragile_rule .Right (at_commit .Right (place board_3 3 0.5 1 0.5 ⟨-1.5, 0, 2.5⟩ 1))
      (by decide!)).2.1 (by decide!) (by decide!),
   (fragile_rule .Right (at_commit .Right (place board_3 3 0.5 0.5 1 ⟨-1.5, -0.25, 2.25⟩ (-1)))
      (by decide!)).2.2 (by decide!) (by decide!) (by decide!)⟩

/-- C3: on the commit tick of a tumble in any direction whose block ends
standing or lying on the grid, the tick returns and the level index is
incremented if and only if the block ends standing and its cell holds
code 6; otherwise the level index is unchanged, in particular for every
block that ends lying, whatever its two cells hold. -/
theorem goal_requires_standing (d : Dir) (g : Game) (hc : committing d g)
    (hs : valid_shape (turn d g).block) (hin : on_grid g.board (turn d g).block) :
    ∃ g1, draw g = some g1 ∧
      (g1.level = g.level + 1 ↔
        (standing (turn d g).block ∧ tile g.board (cell (turn d g).block) = some 6)) ∧
      (g1.level = g.level + 1 ∨ g1.level = g.level) ∧
      (lying_x (turn d g).block ∨ lying_z (turn d g).block → g1.level = g.level) := by
  have hfin : ∀ t : Game, (finish t).level = t.level := by
    intro t
    simp only [finish, level_reset, createBoard]
    split_ifs <;> rfl
  have hidx : (index_standing (turn d g)).level = g.level := turn_level d g
  rcases draw_cases hc hs hin with ⟨hst, _, c, ht, hd⟩ | ⟨hl, _, a, b, _, _, hd⟩ |
      ⟨hl, _, a, b, _, _, hd⟩
  · refine ⟨_, hd, ?_⟩
    rw [hfin]
    by_cases h6 : c = 6
    · subst h6
      have : (standing_outcome 6 (index_standing (turn d g))).level = g.level + 1 := by
        simp [standing_outcome, clear, hidx]
      rw [this]
      refine ⟨⟨fun _ => ⟨hst, ht⟩, fun _ => rfl⟩, Or.inl rfl, ?_⟩
      rintro (h | h)
      · have h1 := hst.2.1; have h2 := h.2.1; rw [h1] at h2; exact absurd h2 one_ne_half
      · have h1 := hst.2.1; have h2 := h.2.1; rw [h1] at h2; exact absurd h2 one_ne_half
    · have : (standing_outcome c (index_standing (turn d g))).level = g.level := by
        simp only [standing_outcome, h6, if_false]
        split_ifs <;> simp [lose, count, flip_level, hidx]
      rw [this]
      refine ⟨⟨fun h => by omega, fun h => ?_⟩, Or.inr rfl, fun _ => rfl⟩
      rw [ht] at h
      exact absurd (Option.some.inj h.2) h6
  · refine ⟨_, hd, ?_⟩
    rw [hfin]
    have : (lying_outcome a b (index_lying_x (turn d g))).level = g.level := by
      have hi : (index_lying_x (turn d g)).level = g.level := turn_level d g
      simp only [lying_outcome]
      split_ifs <;> simp [lose, count, flip_level, hi]
    rw [this]
    refine ⟨⟨fun h => by omega, fun h => ?_⟩, Or.inr rfl, fun _ => rfl⟩
    have h1 := h.1.2.1; have h2 := hl.2.1; rw [h1] at h2; exact absurd h2 one_ne_half
  · refine ⟨_, hd, ?_⟩
    rw [hfin]
    have : (lying_z_outcome d a b (index_lying_z (turn d g))).level = g.level := by
      have hi : (index_lying_z (turn d g)).level = g.level := turn_level d g
      cases d <;> simp only [lying_z_outcome, lying_outcome, lying_outcome_right_z] <;>
        split_ifs <;> simp [lose, count, flip_level, hi]
    rw [this]
    refine ⟨⟨fun h => by omega, fun h => ?_⟩, Or.inr rfl, fun _ => rfl⟩
    have h1 := h.1.2.1; have h2 := hl.2.1; rw [h1] at h2; exact absurd h2 one_ne_half

theorem goal_requires_standing_witness :
    ∃ g1, draw (at_commit .Left (place board_1 1 1 0.5 0.5 ⟨-1.25, -0.25, -1.5⟩ (-1))) = some g1 ∧
      (g1.level = (at_commit .Left (place board_1 1 1 0.5 0.5 ⟨-1.25, -0.25, -1.5⟩ (-1))).level + 1 ↔
        (standing (turn .Left
            (at_commit .Left (place board_1 1 1 0.5 0.5 ⟨-1.25, -0.25, -1.5⟩ (-1)))).block ∧
          tile (at_commit .Left (place board_1 1 1 0.5 0.5 ⟨-1.25, -0.25, -1.5⟩ (-1))).board
            (cell (turn .Left
              (at_commit .Left (place board_1 1 1 0.5 0.5 ⟨-1.25, -0.25, -1.5⟩ (-1)))).block) =
            some 6)) ∧
      (g1.level = (at_commit .Left (place board_1 1 1 0.5 0.5 ⟨-1.25, -0.25, -1.5⟩ (-1))).level + 1 ∨
        g1.level = (at_commit .Left (place board_1 1 1 0.5 0.5 ⟨-1.25, -0.25, -1.5⟩ (-1))).level) ∧
      (lying_x (turn .Left
            (at_commit .Left (place board_1 1 1 0.5 0.5 ⟨-1.25, -0.25, -1.5⟩ (-1)))).block ∨
          lying_z (turn .Left
            (at_commit .Left (place board_1 1 1 0.5 0.5 ⟨-1.25, -0.25, -1.5⟩ (-1)))).block →
        g1.level = (at_commit .Left (place board_1 1 1 0.5 0.5 ⟨-1.25, -0.25, -1.5⟩ (-1))).level) :=
  goal_requires_standing .Left (at_commit .Left (place board_1 1 1 0.5 0.5 ⟨-1.25, -0.25, -1.5⟩ (-1)))
    (by decide!) (by decide!) (by decide!)

theorem flip_switch_check (g : Game) :
    (g.switch_check = 0 → (flip g).switch_check = 1) ∧
    (g.switch_check = 1 → (flip g).switch_check = 0) := by
  unfold flip
  constructor <;> intro h <;> simp [h]

theorem mem_pair_tiles {brd : Board} {p q : Int × Int} {a b v : Int}
    (ha : tile brd p = some a) (hb : tile brd q = some b) :
    ((∃ c ∈ [p, q], tile brd c = some v) ↔ (a = v ∨ b = v)) := by
  constructor
  · rintro ⟨c, hm, hcv⟩
    simp only [List.mem_cons, List.mem_singleton, List.not_mem_nil, or_false] at hm
    rcases hm with h | h
    · left; subst h; rw [ha] at hcv; exact Option.some.inj hcv
    · right; subst h; rw [hb] at hcv; exact Option.some.inj hcv
  · rintro (h | h)
    · exact ⟨p, by simp, by rw [ha, h]⟩
    · exact ⟨q, by simp, by rw [hb, h]⟩

theorem mem_single_tile {brd : Board} {p : Int × Int} {a v : Int}
    (ha : tile brd p = some a) :
    ((∃ c ∈ [p], tile brd c = some v) ↔ a = v) := by
  constructor
  · rintro ⟨c, hm, hcv⟩
    rw [List.mem_singleton] at hm
    subst hm; rw [ha] at hcv; exact Option.some.inj hcv
  · intro h
    exact ⟨p, by simp, by rw [ha, h]⟩

/-- A landing on the grid with a cell holding 4 and no cell holding 0:
the tick returns with the switch flag flipped. -/
theorem switch_landing_flips (d : Dir) (g : Game) (hc : committing d g)
    (hs : valid_shape (turn d g).block) (hin : on_grid g.board (turn d g).block)
    (hg : g.game_check ≠ 1)
    (h4 : ∃ c ∈ footprint (turn d g).block, tile g.board c = some 4)
    (h0 : ¬ ∃ c ∈ footprint (turn d g).block, tile g.board c = some 0) :
    ∃ g1, draw g = some g1 ∧ (g.switch_check = 0 → g1.switch_check = 1) ∧
      (g.switch_check = 1 → g1.switch_check = 0) := by
  have hcount : ∀ t : Game, t.game_check = g.game_check → t.switch_check = g.switch_check →
      finish (count (flip t)) = count (flip t) ∧
      (g.switch_check = 0 → (count (flip t)).switch_check = 1) ∧
      (g.switch_check = 1 → (count (flip t)).switch_check = 0) := by
    intro t h1 h2
    refine ⟨finish_of_ne ?_, ?_, ?_⟩
    · show (flip t).game_check ≠ 1
      rw [flip_game_check, h1]; exact hg
    · intro h; exact (flip_switch_check t).1 (h2.trans h)
    · intro h; exact (flip_switch_check t).2 (h2.trans h)
  rcases draw_cases hc hs hin with ⟨_, hf, c, ht, hd⟩ | ⟨_, hf, a, b, ha, hb, hd⟩ |
      ⟨_, hf, a, b, ha, hb, hd⟩
  · rw [hf, mem_single_tile ht] at h4 h0
    subst h4
    have ho : standing_outcome 4 (index_standing (turn d g)) =
        count (flip (index_standing (turn d g))) := by
      simp [standing_outcome]
    obtain ⟨e1, e2, e3⟩ := hcount (index_standing (turn d g)) (turn_game_check d g)
      (turn_switch_check d g)
    rw [ho, e1] at hd
    exact ⟨_, hd, e2, e3⟩
  · rw [hf, mem_pair_tiles ha hb] at h4 h0
    have ho : lying_outcome a b (index_lying_x (turn d g)) =
        count (flip (index_lying_x (turn d g))) := by
      simp [lying_outcome, h4, h0]
    obtain ⟨e1, e2, e3⟩ := hcount (index_lying_x (turn d g)) (turn_game_check d g)
      (turn_switch_check d g)
    rw [ho, e1] at hd
    exact ⟨_, hd, e2, e3⟩
  · rw [hf, mem_pair_tiles ha hb] at h4 h0
    have ho : lying_z_outcome d a b (index_lying_z (turn d g)) =
        count (flip (index_lying_z (turn d g))) := by
      cases d <;> simp [lying_z_outcome, lying_outcome, lying_outcome_right_z, h4, h0]
    obtain ⟨e1, e2, e3⟩ := hcount (index_lying_z (turn d g)) (turn_game_check d g)
      (turn_switch_check d g)
    rw [ho, e1] at hd
    exact ⟨_, hd, e2, e3⟩

theorem finish_switch_of_level {t : Game} {lvl sw : Int}
    (h : t.game_check = 1 → t.level ≠ lvl) (hsw : t.switch_check = sw) :
    (finish t).level = lvl → (finish t).switch_check = sw := by
  unfold finish
  by_cases h1 : t.game_check = 1
  · simp only [h1, if_true]
    intro hl
    have : (level_reset t).level = t.level := by
      simp only [level_reset, createBoard]; split_ifs <;> rfl
    rw [this] at hl
    exact absurd hl (h h1)
  · simp only [h1, if_false]
    intro _; exact hsw

/-- C4: on the commit tick of a tumble in any direction whose block ends
standing or lying on the grid, with the session not in the transient
cleared state: (1) if a cell of the footprint holds code 4 and none holds
code 0, the switch flag is flipped once (0 to 1, 1 to 0), also when both
cells hold 4, and a second such landing from a state with the flag so
obtained gives back the original flag; (2) if no cell of the footprint
holds code 4, the switch flag is unchanged unless the level index changes. -/
theorem switch_toggling (d : Dir) (g : Game) (hc : committing d g)
    (hs : valid_shape (turn d g).block) (hin : on_grid g.board (turn d g).block)
    (hg : g.game_check ≠ 1) :
    ((∃ c ∈ footprint (turn d g).block, tile g.board c = some 4) →
      (¬ ∃ c ∈ footprint (turn d g).block, tile g.board c = some 0) →
      ∃ g1, draw g = some g1 ∧ (g.switch_check = 0 → g1.switch_check = 1) ∧
        (g.switch_check = 1 → g1.switch_check = 0) ∧
        ∀ (e : Dir) (h : Game), committing e h → valid_shape (turn e h).block →
          on_grid h.board (turn e h).block → h.game_check ≠ 1 →
          (∃ c ∈ footprint (turn e h).block, tile h.board c = some 4) →
          (¬ ∃ c ∈ footprint (turn e h).block, tile h.board c = some 0) →
          h.switch_check = g1.switch_check →
          (g.switch_check = 0 ∨ g.switch_check = 1) →
          ∃ h1, draw h = some h1 ∧ h1.switch_check = g.switch_check) ∧
    ((¬ ∃ c ∈ footprint (turn d g).block, tile g.board c = some 4) →
      ∃ g1, draw g = some g1 ∧ (g1.level = g.level → g1.switch_check = g.switch_check)) := by
  constructor
  · intro h4 h0
    obtain ⟨g1, hd, h01, h10⟩ := switch_landing_flips d g hc hs hin hg h4 h0
    refine ⟨g1, hd, h01, h10, ?_⟩
    intro e h hce hse hine hge h4e h0e hsw hval
    obtain ⟨h1, hd1, k01, k10⟩ := switch_landing_flips e h hce hse hine hge h4e h0e
    refine ⟨h1, hd1, ?_⟩
    rcases hval with hv | hv
    · rw [hv]; exact k10 (hsw.trans (h01 hv))
    · rw [hv]; exact k01 (hsw.trans (h10 hv))
  · intro h4
    rcases draw_cases hc hs hin with ⟨_, hf, c, ht, hd⟩ | ⟨_, hf, a, b, ha, hb, hd⟩ |
        ⟨_, hf, a, b, ha, hb, hd⟩
    · rw [hf, mem_single_tile ht] at h4
      refine ⟨_, hd, finish_switch_of_level ?_ ?_⟩
      · have hl : (index_standing (turn d g)).level = g.level := turn_level d g
        have hgc : (index_standing (turn d g)).game_check = g.game_check := turn_game_check d g
        simp only [standing_outcome, h4, if_false]
        split_ifs <;> simp [lose, clear, count, hl, hgc, hg]
      · have hsw : (index_standing (turn d g)).switch_check = g.switch_check :=
          turn_switch_check d g
        simp only [standing_outcome, h4, if_false]
        split_ifs <;> simp [lose, clear, count, hsw]
    · rw [hf, mem_pair_tiles ha hb] at h4
      have h4a : ¬ a = 4 := fun h => h4 (Or.inl h)
      have h4b : ¬ b = 4 := fun h => h4 (Or.inr h)
      refine ⟨_, hd, finish_switch_of_level ?_ ?_⟩
      · have hgc : (index_lying_x (turn d g)).game_check = g.game_check := turn_game_check d g
        simp only [lying_outcome, h4a, h4b, or_self, if_false]
        split_ifs <;> simp [lose, count, hgc, hg]
      · have hsw : (index_lying_x (turn d g)).switch_check = g.switch_check :=
          turn_switch_check d g
        simp only [lying_outcome, h4a, h4b, or_self, if_false]
        split_ifs <;> simp [lose, count, hsw]
    · rw [hf, mem_pair_tiles ha hb] at h4
      have h4a : ¬ a = 4 := fun h => h4 (Or.inl h)
      have h4b : ¬ b = 4 := fun h => h4 (Or.inr h)
      refine ⟨_, hd, finish_switch_of_level ?_ ?_⟩
      · have hgc : (index_lying_z (turn d g)).game_check = g.game_check := turn_game_check d g
        cases d <;> simp only [lying_z_outcome, lying_outcome, lying_outcome_right_z, h4a, h4b,
          or_self, if_false] <;> split_ifs <;> simp [lose, count, hgc, hg]
      · have hsw : (index_lying_z (turn d g)).switch_check = g.switch_check :=
          turn_switch_check d g
        cases d <;> simp only [lying_z_outcome, lying_outcome, lying_outcome_right_z, h4a, h4b,
          or_self, if_false] <;> split_ifs <;> simp [lose, count, hsw]

theorem switch_toggling_witness :
    ∃ h1, draw (at_commit .Left
        { place board_2 2 1 0.5 0.5 ⟨1.75, -0.25, 0⟩ (-1) with switch_check := 1 }) = some h1 ∧
      h1.switch_check = 0 := by
  obtain ⟨g1, _, h01, _, hnext⟩ :=
    (switch_toggling .Right (at_commit .Right (place board_2 2 1 0.5 0.5 ⟨0.25, -0.25, 0⟩ (-1)))
      (by decide!) (by decide!) (by decide!) (by decide!)).1 (by decide!) (by decide!)
  have hsw : g1.switch_check = 1 := h01 (by decide!)
  exact hnext .Left
    (at_commit .Left { place board_2 2 1 0.5 0.5 ⟨1.75, -0.25, 0⟩ (-1) with switch_check := 1 })
    (by decide!) (by decide!) (by decide!) (by decide!) (by decide!) (by decide!)
    (by rw [hsw]; rfl) (Or.inl (by decide!))

theorem plain_refl (s : Game) : Plain s s := ⟨sameBlock_refl s, rfl, Or.inl rfl⟩

theorem plain_trans {a b c : Game} (h1 : Plain a b) (h2 : Plain b c) : Plain a c := by
  refine ⟨sameBlock_trans h1.1 h2.1, h2.2.1.trans h1.2.1, ?_⟩
  rcases h2.2.2 with h | h
  · rcases h1.2.2 with k | k
    · exact Or.inl (h.trans k)
    · exact Or.inr (h.trans k)
  · exact Or.inr h

theorem lose_plain (s : Game) : Plain s (lose s) := ⟨⟨rfl, rfl, rfl⟩, rfl, Or.inr rfl⟩

theorem count_plain (s : Game) : Plain s (count s) := ⟨⟨rfl, rfl, rfl⟩, rfl, Or.inl rfl⟩

theorem flip_plain (s : Game) : Plain s (flip s) :=
  ⟨flip_same s, flip_level s, Or.inl (flip_game_check s)⟩

theorem lying_outcome_plain (a b : Int) (s : Game) : Plain s (lying_outcome a b s) := by
  unfold lying_outcome
  split_ifs
  · exact lose_plain s
  · exact plain_trans (flip_plain s) (count_plain _)
  · exact count_plain s
  · exact lose_plain s
  · exact count_plain s

theorem lying_outcome_right_z_plain (a b : Int) (s : Game) :
    Plain s (lying_outcome_right_z a b s) := by
  have h0 : Plain s (if a = 0 ∨ b = 0 then lose s else s) := by
    split_ifs
    · exact lose_plain s
    · exact plain_refl s
  unfold lying_outcome_right_z
  split_ifs
  all_goals first
    | exact plain_trans (lose_plain s) (plain_trans (flip_plain _) (count_plain _))
    | exact plain_trans (flip_plain s) (count_plain _)
    | exact plain_trans (lose_plain s) (count_plain _)
    | exact plain_trans (lose_plain s) (lose_plain _)
    | exact count_plain s
    | exact lose_plain s

theorem lying_rules_plain {s t : Game} (h : lying_rules s = some t) : Plain s t := by
  unfold lying_rules at h
  obtain ⟨a, ha, h⟩ := Option.bind_eq_some.mp h
  by_cases ha0 : a = 0
  · simp only [ha0, if_true, Option.some.injEq] at h
    subst h; exact lose_plain s
  · simp only [ha0, if_false] at h
    obtain ⟨b, hb, h⟩ := Option.bind_eq_some.mp h
    have := lying_rules_eval ha hb
    unfold lying_rules at this
    simp only [ha, hb, Option.some_bind, ha0, if_false] at this
    rw [this] at h
    have h := Option.some.inj h
    subst h; exact lying_outcome_plain a b s

theorem lying_rules_right_z_plain {s t : Game} (h : lying_rules_right_z s = some t) :
    Plain s t := by
  have h' := h
  unfold lying_rules_right_z at h
  obtain ⟨a, ha, h⟩ := Option.bind_eq_some.mp h
  obtain ⟨b, hb, _⟩ := Option.bind_eq_some.mp h
  rw [lying_rules_right_z_eval ha hb] at h'
  have h' := Option.some.inj h'
  subst h'; exact lying_outcome_right_z_plain a b s

theorem lying_z_rules_plain {d : Dir} {s t : Game} (h : lying_z_rules d s = some t) :
    Plain s t := by
  cases d <;> simp only [lying_z_rules] at h
  · exact lying_rules_plain h
  · exact lying_rules_right_z_plain h
  · exact lying_rules_plain h
  · exact lying_rules_plain h

theorem standing_rules_some {d : Dir} {t0 t : Game}
    (h : standing_rules d (index_standing t0) = some t) :
    ∃ c, tile t0.board (cell t0.block) = some c ∧
      t = standing_outcome c (index_standing t0) := by
  cases hc : tile t0.board (cell t0.block) with
  | none =>
    have h1 : board_at (index_standing t0).board (index_standing t0).x_check
        (index_standing t0).z_check = none := hc
    cases d <;> simp [standing_rules, standing_rules_a, standing_rules_b, h1] at h
  | some c =>
    rw [standing_rules_eval hc] at h
    exact ⟨c, rfl, (Option.some.inj h).symm⟩

/-- The rule checks of any direction on any block: either the block has
height 1 and the result is the standing outcome for the tile under it, or
the height is not 1 and the checks are plain. -/
theorem check_effect {d : Dir} {t0 t : Game} (h : check d t0 = some t) :
    (t0.block.height = 1 ∧ ∃ c, tile t0.board (cell t0.block) = some c ∧
        t = standing_outcome c (index_standing t0)) ∨
    (t0.block.height ≠ 1 ∧ Plain t0 t) := by
  rw [check_eq] at h
  unfold check_with at h
  obtain ⟨a, ha, h⟩ := Option.bind_eq_some.mp h
  by_cases hh : t0.block.height = 1
  · left
    simp only [hh, if_true] at ha
    have hsame := standing_rules_same ha
    have ha1 : a.block.height = 1 := by
      rw [hsame.1]; exact hh
    simp only [ha1, one_ne_half, if_false, Option.some.injEq] at h
    subst h
    exact ⟨hh, standing_rules_some ha⟩
  · right
    simp only [hh, if_false, Option.some.injEq] at ha
    subst ha
    refine ⟨hh, ?_⟩
    by_cases h5 : t0.block.height = 0.5
    · simp only [h5, if_true] at h
      obtain ⟨b, hb, h⟩ := Option.bind_eq_some.mp h
      have h2 : Plain t0 b := by
        by_cases hl : t0.block.length = 1
        · simp only [hl, if_true] at hb
          exact plain_trans ⟨index_lying_x_same t0, rfl, Or.inl rfl⟩ (lying_rules_plain hb)
        · simp only [hl, if_false, Option.some.injEq] at hb
          subst hb; exact plain_refl t0
      refine plain_trans h2 ?_
      by_cases hw : b.block.width = 1
      · simp only [hw, if_true] at h
        exact plain_trans ⟨index_lying_z_same b, rfl, Or.inl rfl⟩ (lying_z_rules_plain h)
      · simp only [hw, if_false, Option.some.injEq] at h
        subst h; exact plain_refl b
    · simp only [h5, if_false, Option.some.injEq] at h
      subst h; exact plain_refl t0

theorem standing_outcome_plain {c : Int} (s : Game) (h : c ≠ 6) :
    Plain s (standing_outcome c s) := by
  unfold standing_outcome
  simp only [h, if_false]
  split_ifs
  · exact lose_plain s
  · exact plain_trans (flip_plain s) (count_plain _)
  · exact count_plain s
  · exact plain_refl s

theorem standing_outcome_goal (s : Game) : standing_outcome 6 s = clear s := by
  simp [standing_outcome]

theorem level_reset_block (t : Game) : (level_reset t).block = spawn_block := by
  unfold level_reset createBoard
  split_ifs <;> rfl

theorem level_reset_fields (t : Game) :
    (level_reset t).level = t.level ∧ (level_reset t).game_check = 0 ∧
    (level_reset t).switch_check = 0 ∧ (level_reset t).base_check = t.base_check ∧
    (level_reset t).no_of_moves = t.no_of_moves ∧
    (level_reset t).x_check = t.x_check ∧ (level_reset t).z_check = t.z_check ∧
    (level_reset t).x1_check = t.x1_check ∧ (level_reset t).z1_check = t.z1_check := by
  unfold level_reset createBoard
  split_ifs <;> exact ⟨rfl, rfl, rfl, rfl, rfl, rfl, rfl, rfl, rfl⟩

theorem level_reset_board (t : Game) :
    (level_reset t).board = board_1 ∨ (level_reset t).board = board_2 ∨
    (level_reset t).board = board_3 ∨ (level_reset t).board = t.board := by
  unfold level_reset createBoard
  split_ifs
  · exact Or.inl rfl
  · exact Or.inr (Or.inl rfl)
  · exact Or.inr (Or.inr (Or.inl rfl))
  · exact Or.inr (Or.inr (Or.inr rfl))

/-- The two ways a commit tick can end, for a session not in the transient
cleared state: either the level is kept, and then the block is the
transformed block, or the transformed block stands on a cell holding 6, and
then the level is incremented and the block is reset. -/
theorem commit_result {d : Dir} {g g1 : Game} (hc : committing d g) (hg : g.game_check ≠ 1)
    (hd : draw g = some g1) :
    (g1.block = (turn d g).block ∧ g1.base_check = (turn d g).base_check ∧
      g1.board = g.board ∧ g1.level = g.level ∧ g1.game_check ≠ 1 ∧
      ((turn d g).block.height = 1 →
        ∃ c, tile g.board (cell (turn d g).block) = some c ∧ c ≠ 6)) ∨
    ((turn d g).block.height = 1 ∧ tile g.board (cell (turn d g).block) = some 6 ∧
      g1 = level_reset (clear (index_standing (turn d g)))) := by
  rw [draw_commit hc] at hd
  obtain ⟨t, ht, hfin⟩ := Option.map_eq_some'.mp hd
  have hplain : ∀ hh : ((turn d g).block.height = 1 →
        ∃ c, tile g.board (cell (turn d g).block) = some c ∧ c ≠ 6), Plain (turn d g) t →
      (g1.block = (turn d g).block ∧ g1.base_check = (turn d g).base_check ∧
        g1.board = g.board ∧ g1.level = g.level ∧ g1.game_check ≠ 1 ∧
        ((turn d g).block.height = 1 →
          ∃ c, tile g.board (cell (turn d g).block) = some c ∧ c ≠ 6)) := by
    intro hh hp
    have hne : t.game_check ≠ 1 := by
      rcases hp.2.2 with h | h
      · rw [h, turn_game_check]; exact hg
      · rw [h]; decide
    rw [finish_of_ne hne] at hfin
    subst hfin
    exact ⟨hp.1.1, hp.1.2.2, hp.1.2.1.trans (turn_board d g), hp.2.1.trans (turn_level d g),
      hne, hh⟩
  rcases check_effect ht with ⟨hh, c, hcell, hout⟩ | ⟨hh, hp⟩
  · rw [turn_board] at hcell
    by_cases h6 : c = 6
    · right
      subst h6
      refine ⟨hh, hcell, ?_⟩
      rw [standing_outcome_goal] at hout
      subst hout
      rw [← hfin]
      simp [finish, clear]
    · left
      refine hplain (fun _ => ⟨c, hcell, h6⟩) ?_
      rw [hout]
      exact plain_trans ⟨index_standing_same _, rfl, Or.inl rfl⟩ (standing_outcome_plain _ h6)
  · left
    exact hplain (fun h => absurd h hh) hp

theorem to_int_intCast (n : Int) : to_int (n : ℚ) = n := by
  simp [to_int]

theorem stands_right {g : Game} {x z : Int} (h : stands_at g x z) :
    lies_x_at (turn .Right g) (x + 1) (z) := by
  obtain ⟨⟨hl, hh, hw⟩, hcen, hb⟩ := h
  refine ⟨⟨?_, ?_, ?_⟩, ?_, ?_⟩
  · norm_num [turn, turn_right, hl, hh, hw]
  · norm_num [turn, turn_right, hl, hh, hw]
  · norm_num [turn, turn_right, hl, hh, hw]
  · simp only [turn, turn_right, hl, hh, hw, hcen, hb, vec3.mk.injEq]
    refine ⟨?_, ?_, ?_⟩
    all_goals norm_num
    all_goals ring
  · norm_num [turn, turn_right, hl, hh, hw]

theorem stands_left {g : Game} {x z : Int} (h : stands_at g x z) :
    lies_x_at (turn .Left g) (x - 2) (z) := by
  obtain ⟨⟨hl, hh, hw⟩, hcen, hb⟩ := h
  refine ⟨⟨?_, ?_, ?_⟩, ?_, ?_⟩
  · norm_num [turn, turn_left, hl, hh, hw]
  · norm_num [turn, turn_left, hl, hh, hw]
  · norm_num [turn, turn_left, hl, hh, hw]
  · simp only [turn, turn_left, hl, hh, hw, hcen, hb, vec3.mk.injEq]
    refine ⟨?_, ?_, ?_⟩
    all_goals norm_num
    all_goals ring
  · norm_num [turn, turn_left, hl, hh, hw]

theorem stands_forward {g : Game} {x z : Int} (h : stands_at g x z) :
    lies_z_at (turn .Forward g) (x) (z + 1) := by
  obtain ⟨⟨hl, hh, hw⟩, hcen, hb⟩ := h
  refine ⟨⟨?_, ?_, ?_⟩, ?_, ?_⟩
  · norm_num [turn, turn_up, hl, hh, hw]
  · norm_num [turn, turn_up, hl, hh, hw]
  · norm_num [turn, turn_up, hl, hh, hw]
  · simp only [turn, turn_up, hl, hh, hw, hcen, hb, vec3.mk.injEq]
    refine ⟨?_, ?_, ?_⟩
    all_goals norm_num
    all_goals ring
  · norm_num [turn, turn_up, hl, hh, hw]

theorem stands_back {g : Game} {x z : Int} (h : stands_at g x z) :
    lies_z_at (turn .Back g) (x) (z - 2) := by
  obtain ⟨⟨hl, hh, hw⟩, hcen, hb⟩ := h
  refine ⟨⟨?_, ?_, ?_⟩, ?_, ?_⟩
  · norm_num [turn, turn_down, hl, hh, hw]
  · norm_num [turn, turn_down, hl, hh, hw]
  · norm_num [turn, turn_down, hl, hh, hw]
  · simp only [turn, turn_down, hl, hh, hw, hcen, hb, vec3.mk.injEq]
    refine ⟨?_, ?_, ?_⟩
    all_goals norm_num
    all_goals ring
  · norm_num [turn, turn_down, hl, hh, hw]

theorem lies_x_right {g : Game} {x z : Int} (h : lies_x_at g x z) :
    stands_at (turn .Right g) (x + 2) (z) := by
  obtain ⟨⟨hl, hh, hw⟩, hcen, hb⟩ := h
  refine ⟨⟨?_, ?_, ?_⟩, ?_, ?_⟩
  · norm_num [turn, turn_right, hl, hh, hw]
  · norm_num [turn, turn_right, hl, hh, hw]
  · norm_num [turn, turn_right, hl, hh, hw]
  · simp only [turn, turn_right, hl, hh, hw, hcen, hb, vec3.mk.injEq]
    refine ⟨?_, ?_, ?_⟩
    all_goals norm_num
    all_goals ring
  · norm_num [turn, turn_right, hl, hh, hw]

theorem lies_x_left {g : Game} {x z : Int} (h : lies_x_at g x z) :
    stands_at (turn .Left g) (x - 1) (z) := by
  obtain ⟨⟨hl, hh, hw⟩, hcen, hb⟩ := h
  refine ⟨⟨?_, ?_, ?_⟩, ?_, ?_⟩
  · norm_num [turn, turn_left, hl, hh, hw]
  · norm_num [turn, turn_left, hl, hh, hw]
  · norm_num [turn, turn_left, hl, hh, hw]
  · simp only [turn, turn_left, hl, hh, hw, hcen, hb, vec3.mk.injEq]
    refine ⟨?_, ?_, ?_⟩
    all_goals norm_num
    all_goals ring
  · norm_num [turn, turn_left, hl, hh, hw]

theorem lies_x_forward {g : Game} {x z : Int} (h : lies_x_at g x z) :
    lies_x_at (turn .Forward g) (x) (z + 1) := by
  obtain ⟨⟨hl, hh, hw⟩, hcen, hb⟩ := h
  refine ⟨⟨?_, ?_, ?_⟩, ?_, ?_⟩
  · norm_num [turn, turn_up, hl, hh, hw]
  · norm_num [turn, turn_up, hl, hh, hw]
  · norm_num [turn, turn_up, hl, hh, hw]
  · simp only [turn, turn_up, hl, hh, hw, hcen, hb, vec3.mk.injEq]
    refine ⟨?_, ?_, ?_⟩
    all_goals norm_num
    all_goals ring
  · norm_num [turn, turn_up, hl, hh, hw]

theorem lies_x_back {g : Game} {x z : Int} (h : lies_x_at g x z) :
    lies_x_at (turn .Back g) (x) (z - 1) := by
  obtain ⟨⟨hl, hh, hw⟩, hcen, hb⟩ := h
  refine ⟨⟨?_, ?_, ?_⟩, ?_, ?_⟩
  · norm_num [turn, turn_down, hl, hh, hw]
  · norm_num [turn, turn_down, hl, hh, hw]
  · norm_num [turn, turn_down, hl, hh, hw]
  · simp only [turn, turn_down, hl, hh, hw, hcen, hb, vec3.mk.injEq]
    refine ⟨?_, ?_, ?_⟩
    all_goals norm_num
    all_goals ring
  · norm_num [turn, turn_down, hl, hh, hw]

theorem lies_z_right {g : Game} {x z : Int} (h : lies_z_at g x z) :
    lies_z_at (turn .Right g) (x + 1) (z) := by
  obtain ⟨⟨hl, hh, hw⟩, hcen, hb⟩ := h
  refine ⟨⟨?_, ?_, ?_⟩, ?_, ?_⟩
  · norm_num [turn, turn_right, hl, hh, hw]
  · norm_num [turn, turn_right, hl, hh, hw]
  · norm_num [turn, turn_right, hl, hh, hw]
  · simp only [turn, turn_right, hl, hh, hw, hcen, hb, vec3.mk.injEq]
    refine ⟨?_, ?_, ?_⟩
    all_goals norm_num
    all_goals ring
  · norm_num [turn, turn_right, hl, hh, hw]

theorem lies_z_left {g : Game} {x z : Int} (h : lies_z_at g x z) :
    lies_z_at (turn .Left g) (x - 1) (z) := by
  obtain ⟨⟨hl, hh, hw⟩, hcen, hb⟩ := h
  refine ⟨⟨?_, ?_, ?_⟩, ?_, ?_⟩
  · norm_num [turn, turn_left, hl, hh, hw]
  · norm_num [turn, turn_left, hl, hh, hw]
  · norm_num [turn, turn_left, hl, hh, hw]
  · simp only [turn, turn_left, hl, hh, hw, hcen, hb, vec3.mk.injEq]
    refine ⟨?_, ?_, ?_⟩
    all_goals norm_num
    all_goals ring
  · norm_num [turn, turn_left, hl, hh, hw]

theorem lies_z_forward {g : Game} {x z : Int} (h : lies_z_at g x z) :
    stands_at (turn .Forward g) (x) (z + 2) := by
  obtain ⟨⟨hl, hh, hw⟩, hcen, hb⟩ := h
  refine ⟨⟨?_, ?_, ?_⟩, ?_, ?_⟩
  · norm_num [turn, turn_up, hl, hh, hw]
  · norm_num [turn, turn_up, hl, hh, hw]
  · norm_num [turn, turn_up, hl, hh, hw]
  · simp only [turn, turn_up, hl, hh, hw, hcen, hb, vec3.mk.injEq]
    refine ⟨?_, ?_, ?_⟩
    all_goals norm_num
    all_goals ring
  · norm_num [turn, turn_up, hl, hh, hw]

theorem lies_z_back {g : Game} {x z : Int} (h : lies_z_at g x z) :
    stands_at (turn .Back g) (x) (z - 1) := by
  obtain ⟨⟨hl, hh, hw⟩, hcen, hb⟩ := h
  refine ⟨⟨?_, ?_, ?_⟩, ?_, ?_⟩
  · norm_num [turn, turn_down, hl, hh, hw]
  · norm_num [turn, turn_down, hl, hh, hw]
  · norm_num [turn, turn_down, hl, hh, hw]
  · simp only [turn, turn_down, hl, hh, hw, hcen, hb, vec3.mk.injEq]
    refine ⟨?_, ?_, ?_⟩
    all_goals norm_num
    all_goals ring
  · norm_num [turn, turn_down, hl, hh, hw]

theorem stands_footprint {g : Game} {x z : Int} (h : stands_at g x z) :
    footprint g.block = [(x, z)] := by
  obtain ⟨hs, hcen, _⟩ := h
  rw [footprint_standing hs]
  have e1 : ((-2.5 + (x : ℚ) * 0.5 + 2.5) / 0.5) = ((x : Int) : ℚ) := by norm_num
  have e2 : ((-(2.5 - (z : ℚ) * 0.5) + 2.5) / 0.5) = ((z : Int) : ℚ) := by norm_num
  simp only [cell, hcen, e1, e2, to_int_intCast]

theorem lies_x_footprint {g : Game} {x z : Int} (h : lies_x_at g x z) :
    footprint g.block = [(x + 1, z), (x, z)] := by
  obtain ⟨hs, hcen, _⟩ := h
  rw [footprint_lying_x hs]
  have e0 : ((-2.5 + (x : ℚ) * 0.5 + 0.25 + 0.25 + 2.5) / 0.5) = ((x + 1 : Int) : ℚ) := by
    push_cast; norm_num; ring
  have e1 : ((-2.5 + (x : ℚ) * 0.5 + 0.25 - 0.25 + 2.5) / 0.5) = ((x : Int) : ℚ) := by norm_num
  have e2 : ((-(2.5 - (z : ℚ) * 0.5) + 2.5) / 0.5) = ((z : Int) : ℚ) := by norm_num
  simp only [cell_x0, cell_x1, hcen, e0, e1, e2, to_int_intCast]

theorem lies_z_footprint {g : Game} {x z : Int} (h : lies_z_at g x z) :
    footprint g.block = [(x, z + 1), (x, z)] := by
  obtain ⟨hs, hcen, _⟩ := h
  rw [footprint_lying_z hs]
  have e0 : ((-(2.5 - (z : ℚ) * 0.5 - 0.25) + 0.25 + 2.5) / 0.5) = ((z + 1 : Int) : ℚ) := by
    push_cast; norm_num; ring
  have e1 : ((-(2.5 - (z : ℚ) * 0.5 - 0.25) - 0.25 + 2.5) / 0.5) = ((z : Int) : ℚ) := by
    norm_num
  have e2 : ((-2.5 + (x : ℚ) * 0.5 + 2.5) / 0.5) = ((x : Int) : ℚ) := by norm_num
  simp only [cell_z0, cell_z1, hcen, e0, e1, e2, to_int_intCast]

theorem posed_turn (d : Dir) {g : Game} (h : posed g) : posed (turn d g) := by
  obtain ⟨x, z, h | h | h⟩ := h
  · cases d
    · exact ⟨x - 2, z, Or.inr (Or.inl (stands_left h))⟩
    · exact ⟨x + 1, z, Or.inr (Or.inl (stands_right h))⟩
    · exact ⟨x, z + 1, Or.inr (Or.inr (stands_forward h))⟩
    · exact ⟨x, z - 2, Or.inr (Or.inr (stands_back h))⟩
  · cases d
    · exact ⟨x - 1, z, Or.inl (lies_x_left h)⟩
    · exact ⟨x + 2, z, Or.inl (lies_x_right h)⟩
    · exact ⟨x, z + 1, Or.inr (Or.inl (lies_x_forward h))⟩
    · exact ⟨x, z - 1, Or.inr (Or.inl (lies_x_back h))⟩
  · cases d
    · exact ⟨x - 1, z, Or.inr (Or.inr (lies_z_left h))⟩
    · exact ⟨x + 1, z, Or.inr (Or.inr (lies_z_right h))⟩
    · exact ⟨x, z + 2, Or.inl (lies_z_forward h)⟩
    · exact ⟨x, z - 1, Or.inl (lies_z_back h)⟩

/-- Alignment only looks at the extents, the centre and the correction sign. -/
theorem posed_congr {g g1 : Game}
    (hl : g1.block.length = g.block.length) (hh : g1.block.height = g.block.height)
    (hw : g1.block.width = g.block.width) (hcen : g1.block.center = g.block.center)
    (hb : g1.base_check = g.base_check) (h : posed g) : posed g1 := by
  obtain ⟨x, z, h | h | h⟩ := h
  · exact ⟨x, z, Or.inl ⟨⟨hl.trans h.1.1, hh.trans h.1.2.1, hw.trans h.1.2.2⟩,
      hcen.trans h.2.1, hb.trans h.2.2⟩⟩
  · exact ⟨x, z, Or.inr (Or.inl ⟨⟨hl.trans h.1.1, hh.trans h.1.2.1, hw.trans h.1.2.2⟩,
      hcen.trans h.2.1, hb.trans h.2.2⟩)⟩
  · exact ⟨x, z, Or.inr (Or.inr ⟨⟨hl.trans h.1.1, hh.trans h.1.2.1, hw.trans h.1.2.2⟩,
      hcen.trans h.2.1, hb.trans h.2.2⟩)⟩

theorem posed_height_one {g : Game} (h : posed g) (hh : g.block.height = 1) :
    g.base_check = 1 := by
  obtain ⟨x, z, h | h | h⟩ := h
  · exact h.2.2
  · have := h.1.2.1; rw [hh] at this; exact absurd this one_ne_half
  · have := h.1.2.1; rw [hh] at this; exact absurd this one_ne_half

theorem spawn_tile {b : Board} (h : level_board b) : tile b (cell spawn_block) = some 1 := by
  rcases h with h | h | h <;> subst h <;> decide!

theorem inv_init : Inv init := by
  refine ⟨by decide!, ⟨5, 5, Or.inl ⟨by decide!, by decide!, by decide!⟩⟩, ?_, Or.inl (by decide!)⟩
  intro _
  exact ⟨1, by decide!, by decide⟩

theorem inv_keyboard (k : Key) (a : Action) {g : Game} (h : Inv g) : Inv (keyboard k a g) := by
  obtain ⟨h1, h2, h3, h4⟩ := h
  cases a
  · cases k
    · exact ⟨h1, posed_congr rfl rfl rfl rfl rfl h2, h3, h4⟩
    · exact ⟨h1, posed_congr rfl rfl rfl rfl rfl h2, h3, h4⟩
    · exact ⟨h1, posed_congr rfl rfl rfl rfl rfl h2, h3, h4⟩
    · exact ⟨h1, posed_congr rfl rfl rfl rfl rfl h2, h3, h4⟩
    · exact ⟨h1, h2, h3, h4⟩
  · exact ⟨h1, h2, h3, h4⟩

/-- The three kinds of frame tick: the angle advances, a tumble commits, or
nothing is in flight. -/
theorem draw_kinds (g : Game) :
    (g.block.rotate < 90 ∧ g.block.rotate_check ≠ 0 ∧
      draw g = some (finish { g with block := { g.block with rotate := g.block.rotate + 5 * 2 } })) ∨
    (∃ d, committing d g) ∨
    ((∀ d : Dir, g.block.rotate_check ≠ d.code) ∧
      ¬ (g.block.rotate < 90 ∧ g.block.rotate_check ≠ 0) ∧ draw g = some (finish g)) := by
  by_cases hanim : g.block.rotate < 90 ∧ g.block.rotate_check ≠ 0
  · left
    refine ⟨hanim.1, hanim.2, ?_⟩
    simp [draw, hanim]
  · right
    by_cases hd : ∃ d : Dir, g.block.rotate_check = d.code
    · left
      obtain ⟨d, hd⟩ := hd
      refine ⟨d, hd, fun hr => hanim ⟨hr, ?_⟩⟩
      rw [hd]; cases d <;> simp [Dir.code]
    · right
      have hall : ∀ d : Dir, g.block.rotate_check ≠ d.code := fun d h => hd ⟨d, h⟩
      refine ⟨hall, hanim, ?_⟩
      have hb : ∀ d : Dir, branch d g = some g := fun d => by simp [branch, hall d]
      unfold draw
      simp only [hanim, if_false, hb, Option.some_bind, Option.map_some']

theorem inv_draw {g g1 : Game} (h : Inv g) (hd : draw g = some g1) : Inv g1 := by
  obtain ⟨h1, h2, h3, h4⟩ := h
  rcases draw_kinds g with ⟨_, _, he⟩ | ⟨d, hc⟩ | ⟨_, _, he⟩
  · rw [he, finish_of_ne (show ({ g with block := { g.block with
        rotate := g.block.rotate + 5 * 2 } } : Game).game_check ≠ 1 from h1)] at hd
    have hd := Option.some.inj hd
    subst hd
    exact ⟨h1, posed_congr rfl rfl rfl rfl rfl h2, h3, h4⟩
  · rcases commit_result hc h1 hd with ⟨e1, e2, e3, _, e5, e6⟩ | ⟨e1, _, e3⟩
    · refine ⟨e5, ?_, ?_, ?_⟩
      · exact posed_congr (by rw [e1]) (by rw [e1]) (by rw [e1]) (by rw [e1]) e2
          (posed_turn d h2)
      · intro hh
        rw [e1] at hh ⊢
        rw [e3]
        exact e6 hh
      · rw [e3]; exact h4
    · subst e3
      have hblock := level_reset_block (clear (index_standing (turn d g)))
      have hf := level_reset_fields (clear (index_standing (turn d g)))
      have hboard : level_board (level_reset (clear (index_standing (turn d g)))).board := by
        rcases level_reset_board (clear (index_standing (turn d g))) with h | h | h | h
        · exact Or.inl h
        · exact Or.inr (Or.inl h)
        · exact Or.inr (Or.inr h)
        · rw [h]
          show level_board (turn d g).board
          rw [turn_board]; exact h4
      refine ⟨by rw [hf.2.1]; decide, ⟨5, 5, Or.inl ⟨?_, ?_, ?_⟩⟩, ?_, hboard⟩
      · rw [hblock]; decide!
      · rw [hblock]; decide!
      · rw [hf.2.2.2.1]
        exact posed_height_one (posed_turn d h2) e1
      · intro _
        rw [hblock]
        exact ⟨1, spawn_tile hboard, by decide⟩
  · rw [he, finish_of_ne h1] at hd
    have hd := Option.some.inj hd
    subst hd
    exact ⟨h1, h2, h3, h4⟩

theorem inv_reachable {g : Game} (h : Reachable g) : Inv g := by
  induction h with
  | start => exact inv_init
  | key k a _ ih => exact inv_keyboard k a ih
  | tick _ hd ih => exact inv_draw ih hd

theorem draw_with_angle (d : Dir) (g : Game) (r : ℚ) (hr : r < 90) (hg : g.game_check ≠ 1) :
    draw (with_angle d g r) = some (with_angle d g (r + 10)) := by
  have hcode : (with_angle d g r).block.rotate_check ≠ 0 := by
    show d.code ≠ 0
    cases d <;> simp [Dir.code]
  have hlt : (with_angle d g r).block.rotate < 90 := hr
  unfold draw
  simp only [hlt, hcode, ne_eq, not_false_eq_true, and_self, if_true, Option.map_some']
  have h10 : (r + 5 * 2 : ℚ) = r + 10 := by norm_num
  have hfin : ∀ t : Game, t.game_check = g.game_check → finish t = t :=
    fun t ht => finish_of_ne (by rw [ht]; exact hg)
  show some (finish (with_angle d g (r + 5 * 2))) = _
  rw [hfin (with_angle d g (r + 5 * 2)) rfl, h10]

theorem ticks_with_angle (d : Dir) (g : Game) (r : ℚ) (hr : r < 90) (hg : g.game_check ≠ 1)
    (n : Nat) : ticks (n + 1) (with_angle d g r) = ticks n (with_angle d g (r + 10)) := by
  simp only [ticks, draw_with_angle d g r hr hg, Option.some_bind]

/-- A complete move from a state that is not in the transient cleared state
is the commit tick of its tumble. -/
theorem move_eq (d : Dir) (g : Game) (hg : g.game_check ≠ 1) :
    move d g = draw (at_commit d g) := by
  have hk : keyboard d.key .RELEASE g = with_angle d g 0 := by cases d <;> rfl
  unfold move
  rw [hk]
  rw [ticks_with_angle d g _ (by norm_num) hg, ticks_with_angle d g _ (by norm_num) hg,
    ticks_with_angle d g _ (by norm_num) hg, ticks_with_angle d g _ (by norm_num) hg,
    ticks_with_angle d g _ (by norm_num) hg, ticks_with_angle d g _ (by norm_num) hg,
    ticks_with_angle d g _ (by norm_num) hg, ticks_with_angle d g _ (by norm_num) hg,
    ticks_with_angle d g _ (by norm_num) hg]
  have h90 : (0 + 10 + 10 + 10 + 10 + 10 + 10 + 10 + 10 + 10 : ℚ) = 90 := by norm_num
  rw [h90]
  show (draw (at_commit d g)).bind (ticks 0) = draw (at_commit d g)
  cases draw (at_commit d g) <;> rfl

theorem committing_at_commit (d : Dir) (g : Game) : committing d (at_commit d g) :=
  ⟨rfl, by show ¬ ((90 : ℚ) < 90); norm_num⟩

theorem turn_at_commit (d e : Dir) (g : Game) : turn d (at_commit e g) = turn d g := by
  cases d <;> rfl

theorem commit_keep {d : Dir} {g g1 : Game} (hc : committing d g) (hg : g.game_check ≠ 1)
    (hd : draw g = some g1) (hl : g1.level = g.level) :
    g1.block = (turn d g).block ∧ g1.base_check = (turn d g).base_check ∧
      g1.board = g.board ∧ g1.game_check ≠ 1 := by
  rcases commit_result hc hg hd with ⟨e1, e2, e3, _, e5, _⟩ | ⟨_, _, e3⟩
  · exact ⟨e1, e2, e3, e5⟩
  · exfalso
    have hf := (level_reset_fields (clear (index_standing (turn d g)))).1
    rw [← e3] at hf
    have : (clear (index_standing (turn d g))).level = g.level + 1 := by
      show (turn d g).level + 1 = g.level + 1
      rw [turn_level]
    omega

/-- C7: for every block state, the transform of the Left and of the Right
branch exchanges height and length and keeps width, the transform of the
Forward and of the Back branch exchanges height and width and keeps length
(the three-step arithmetic is a plain swap); and a commit tick that keeps
the level leaves the block with exactly these extents. -/
theorem dimension_swap (g : Game) :
    ((turn .Left g).block.height = g.block.length ∧
      (turn .Left g).block.length = g.block.height ∧
      (turn .Left g).block.width = g.block.width) ∧
    ((turn .Right g).block.height = g.block.length ∧
      (turn .Right g).block.length = g.block.height ∧
      (turn .Right g).block.width = g.block.width) ∧
    ((turn .Forward g).block.height = g.block.width ∧
      (turn .Forward g).block.width = g.block.height ∧
      (turn .Forward g).block.length = g.block.length) ∧
    ((turn .Back g).block.height = g.block.width ∧
      (turn .Back g).block.width = g.block.height ∧
      (turn .Back g).block.length = g.block.length) ∧
    (∀ (d : Dir) (g1 : Game), committing d g → g.game_check ≠ 1 → draw g = some g1 →
      g1.level = g.level →
      g1.block.height = (turn d g).block.height ∧ g1.block.length = (turn d g).block.length ∧
        g1.block.width = (turn d g).block.width) := by
  refine ⟨⟨?_, ?_, rfl⟩, ⟨?_, ?_, rfl⟩, ⟨?_, ?_, rfl⟩, ⟨?_, ?_, rfl⟩, ?_⟩
  · show g.block.length - g.block.height +
      (g.block.length - (g.block.length - g.block.height)) = g.block.length
    ring
  · show g.block.length - (g.block.length - g.block.height) = g.block.height
    ring
  · show g.block.length - g.block.height +
      (g.block.length - (g.block.length - g.block.height)) = g.block.length
    ring
  · show g.block.length - (g.block.length - g.block.height) = g.block.height
    ring
  · show g.block.width - g.block.height +
      (g.block.width - (g.block.width - g.block.height)) = g.block.width
    ring
  · show g.block.width - (g.block.width - g.block.height) = g.block.height
    ring
  · show g.block.width - g.block.height +
      (g.block.width - (g.block.width - g.block.height)) = g.block.width
    ring
  · show g.block.width - (g.block.width - g.block.height) = g.block.height
    ring
  · intro d g1 hc hg hd hl
    have h := (commit_keep hc hg hd hl).1
    rw [h]
    exact ⟨rfl, rfl, rfl⟩

theorem dimension_swap_witness :
    ∃ g1, draw (at_commit .Left init) = some g1 ∧
      g1.block.height = (turn .Left (at_commit .Left init)).block.height ∧
      g1.block.length = (turn .Left (at_commit .Left init)).block.length ∧
      g1.block.width = (turn .Left (at_commit .Left init)).block.width :=
  ⟨(draw (at_commit .Left init)).get (by decide!), by simp,
    (dimension_swap (at_commit .Left init)).2.2.2.2 .Left
      ((draw (at_commit .Left init)).get (by decide!)) (by decide!) (by decide!) (by simp)
      (by decide!)⟩

/-- C8: for every block state, the transform of a branch moves the centre
along the tumble axis by the old extent along that axis over 2 plus the old
height over 2, toward -x for Left, +x for Right, -z for Forward (UP key)
and +z for Back (DOWN key), and keeps the other horizontal coordinate; and
a commit tick that keeps the level leaves the centre exactly there. -/
theorem center_translation (g : Game) :
    ((turn .Left g).block.center.x =
        g.block.center.x - (g.block.length / 2 + g.block.height / 2) ∧
      (turn .Left g).block.center.z = g.block.center.z) ∧
    ((turn .Right g).block.center.x =
        g.block.center.x + (g.block.length / 2 + g.block.height / 2) ∧
      (turn .Right g).block.center.z = g.block.center.z) ∧
    ((turn .Forward g).block.center.z =
        g.block.center.z - (g.block.width / 2 + g.block.height / 2) ∧
      (turn .Forward g).block.center.x = g.block.center.x) ∧
    ((turn .Back g).block.center.z =
        g.block.center.z + (g.block.width / 2 + g.block.height / 2) ∧
      (turn .Back g).block.center.x = g.block.center.x) ∧
    (∀ (d : Dir) (g1 : Game), committing d g → g.game_check ≠ 1 → draw g = some g1 →
      g1.level = g.level → g1.block.center = (turn d g).block.center) := by
  refine ⟨⟨?_, rfl⟩, ⟨?_, rfl⟩, ⟨?_, rfl⟩, ⟨?_, rfl⟩, ?_⟩
  · show g.block.center.x - g.block.length / 2 - g.block.height / 2 = _
    ring
  · show g.block.center.x + g.block.length / 2 + g.block.height / 2 = _
    ring
  · show g.block.center.z - g.block.width / 2 - g.block.height / 2 = _
    ring
  · show g.block.center.z + g.block.width / 2 + g.block.height / 2 = _
    ring
  · intro d g1 hc hg hd hl
    rw [(commit_keep hc hg hd hl).1]

theorem center_translation_witness :
    ∃ g1, draw (at_commit .Forward init) = some g1 ∧
      g1.block.center = (turn .Forward (at_commit .Forward init)).block.center :=
  ⟨(draw (at_commit .Forward init)).get (by decide!), by simp,
    (center_translation (at_commit .Forward init)).2.2.2.2 .Forward
      ((draw (at_commit .Forward init)).get (by decide!)) (by decide!) (by decide!) (by simp)
      (by decide!)⟩

theorem sameIndex_trans {a b c : Game} (h1 : SameIndex a b) (h2 : SameIndex b c) :
    SameIndex a c :=
  ⟨h2.1.trans h1.1, h2.2.1.trans h1.2.1, h2.2.2.1.trans h1.2.2.1, h2.2.2.2.trans h1.2.2.2⟩

theorem flip_index (s : Game) : SameIndex s (flip s) := by
  unfold flip SameIndex
  split_ifs <;> exact ⟨rfl, rfl, rfl, rfl⟩

theorem finish_index (s : Game) : SameIndex s (finish s) := by
  unfold finish
  split_ifs
  · have h := level_reset_fields s
    exact ⟨h.2.2.2.2.2.1, h.2.2.2.2.2.2.1, h.2.2.2.2.2.2.2.1, h.2.2.2.2.2.2.2.2⟩
  · exact ⟨rfl, rfl, rfl, rfl⟩

theorem standing_outcome_index (c : Int) (s : Game) : SameIndex s (standing_outcome c s) := by
  unfold standing_outcome
  split_ifs
  · exact ⟨rfl, rfl, rfl, rfl⟩
  · exact ⟨rfl, rfl, rfl, rfl⟩
  · exact sameIndex_trans (flip_index s) ⟨rfl, rfl, rfl, rfl⟩
  · exact ⟨rfl, rfl, rfl, rfl⟩
  · exact ⟨rfl, rfl, rfl, rfl⟩

theorem lying_outcome_index (a b : Int) (s : Game) : SameIndex s (lying_outcome a b s) := by
  unfold lying_outcome
  split_ifs
  · exact ⟨rfl, rfl, rfl, rfl⟩
  · exact sameIndex_trans (flip_index s) ⟨rfl, rfl, rfl, rfl⟩
  · exact ⟨rfl, rfl, rfl, rfl⟩
  · exact ⟨rfl, rfl, rfl, rfl⟩
  · exact ⟨rfl, rfl, rfl, rfl⟩

theorem lying_outcome_right_z_index (a b : Int) (s : Game) :
    SameIndex s (lying_outcome_right_z a b s) := by
  unfold lying_outcome_right_z
  split_ifs
  all_goals first
    | exact ⟨rfl, rfl, rfl, rfl⟩
    | exact sameIndex_trans (flip_index s) ⟨rfl, rfl, rfl, rfl⟩
    | exact sameIndex_trans (show SameIndex s (lose s) from ⟨rfl, rfl, rfl, rfl⟩)
        (sameIndex_trans (flip_index (lose s)) ⟨rfl, rfl, rfl, rfl⟩)

theorem lying_rules_index {s t : Game} (h : lying_rules s = some t) : SameIndex s t := by
  unfold lying_rules at h
  obtain ⟨a, ha, h⟩ := Option.bind_eq_some.mp h
  by_cases ha0 : a = 0
  · simp only [ha0, if_true, Option.some.injEq] at h
    subst h; exact ⟨rfl, rfl, rfl, rfl⟩
  · simp only [ha0, if_false] at h
    obtain ⟨b, hb, h⟩ := Option.bind_eq_some.mp h
    have := lying_rules_eval ha hb
    unfold lying_rules at this
    simp only [ha, hb, Option.some_bind, ha0, if_false] at this
    rw [this] at h
    have h := Option.some.inj h
    subst h; exact lying_outcome_index a b s

theorem lying_rules_right_z_index {s t : Game} (h : lying_rules_right_z s = some t) :
    SameIndex s t := by
  have h' := h
  unfold lying_rules_right_z at h
  obtain ⟨a, ha, h⟩ := Option.bind_eq_some.mp h
  obtain ⟨b, hb, _⟩ := Option.bind_eq_some.mp h
  rw [lying_rules_right_z_eval ha hb] at h'
  have h' := Option.some.inj h'
  subst h'; exact lying_outcome_right_z_index a b s

theorem lying_z_rules_index {d : Dir} {s t : Game} (h : lying_z_rules d s = some t) :
    SameIndex s t := by
  cases d <;> simp only [lying_z_rules] at h
  · exact lying_rules_index h
  · exact lying_rules_right_z_index h
  · exact lying_rules_index h
  · exact lying_rules_index h

/-- After the commit tick of a tumble that ends in a valid shape, the
recorded indices are the footprint of the transformed block: one pair for a
standing block, both pairs for a lying block. -/
theorem recorded_footprint {d : Dir} {g g1 : Game} (hc : committing d g)
    (hs : valid_shape (turn d g).block) (hd : draw g = some g1) :
    (standing (turn d g).block ∧ footprint (turn d g).block = [(g1.x_check, g1.z_check)]) ∨
    (¬ standing (turn d g).block ∧
      footprint (turn d g).block = [(g1.x_check, g1.z_check), (g1.x1_check, g1.z1_check)]) := by
  rw [draw_commit hc] at hd
  obtain ⟨t, ht, hfin⟩ := Option.map_eq_some'.mp hd
  have hfi := finish_index t
  rw [hfin] at hfi
  rcases hs with hs | hs | hs
  · left
    refine ⟨hs, ?_⟩
    rw [check_standing hs] at ht
    obtain ⟨c, _, hout⟩ := standing_rules_some ht
    have hi := standing_outcome_index c (index_standing (turn d g))
    rw [← hout] at hi
    rw [footprint_standing hs, hfi.1, hfi.2.1, hi.1, hi.2.1]
    rfl
  · right
    have hns : ¬ standing (turn d g).block := fun h => by
      have h1 := h.2.1; rw [hs.2.1] at h1; exact half_ne_one h1
    refine ⟨hns, ?_⟩
    rw [check_lying_x hs] at ht
    have hi := lying_rules_index ht
    rw [footprint_lying_x hs, hfi.1, hfi.2.1, hfi.2.2.1, hfi.2.2.2, hi.1, hi.2.1, hi.2.2.1,
      hi.2.2.2]
    rfl
  · right
    have hns : ¬ standing (turn d g).block := fun h => by
      have h1 := h.2.1; rw [hs.2.1] at h1; exact half_ne_one h1
    refine ⟨hns, ?_⟩
    rw [check_lying_z hs] at ht
    have hi := lying_z_rules_index ht
    rw [footprint_lying_z hs, hfi.1, hfi.2.1, hfi.2.2.1, hfi.2.2.2, hi.1, hi.2.1, hi.2.2.1,
      hi.2.2.2]
    rfl

theorem posed_valid_shape {g : Game} (h : posed g) : valid_shape g.block := by
  obtain ⟨x, z, h | h | h⟩ := h
  · exact Or.inl h.1
  · exact Or.inr (Or.inl h.1)
  · exact Or.inr (Or.inr h.1)

/-- C9: in every reachable state the block is on cell `(x, z)` (standing), on
`(x, z), (x+1, z)` (lying along X) or on `(x, z), (x, z+1)` (lying along Z),
and the footprint after the transform of each direction is the cells
immediately beyond it in that direction (Right: column index up, Left: down,
Forward: row index up, Back: down), disjoint from the footprint before;
after a complete move the recorded indices are exactly that footprint. -/
theorem adjacent_footprint (g : Game) (h : Reachable g) :
    (∃ x z : Int,
      (standing g.block ∧ footprint g.block = [(x, z)] ∧
        footprint (turn .Right g).block = [(x + 2, z), (x + 1, z)] ∧
        footprint (turn .Left g).block = [(x - 1, z), (x - 2, z)] ∧
        footprint (turn .Forward g).block = [(x, z + 2), (x, z + 1)] ∧
        footprint (turn .Back g).block = [(x, z - 1), (x, z - 2)]) ∨
      (lying_x g.block ∧ footprint g.block = [(x + 1, z), (x, z)] ∧
        footprint (turn .Right g).block = [(x + 2, z)] ∧
        footprint (turn .Left g).block = [(x - 1, z)] ∧
        footprint (turn .Forward g).block = [(x + 1, z + 1), (x, z + 1)] ∧
        footprint (turn .Back g).block = [(x + 1, z - 1), (x, z - 1)]) ∨
      (lying_z g.block ∧ footprint g.block = [(x, z + 1), (x, z)] ∧
        footprint (turn .Right g).block = [(x + 1, z + 1), (x + 1, z)] ∧
        footprint (turn .Left g).block = [(x - 1, z + 1), (x - 1, z)] ∧
        footprint (turn .Forward g).block = [(x, z + 2)] ∧
        footprint (turn .Back g).block = [(x, z - 1)])) ∧
    (∀ d : Dir, ∀ c ∈ footprint g.block, c ∉ footprint (turn d g).block) ∧
    (∀ (d : Dir) (g1 : Game), move d g = some g1 →
      (standing (turn d g).block ∧ footprint (turn d g).block = [(g1.x_check, g1.z_check)]) ∨
      (¬ standing (turn d g).block ∧
        footprint (turn d g).block =
          [(g1.x_check, g1.z_check), (g1.x1_check, g1.z1_check)])) := by
  obtain ⟨hgc, hposed, _, _⟩ := inv_reachable h
  have e1 : ∀ a : Int, a + 1 + 1 = a + 2 := fun a => by ring
  have e2 : ∀ a : Int, a - 2 + 1 = a - 1 := fun a => by ring
  have key : (∃ x z : Int,
      (standing g.block ∧ footprint g.block = [(x, z)] ∧
        footprint (turn .Right g).block = [(x + 2, z), (x + 1, z)] ∧
        footprint (turn .Left g).block = [(x - 1, z), (x - 2, z)] ∧
        footprint (turn .Forward g).block = [(x, z + 2), (x, z + 1)] ∧
        footprint (turn .Back g).block = [(x, z - 1), (x, z - 2)]) ∨
      (lying_x g.block ∧ footprint g.block = [(x + 1, z), (x, z)] ∧
        footprint (turn .Right g).block = [(x + 2, z)] ∧
        footprint (turn .Left g).block = [(x - 1, z)] ∧
        footprint (turn .Forward g).block = [(x + 1, z + 1), (x, z + 1)] ∧
        footprint (turn .Back g).block = [(x + 1, z - 1), (x, z - 1)]) ∨
      (lying_z g.block ∧ footprint g.block = [(x, z + 1), (x, z)] ∧
        footprint (turn .Right g).block = [(x + 1, z + 1), (x + 1, z)] ∧
        footprint (turn .Left g).block = [(x - 1, z + 1), (x - 1, z)] ∧
        footprint (turn .Forward g).block = [(x, z + 2)] ∧
        footprint (turn .Back g).block = [(x, z - 1)])) := by
    obtain ⟨x, z, hp | hp | hp⟩ := hposed
    · refine ⟨x, z, Or.inl ⟨hp.1, stands_footprint hp, ?_, ?_, ?_, ?_⟩⟩
      · rw [lies_x_footprint (stands_right hp), e1]
      · rw [lies_x_footprint (stands_left hp), e2]
      · rw [lies_z_footprint (stands_forward hp), e1]
      · rw [lies_z_footprint (stands_back hp), e2]
    · refine ⟨x, z, Or.inr (Or.inl ⟨hp.1, lies_x_footprint hp, ?_, ?_, ?_, ?_⟩)⟩
      · rw [stands_footprint (lies_x_right hp)]
      · rw [stands_footprint (lies_x_left hp)]
      · rw [lies_x_footprint (lies_x_forward hp)]
      · rw [lies_x_footprint (lies_x_back hp)]
    · refine ⟨x, z, Or.inr (Or.inr ⟨hp.1, lies_z_footprint hp, ?_, ?_, ?_, ?_⟩)⟩
      · rw [lies_z_footprint (lies_z_right hp)]
      · rw [lies_z_footprint (lies_z_left hp)]
      · rw [stands_footprint (lies_z_forward hp)]
      · rw [stands_footprint (lies_z_back hp)]
  refine ⟨key, ?_, ?_⟩
  · intro d c hc hc'
    obtain ⟨x, z, ⟨_, h0, hR, hL, hF, hB⟩ | ⟨_, h0, hR, hL, hF, hB⟩ | ⟨_, h0, hR, hL, hF, hB⟩⟩ :=
      key
    all_goals
      rw [h0] at hc
      cases d
      · rw [hL] at hc'
        simp only [List.mem_cons, List.mem_singleton, List.not_mem_nil, or_false] at hc hc'
        rcases hc with rfl | rfl <;> simp only [Prod.mk.injEq] at hc' <;> omega
      · rw [hR] at hc'
        simp only [List.mem_cons, List.mem_singleton, List.not_mem_nil, or_false] at hc hc'
        rcases hc with rfl | rfl <;> simp only [Prod.mk.injEq] at hc' <;> omega
      · rw [hF] at hc'
        simp only [List.mem_cons, List.mem_singleton, List.not_mem_nil, or_false] at hc hc'
        rcases hc with rfl | rfl <;> simp only [Prod.mk.injEq] at hc' <;> omega
      · rw [hB] at hc'
        simp only [List.mem_cons, List.mem_singleton, List.not_mem_nil, or_false] at hc hc'
        rcases hc with rfl | rfl <;> simp only [Prod.mk.injEq] at hc' <;> omega
  · intro d g1 hm
    rw [move_eq d g hgc] at hm
    have hs : valid_shape (turn d (at_commit d g)).block := by
      rw [turn_at_commit]; exact posed_valid_shape (posed_turn d hposed)
    have := recorded_footprint (committing_at_commit d g) hs hm
    rw [turn_at_commit] at this
    exact this

theorem reachable_ticks (n : Nat) {g g1 : Game} (h : Reachable g) (ht : ticks n g = some g1) :
    Reachable g1 := by
  induction n generalizing g with
  | zero =>
    have := Option.some.inj ht
    subst this; exact h
  | succ n ih =>
    obtain ⟨a, ha, hrest⟩ := Option.bind_eq_some.mp ht
    exact ih (Reachable.tick h ha) hrest

theorem reachable_move (d : Dir) {g g1 : Game} (h : Reachable g) (hm : move d g = some g1) :
    Reachable g1 :=
  reachable_ticks 10 (Reachable.key d.key .RELEASE h) hm

theorem adjacent_footprint_witness :
    (standing (turn .Left init).block ∧
      footprint (turn .Left init).block =
        [(((move .Left init).get (by decide!)).x_check,
          ((move .Left init).get (by decide!)).z_check)]) ∨
    (¬ standing (turn .Left init).block ∧
      footprint (turn .Left init).block =
        [(((move .Left init).get (by decide!)).x_check,
          ((move .Left init).get (by decide!)).z_check),
         (((move .Left init).get (by decide!)).x1_check,
          ((move .Left init).get (by decide!)).z1_check)]) :=
  (adjacent_footprint init Reachable.start).2.2 .Left ((move .Left init).get (by decide!))
    (by simp)

/-- C10: in every state reachable from the initial state by key events and
frame ticks, exactly one of length, height and width is 1 and the other two
are 0.5; in particular the three extents are never pairwise distinct. -/
theorem shape_invariant (g : Game) (h : Reachable g) :
    ((g.block.length = 1 ∧ g.block.height = 0.5 ∧ g.block.width = 0.5) ∨
      (g.block.length = 0.5 ∧ g.block.height = 1 ∧ g.block.width = 0.5) ∨
      (g.block.length = 0.5 ∧ g.block.height = 0.5 ∧ g.block.width = 1)) ∧
    ¬ (g.block.length ≠ g.block.height ∧ g.block.height ≠ g.block.width ∧
        g.block.length ≠ g.block.width) := by
  have hv := posed_valid_shape (inv_reachable h).2.1
  rcases hv with hs | hs | hs
  · refine ⟨Or.inr (Or.inl hs), fun hne => hne.2.2 ?_⟩
    rw [hs.1, hs.2.2]
  · refine ⟨Or.inl hs, fun hne => hne.2.1 ?_⟩
    rw [hs.2.1, hs.2.2]
  · refine ⟨Or.inr (Or.inr hs), fun hne => hne.1 ?_⟩
    rw [hs.1, hs.2.1]

theorem shape_invariant_witness :
    ((((move .Left init).get (by decide!)).block.length = 1 ∧
        ((move .Left init).get (by decide!)).block.height = 0.5 ∧
        ((move .Left init).get (by decide!)).block.width = 0.5) ∨
      (((move .Left init).get (by decide!)).block.length = 0.5 ∧
        ((move .Left init).get (by decide!)).block.height = 1 ∧
        ((move .Left init).get (by decide!)).block.width = 0.5) ∨
      (((move .Left init).get (by decide!)).block.length = 0.5 ∧
        ((move .Left init).get (by decide!)).block.height = 0.5 ∧
        ((move .Left init).get (by decide!)).block.width = 1)) ∧
    ¬ (((move .Left init).get (by decide!)).block.length ≠
          ((move .Left init).get (by decide!)).block.height ∧
        ((move .Left init).get (by decide!)).block.height ≠
          ((move .Left init).get (by decide!)).block.width ∧
        ((move .Left init).get (by decide!)).block.length ≠
          ((move .Left init).get (by decide!)).block.width) :=
  shape_invariant ((move .Left init).get (by decide!))
    (reachable_move .Left Reachable.start (by simp))

theorem posed_unique {g g1 : Game} {x z : Int}
    (h : (stands_at g x z ∧ stands_at g1 x z) ∨ (lies_x_at g x z ∧ lies_x_at g1 x z) ∨
      (lies_z_at g x z ∧ lies_z_at g1 x z)) :
    g1.block.length = g.block.length ∧ g1.block.height = g.block.height ∧
      g1.block.width = g.block.width ∧ g1.block.center = g.block.center := by
  rcases h with ⟨a, b⟩ | ⟨a, b⟩ | ⟨a, b⟩ <;>
    exact ⟨b.1.1.trans a.1.1.symm, b.1.2.1.trans a.1.2.1.symm, b.1.2.2.trans a.1.2.2.symm,
      b.2.1.trans a.2.1.symm⟩

/-- Two opposite transforms in a row bring an aligned block back. -/
theorem turn_turn {d e : Dir} (hop : opposite d e) {g : Game} (h : posed g) :
    (turn e (turn d g)).block.length = g.block.length ∧
      (turn e (turn d g)).block.height = g.block.height ∧
      (turn e (turn d g)).block.width = g.block.width ∧
      (turn e (turn d g)).block.center = g.block.center := by
  have c1 : ∀ a : Int, a + 1 - 1 = a := fun a => by ring
  have c2 : ∀ a : Int, a - 2 + 2 = a := fun a => by ring
  have c3 : ∀ a : Int, a + 2 - 2 = a := fun a => by ring
  have c4 : ∀ a : Int, a - 1 + 1 = a := fun a => by ring
  obtain ⟨x, z, hp | hp | hp⟩ := h
  · rcases hop with ⟨rfl, rfl⟩ | ⟨rfl, rfl⟩ | ⟨rfl, rfl⟩ | ⟨rfl, rfl⟩
    · have := lies_x_left (stands_right hp); rw [c1] at this
      exact posed_unique (Or.inl ⟨hp, this⟩)
    · have := lies_x_right (stands_left hp); rw [c2] at this
      exact posed_unique (Or.inl ⟨hp, this⟩)
    · have := lies_z_back (stands_forward hp); rw [c1] at this
      exact posed_unique (Or.inl ⟨hp, this⟩)
    · have := lies_z_forward (stands_back hp); rw [c2] at this
      exact posed_unique (Or.inl ⟨hp, this⟩)
  · rcases hop with ⟨rfl, rfl⟩ | ⟨rfl, rfl⟩ | ⟨rfl, rfl⟩ | ⟨rfl, rfl⟩
    · have := stands_left (lies_x_right hp); rw [c3] at this
      exact posed_unique (Or.inr (Or.inl ⟨hp, this⟩))
    · have := stands_right (lies_x_left hp); rw [c4] at this
      exact posed_unique (Or.inr (Or.inl ⟨hp, this⟩))
    · have := lies_x_back (lies_x_forward hp); rw [c1] at this
      exact posed_unique (Or.inr (Or.inl ⟨hp, this⟩))
    · have := lies_x_forward (lies_x_back hp); rw [c4] at this
      exact posed_unique (Or.inr (Or.inl ⟨hp, this⟩))
  · rcases hop with ⟨rfl, rfl⟩ | ⟨rfl, rfl⟩ | ⟨rfl, rfl⟩ | ⟨rfl, rfl⟩
    · have := lies_z_left (lies_z_right hp); rw [c1] at this
      exact posed_unique (Or.inr (Or.inr ⟨hp, this⟩))
    · have := lies_z_right (lies_z_left hp); rw [c4] at this
      exact posed_unique (Or.inr (Or.inr ⟨hp, this⟩))
    · have := stands_back (lies_z_forward hp); rw [c3] at this
      exact posed_unique (Or.inr (Or.inr ⟨hp, this⟩))
    · have := stands_forward (lies_z_back hp); rw [c4] at this
      exact posed_unique (Or.inr (Or.inr ⟨hp, this⟩))

/-- The transform only reads the extents, the centre and the correction sign. -/
theorem turn_block_congr (d : Dir) {g g1 : Game} (hl : g1.block.length = g.block.length)
    (hh : g1.block.height = g.block.height) (hw : g1.block.width = g.block.width)
    (hcen : g1.block.center = g.block.center) (hb : g1.base_check = g.base_check) :
    (turn d g1).block = (turn d g).block := by
  cases d <;> simp only [turn, turn_left, turn_right, turn_up, turn_down, hl, hh, hw, hcen, hb]

/-- C6: from every reachable state, a complete move in one direction
followed by a complete move in the opposite direction (Right then Left,
Left then Right, Forward then Back, Back then Forward), the first of which
keeps the level, gives back the original length, height, width and centre. -/
theorem round_trip (g : Game) (hr : Reachable g) (d e : Dir) (hop : opposite d e)
    (g1 g2 : Game) (h1 : move d g = some g1) (hkeep : g1.level = g.level)
    (h2 : move e g1 = some g2) :
    g2.block.length = g.block.length ∧ g2.block.height = g.block.height ∧
      g2.block.width = g.block.width ∧ g2.block.center = g.block.center := by
  obtain ⟨hgc, hposed, hoff, _⟩ := inv_reachable hr
  rw [move_eq d g hgc] at h1
  obtain ⟨b1, bc1, brd1, gc1⟩ := commit_keep (committing_at_commit d g) hgc h1 hkeep
  rw [turn_at_commit] at b1 bc1
  rw [move_eq e g1 gc1] at h2
  have hback : (turn e (at_commit e g1)).block = (turn e (turn d g)).block := by
    rw [turn_at_commit]
    exact turn_block_congr e (by rw [b1]) (by rw [b1]) (by rw [b1]) (by rw [b1]) bc1
  obtain ⟨tl, th, tw, tc⟩ := turn_turn hop hposed
  rcases commit_result (committing_at_commit e g1) gc1 h2 with ⟨e1, _⟩ | ⟨k1, k2, _⟩
  · rw [e1, hback]
    exact ⟨tl, th, tw, tc⟩
  · exfalso
    rw [hback] at k1 k2
    have hcell : cell (turn e (turn d g)).block = cell g.block := by
      simp only [cell, tc]
    have hboard : (at_commit e g1).board = g.board := brd1
    rw [hcell, hboard] at k2
    obtain ⟨c, hc, hne⟩ := hoff (th ▸ k1)
    rw [hc] at k2
    exact hne (Option.some.inj k2)

theorem round_trip_witness :
    ((move .Right ((move .Left init).get (by decide!))).get (by decide!)).block.length =
        init.block.length ∧
      ((move .Right ((move .Left init).get (by decide!))).get (by decide!)).block.height =
        init.block.height ∧
      ((move .Right ((move .Left init).get (by decide!))).get (by decide!)).block.width =
        init.block.width ∧
      ((move .Right ((move .Left init).get (by decide!))).get (by decide!)).block.center =
        init.block.center :=
  round_trip init Reachable.start .Left .Right (Or.inr (Or.inl ⟨rfl, rfl⟩))
    ((move .Left init).get (by decide!))
    ((move .Right ((move .Left init).get (by decide!))).get (by decide!))
    (by simp) (by decide!) (by simp)

/-- C5 (the code at two failing inputs): from the initial state, after the
twenty safe moves L L L B B B B R R R R R F R F F F L L F the session is
Playing with score 20, and the next move Right, which lands lying along Z
on a cell holding 0, leaves the score at 22; and after clearing level 1 in
26 moves and the six safe moves L L B L F R on level 2, the score is 32,
and the next move Right, which lands standing on a cell holding 3, leaves
the session Playing with the score still 32. -/
theorem score_not_incremented_by_one :
    ((moves [.Left, .Left, .Left, .Back, .Back, .Back, .Back, .Right, .Right, .Right, .Right,
        .Right, .Forward, .Right, .Forward, .Forward, .Forward, .Left, .Left, .Forward] init).bind
      (fun g => (move .Right g).map fun g1 =>
        (g.game_check, g.no_of_moves, g1.game_check, g1.no_of_moves,
          (footprint g1.block).map (tile g1.board)))) =
      some (0, 20, -1, 22, [some 0, some 1]) ∧
    ((moves [.Left, .Left, .Left, .Back, .Back, .Back, .Back, .Right, .Right, .Right, .Right,
        .Right, .Forward, .Forward, .Forward, .Forward, .Left, .Left, .Forward, .Left, .Back,
        .Right, .Forward, .Left, .Left, .Left,
        .Left, .Left, .Back, .Left, .Forward, .Right] init).bind
      (fun g => (move .Right g).map fun g1 =>
        ((g.level, g.game_check, g.no_of_moves),
          (g1.game_check, g1.no_of_moves, (footprint g1.block).map (tile g1.board))))) =
      some ((2, 0, 32), (0, 32, [some 3])) := by
  constructor <;> decide!

theorem turn_center_y (d : Dir) (g : Game) :
    (turn d g).block.center.y =
      if along d g.block ≠ g.block.height then g.block.center.y - 0.25 * g.base_check
      else g.block.center.y := by
  cases d <;> rfl

theorem posed_floor {g : Game} (h : posed g) :
    (g.block.height = 1 ∧ g.block.center.y = 0 ∧ g.base_check = 1) ∨
    (g.block.height = 0.5 ∧ g.block.center.y = -0.25 ∧ g.base_check = -1) := by
  obtain ⟨x, z, h | h | h⟩ := h
  · exact Or.inl ⟨h.1.2.1, by rw [h.2.1], h.2.2⟩
  · exact Or.inr ⟨h.1.2.1, by rw [h.2.1], h.2.2⟩
  · exact Or.inr ⟨h.1.2.1, by rw [h.2.1], h.2.2⟩

/-- C11: in every reachable state the base of the block is on the floor
plane, `center.y - height/2 = -0.5` (`center.y = 0` when standing, `-0.25`
when lying); the transform of a tumble changes `center.y` by 0.25 exactly
when the old height differs from the old extent along the tumble axis, and
after a complete move `center.y` is the transformed one. -/
theorem floor_flush (g : Game) (h : Reachable g) :
    g.block.center.y - g.block.height / 2 = -0.5 ∧
    (g.block.height = 1 → g.block.center.y = 0) ∧
    (g.block.height = 0.5 → g.block.center.y = -0.25) ∧
    (∀ d : Dir,
      (along d g.block ≠ g.block.height →
        |(turn d g).block.center.y - g.block.center.y| = 0.25) ∧
      (along d g.block = g.block.height →
        (turn d g).block.center.y = g.block.center.y)) ∧
    (∀ (d : Dir) (g1 : Game), move d g = some g1 →
      g1.block.center.y = (turn d g).block.center.y) := by
  obtain ⟨hgc, hposed, _, _⟩ := inv_reachable h
  have hfl := posed_floor hposed
  refine ⟨?_, ?_, ?_, ?_, ?_⟩
  · rcases hfl with ⟨hh, hy, _⟩ | ⟨hh, hy, _⟩ <;> rw [hh, hy] <;> norm_num
  · intro h1
    rcases hfl with ⟨_, hy, _⟩ | ⟨hh, _, _⟩
    · exact hy
    · rw [h1] at hh; exact absurd hh one_ne_half
  · intro h5
    rcases hfl with ⟨hh, _, _⟩ | ⟨_, hy, _⟩
    · rw [h5] at hh; exact absurd hh half_ne_one
    · exact hy
  · intro d
    constructor
    · intro hne
      rw [turn_center_y, if_pos hne]
      rcases hfl with ⟨_, _, hb⟩ | ⟨_, _, hb⟩ <;> rw [hb] <;> norm_num [abs_of_nonneg]
    · intro heq
      rw [turn_center_y, if_neg (not_not.mpr heq)]
  · intro d g1 hm
    rw [move_eq d g hgc] at hm
    rcases commit_result (committing_at_commit d g) hgc hm with ⟨e1, _⟩ | ⟨k1, _, k3⟩
    · rw [e1, turn_at_commit]
    · rw [turn_at_commit] at k1
      rcases posed_floor (posed_turn d hposed) with ⟨_, hy, _⟩ | ⟨hh, _, _⟩
      · rw [hy, k3, level_reset_block]
        rfl
      · rw [k1] at hh; exact absurd hh one_ne_half

theorem floor_flush_witness :
    ((move .Left init).get (by decide!)).block.center.y -
        ((move .Left init).get (by decide!)).block.height / 2 = -0.5 :=
  (floor_flush ((move .Left init).get (by decide!))
    (reachable_move .Left Reachable.start (by simp))).1

/-- C12: when the commit tick of a tumble ends with the block standing on a
cell holding 6, the tick returns with the level incremented, the board
equal to `board_2` when the level was 1 and to `board_3` when it was 2, the
block standing with extents (0.5, 1, 0.5) at centre (0,0,0) and idle with
angle 0, `switch_check = 0` and `game_check = 0`. -/
theorem level_transition (d : Dir) (g : Game) (hc : committing d g)
    (hs : standing (turn d g).block)
    (ht : tile g.board (cell (turn d g).block) = some 6) :
    ∃ g1, draw g = some g1 ∧ g1.level = g.level + 1 ∧
      (g.level = 1 → g1.board = board_2) ∧ (g.level = 2 → g1.board = board_3) ∧
      g1.block.length = 0.5 ∧ g1.block.height = 1 ∧ g1.block.width = 0.5 ∧
      g1.block.center = ⟨0, 0, 0⟩ ∧ g1.block.rotate_check = 0 ∧ g1.block.rotate = 0 ∧
      g1.switch_check = 0 ∧ g1.game_check = 0 := by
  have hd := draw_standing hc hs ht
  rw [standing_outcome_goal] at hd
  have hfin : finish (clear (index_standing (turn d g))) =
      level_reset (clear (index_standing (turn d g))) := by
    simp [finish, clear]
  rw [hfin] at hd
  have hlev : (clear (index_standing (turn d g))).level = g.level + 1 := by
    show (turn d g).level + 1 = g.level + 1
    rw [turn_level]
  have hf := level_reset_fields (clear (index_standing (turn d g)))
  have hb := level_reset_block (clear (index_standing (turn d g)))
  refine ⟨_, hd, hf.1.trans hlev, ?_, ?_, ?_, ?_, ?_, ?_, ?_, ?_, hf.2.2.1, hf.2.1⟩
  · intro h1
    have h2 : (clear (index_standing (turn d g))).level = 2 := by rw [hlev, h1]; rfl
    simp [level_reset, createBoard, h2]
  · intro h1
    have h3 : (clear (index_standing (turn d g))).level = 3 := by rw [hlev, h1]; rfl
    simp [level_reset, createBoard, h3]
  all_goals rw [hb]; rfl

theorem level_transition_witness :
    ∃ g1, draw (at_commit .Left (place board_1 1 1 0.5 0.5 ⟨-1.25, -0.25, -1.5⟩ (-1))) = some g1 ∧
      g1.level = (at_commit .Left (place board_1 1 1 0.5 0.5 ⟨-1.25, -0.25, -1.5⟩ (-1))).level + 1 ∧
      ((at_commit .Left (place board_1 1 1 0.5 0.5 ⟨-1.25, -0.25, -1.5⟩ (-1))).level = 1 →
        g1.board = board_2) ∧
      ((at_commit .Left (place board_1 1 1 0.5 0.5 ⟨-1.25, -0.25, -1.5⟩ (-1))).level = 2 →
        g1.board = board_3) ∧
      g1.block.length = 0.5 ∧ g1.block.height = 1 ∧ g1.block.width = 0.5 ∧
      g1.block.center = ⟨0, 0, 0⟩ ∧ g1.block.rotate_check = 0 ∧ g1.block.rotate = 0 ∧
      g1.switch_check = 0 ∧ g1.game_check = 0 :=
  level_transition .Left (at_commit .Left (place board_1 1 1 0.5 0.5 ⟨-1.25, -0.25, -1.5⟩ (-1)))
    (by decide!) (by decide!) (by decide!)

theorem reachable_moves (ds : List Dir) {g g1 : Game} (h : Reachable g)
    (hm : moves ds g = some g1) : Reachable g1 := by
  induction ds generalizing g with
  | nil =>
    have := Option.some.inj hm
    subst this; exact h
  | cons d ds ih =>
    obtain ⟨a, ha, hrest⟩ := Option.bind_eq_some.mp hm
    exact ih (reachable_move d h ha) hrest

theorem finish_level (t : Game) : (finish t).level = t.level := by
  unfold finish
  split_ifs
  · exact (level_reset_fields t).1
  · rfl

theorem level_pos_reachable {g : Game} (h : Reachable g) : 1 ≤ g.level := by
  induction h with
  | start => decide
  | key k a _ ih =>
    cases a
    · cases k <;> exact ih
    · exact ih
  | @tick g g1 hr hd ih =>
    have hgc := (inv_reachable hr).1
    rcases draw_kinds g with ⟨_, _, he⟩ | ⟨d, hc⟩ | ⟨_, _, he⟩
    · rw [he] at hd
      have := Option.some.inj hd
      subst this
      rw [finish_level]; exact ih
    · rcases commit_result hc hgc hd with ⟨_, _, _, e4, _⟩ | ⟨_, _, e3⟩
      · rw [e4]; exact ih
      · have hf := (level_reset_fields (clear (index_standing (turn d g)))).1
        rw [← e3] at hf
        have : (clear (index_standing (turn d g))).level = g.level + 1 := by
          show (turn d g).level + 1 = g.level + 1
          rw [turn_level]
        omega
    · rw [he] at hd
      have := Option.some.inj hd
      subst this
      rw [finish_level]; exact ih

/-- Frame ticks that only advance the angle of a tumble in flight. -/
theorem ticks_anim (d : Dir) (g : Game) (hg : g.game_check ≠ 1) (n : Nat) :
    ∀ r : ℚ, r + 10 * (n : ℚ) ≤ 90 →
      ticks n (with_angle d g r) = some (with_angle d g (r + 10 * (n : ℚ))) := by
  induction n with
  | zero =>
    intro r _
    simp [ticks]
  | succ n ih =>
    intro r hr
    have hn : (0 : ℚ) ≤ (n : ℚ) := Nat.cast_nonneg n
    push_cast at hr
    rw [ticks_with_angle d g r (by linarith) hg n, ih (r + 10) (by linarith)]
    congr 2
    push_cast
    ring

theorem keyboard_dir (d : Dir) (g : Game) : keyboard d.key .RELEASE g = with_angle d g 0 := by
  cases d <;> rfl

theorem reachable_at_commit (d : Dir) {g : Game} (h : Reachable g) :
    Reachable (at_commit d g) := by
  have hgc := (inv_reachable h).1
  have h9 := ticks_anim d g hgc 9 0 (by norm_num)
  have e : (0 + 10 * ((9 : Nat) : ℚ)) = 90 := by norm_num
  rw [e, ← keyboard_dir] at h9
  exact reachable_ticks 9 (Reachable.key d.key .RELEASE h) h9

theorem before_win_reached :
    moves (solve_1 ++ solve_2 ++ solve_3.dropLast) init = some before_win := by
  decide!

theorem after_win_reached : move .Left before_win = some after_win := by
  decide!

theorem reachable_before_win : Reachable before_win :=
  reachable_moves (solve_1 ++ solve_2 ++ solve_3.dropLast) Reachable.start before_win_reached

theorem reachable_after_win : Reachable after_win :=
  reachable_move .Left reachable_before_win after_win_reached

/-- C13 (counterexample): the reachable state `after_win`, obtained by
clearing the three levels with safe moves, has level index 4 and is
Playing, and the next move Left is still processed: it moves the block and
counts. -/
theorem level_four_is_reached :
    ∃ g, Reachable g ∧ g.level = 4 ∧ g.game_check = 0 ∧
      ∃ g1, move .Left g = some g1 ∧ g1.no_of_moves = g.no_of_moves + 1 ∧
        g1.block.center ≠ g.block.center ∧ g1.level = 4 :=
  ⟨after_win, reachable_after_win, rfl, rfl, (move .Left after_win).get (by decide!),
    by simp, by decide!, by decide!, by decide!⟩

/-- C13 (amended): in every reachable state the level index is at least 1,
and a frame tick keeps it or increments it by one; a commit tick on level 3
that ends standing on a cell holding 6 returns with level index 4, the board
unchanged, the block reset to the spawn block and `game_check = 0`. -/
theorem level_index_amended (g : Game) (h : Reachable g) :
    1 ≤ g.level ∧
    (∀ g1, draw g = some g1 → g1.level = g.level ∨ g1.level = g.level + 1) ∧
    (∀ d : Dir, committing d g → standing (turn d g).block →
      tile g.board (cell (turn d g).block) = some 6 → g.level = 3 →
      ∃ g1, draw g = some g1 ∧ g1.level = 4 ∧ g1.board = g.board ∧
        g1.block = spawn_block ∧ g1.game_check = 0) := by
  have hgc := (inv_reachable h).1
  refine ⟨level_pos_reachable h, ?_, ?_⟩
  · intro g1 hd
    rcases draw_kinds g with ⟨_, _, he⟩ | ⟨d, hc⟩ | ⟨_, _, he⟩
    · rw [he] at hd
      have := Option.some.inj hd
      subst this
      left; rw [finish_level]
    · rcases commit_result hc hgc hd with ⟨_, _, _, e4, _⟩ | ⟨_, _, e3⟩
      · exact Or.inl e4
      · right
        rw [e3, (level_reset_fields _).1]
        show (turn d g).level + 1 = g.level + 1
        rw [turn_level]
    · rw [he] at hd
      have := Option.some.inj hd
      subst this
      left; rw [finish_level]
  · intro d hc hs ht h3
    have hd := draw_standing hc hs ht
    rw [standing_outcome_goal] at hd
    have hfin : finish (clear (index_standing (turn d g))) =
        level_reset (clear (index_standing (turn d g))) := by
      simp [finish, clear]
    rw [hfin] at hd
    have hlev : (clear (index_standing (turn d g))).level = 4 := by
      show (turn d g).level + 1 = 4
      rw [turn_level, h3]; rfl
    have hf := level_reset_fields (clear (index_standing (turn d g)))
    refine ⟨_, hd, hf.1.trans hlev, ?_, level_reset_block _, hf.2.1⟩
    have hb : (level_reset (clear (index_standing (turn d g)))).board =
        (clear (index_standing (turn d g))).board := by
      simp [level_reset, createBoard, hlev]
    rw [hb]
    show (turn d g).board = g.board
    exact turn_board d g

theorem level_index_amended_witness :
    ∃ g1, draw (at_commit .Left before_win) = some g1 ∧ g1.level = 4 ∧
      g1.board = (at_commit .Left before_win).board ∧ g1.block = spawn_block ∧
      g1.game_check = 0 :=
  (level_index_amended (at_commit .Left before_win)
      (reachable_at_commit .Left reachable_before_win)).2.2 .Left
    (by decide!) (by decide!) (by decide!) (by decide!)

/-- Outcome of a commit tick from a state that is not in the transient
cleared state: the level is kept and the outcome is kept or becomes Lost,
or the level is incremented and the outcome is Playing. -/
theorem commit_outcome {d : Dir} {g g1 : Game} (hc : committing d g) (hg : g.game_check ≠ 1)
    (hd : draw g = some g1) :
    (g1.level = g.level ∧ (g1.game_check = g.game_check ∨ g1.game_check = -1)) ∨
    (g1.level = g.level + 1 ∧ g1.game_check = 0) := by
  rw [draw_commit hc] at hd
  obtain ⟨t, ht, hfin⟩ := Option.map_eq_some'.mp hd
  have hplain : Plain (turn d g) t →
      (g1.level = g.level ∧ (g1.game_check = g.game_check ∨ g1.game_check = -1)) := by
    intro hp
    have hne : t.game_check ≠ 1 := by
      rcases hp.2.2 with h | h
      · rw [h, turn_game_check]; exact hg
      · rw [h]; decide
    rw [finish_of_ne hne] at hfin
    subst hfin
    refine ⟨hp.2.1.trans (turn_level d g), ?_⟩
    rcases hp.2.2 with h | h
    · exact Or.inl (h.trans (turn_game_check d g))
    · exact Or.inr h
  rcases check_effect ht with ⟨_, c, _, hout⟩ | ⟨_, hp⟩
  · by_cases h6 : c = 6
    · right
      subst h6
      rw [standing_outcome_goal] at hout
      subst hout
      have hfin2 : finish (clear (index_standing (turn d g))) =
          level_reset (clear (index_standing (turn d g))) := by
        simp [finish, clear]
      rw [hfin2] at hfin
      have hf := level_reset_fields (clear (index_standing (turn d g)))
      rw [hfin] at hf
      refine ⟨?_, hf.2.1⟩
      rw [hf.1]
      show (turn d g).level + 1 = g.level + 1
      rw [turn_level]
    · left
      apply hplain
      rw [hout]
      exact plain_trans ⟨index_standing_same _, rfl, Or.inl rfl⟩ (standing_outcome_plain _ h6)
  · left
    exact hplain hp

/-- A frame tick that advances the angle, from a state that is not in the
transient cleared state. -/
theorem draw_anim {g : Game} (hg : g.game_check ≠ 1)
    (h : g.block.rotate < 90 ∧ g.block.rotate_check ≠ 0) :
    draw g = some { g with block := { g.block with rotate := g.block.rotate + 10 } } := by
  have h10 : (g.block.rotate + 5 * 2 : ℚ) = g.block.rotate + 10 := by norm_num
  rcases draw_kinds g with ⟨_, _, he⟩ | ⟨d, hc⟩ | ⟨_, hn, _⟩
  · rw [he, finish_of_ne (show ({ g with block := { g.block with
        rotate := g.block.rotate + 5 * 2 } } : Game).game_check ≠ 1 from hg), h10]
  · exact absurd h.1 hc.2
  · exact absurd h hn

/-- A frame tick with no tumble in flight, from a state that is not in the
transient cleared state, changes nothing. -/
theorem draw_idle {g : Game} (hg : g.game_check ≠ 1) (h0 : g.block.rotate_check = 0) :
    draw g = some g := by
  rcases draw_kinds g with ⟨_, hne, _⟩ | ⟨d, hc⟩ | ⟨_, _, he⟩
  · exact absurd h0 hne
  · exfalso
    have := hc.1
    rw [h0] at this
    cases d <;> simp [Dir.code] at this
  · rw [he, finish_of_ne hg]

/-- C14 (the code at the failing input): from the initial state the move
Right is Lost (`game_check = -1`) with score 1, centre x = 0.75 and height
0.5; the key release Left and the ten ticks that follow the loss are
processed all the same: the score becomes 2 and the block stands again at
centre x = 0 with height 1. -/
theorem lost_is_not_terminal :
    (move .Right init).bind (fun g => (move .Left g).map fun g1 =>
      ((g.game_check, g.no_of_moves, g.block.center.x, g.block.height),
        (g1.game_check, g1.no_of_moves, g1.block.center.x, g1.block.height))) =
      some ((-1, 1, 0.75, 0.5), (-1, 2, 0, 1)) := by
  decide!

/-- What key events and frame ticks do to a state whose outcome is Lost: a
key event changes nothing but the stored direction and the angle; a tick
with no tumble in flight changes nothing and a tick that advances the angle
changes only the angle; after any tick the outcome is still Lost, unless
the tick committed a landing that incremented the level, after which the
outcome is Playing. -/
theorem after_loss (g : Game) (hl : g.game_check = -1) :
    (∀ (k : Key) (a : Action),
      (keyboard k a g).block.length = g.block.length ∧
      (keyboard k a g).block.height = g.block.height ∧
      (keyboard k a g).block.width = g.block.width ∧
      (keyboard k a g).block.center = g.block.center ∧
      (keyboard k a g).no_of_moves = g.no_of_moves ∧
      (keyboard k a g).switch_check = g.switch_check ∧
      (keyboard k a g).level = g.level ∧
      (keyboard k a g).game_check = g.game_check) ∧
    (g.block.rotate_check = 0 → draw g = some g) ∧
    (g.block.rotate < 90 ∧ g.block.rotate_check ≠ 0 →
      draw g = some { g with block := { g.block with rotate := g.block.rotate + 10 } }) ∧
    (∀ g1, draw g = some g1 →
      g1.game_check = -1 ∨ (g1.game_check = 0 ∧ g1.level = g.level + 1)) := by
  have hgc : g.game_check ≠ 1 := by rw [hl]; decide
  refine ⟨?_, draw_idle hgc, draw_anim hgc, ?_⟩
  · intro k a
    cases a
    · cases k <;> exact ⟨rfl, rfl, rfl, rfl, rfl, rfl, rfl, rfl⟩
    · exact ⟨rfl, rfl, rfl, rfl, rfl, rfl, rfl, rfl⟩
  · intro g1 hd
    rcases draw_kinds g with ⟨h1, h2, _⟩ | ⟨d, hc⟩ | ⟨_, _, he⟩
    · rw [draw_anim hgc ⟨h1, h2⟩] at hd
      have := Option.some.inj hd
      subst this
      exact Or.inl hl
    · rcases commit_outcome hc hgc hd with ⟨_, h | h⟩ | ⟨h1, h2⟩
      · exact Or.inl (h.trans hl)
      · exact Or.inl h
      · exact Or.inr ⟨h2, h1⟩
    · rw [he, finish_of_ne hgc] at hd
      have := Option.some.inj hd
      subst this
      exact Or.inl hl

theorem after_loss_witness :
    draw ((move .Right init).get (by decide!)) = some ((move .Right init).get (by decide!)) :=
  (after_loss ((move .Right init).get (by decide!)) (by decide!)).2.1 (by decide!)

/-- C15 (counterexample): the reachable state with a Right tumble in flight
at angle 40; the release of the Left key replaces the direction in flight
and resets the angle. -/
theorem command_preempts_in_flight :
    Reachable (with_angle .Right init 40) ∧
    (with_angle .Right init 40).block.rotate_check = 1 ∧
    (with_angle .Right init 40).block.rotate = 40 ∧
    (keyboard .LEFT .RELEASE (with_angle .Right init 40)).block.rotate_check = -1 ∧
    (keyboard .LEFT .RELEASE (with_angle .Right init 40)).block.rotate = 0 :=
  ⟨reachable_ticks 4 (Reachable.key .RIGHT .RELEASE Reachable.start) (by decide!),
    rfl, rfl, rfl, rfl⟩

/-- C15 (amended): in every state, in flight or idle, the release of an
arrow key stores its direction and resets the angle to 0 and changes
nothing else; every other key event changes nothing; and a move started
while another tumble is in flight at any angle is the same as the move
started without it, so the interrupted tumble is never committed. -/
theorem command_always_accepted (g : Game) (d : Dir) :
    (keyboard d.key .RELEASE g).block.rotate_check = d.code ∧
    (keyboard d.key .RELEASE g).block.rotate = 0 ∧
    keyboard d.key .RELEASE g =
      { g with block := { g.block with rotate_check := d.code, rotate := 0 } } ∧
    (∀ a : Action, keyboard .OTHER a g = g) ∧
    (∀ k : Key, keyboard k .PRESS g = g) ∧
    (∀ (e : Dir) (r : ℚ), move d (with_angle e g r) = move d g) := by
  refine ⟨?_, ?_, ?_, ?_, ?_, ?_⟩
  · cases d <;> rfl
  · cases d <;> rfl
  · cases d <;> rfl
  · intro a; cases a <;> rfl
  · intro k; rfl
  · intro e r
    unfold move
    rw [keyboard_dir, keyboard_dir]
    rfl

/-- C16 (the code at the failing input): after the safe moves Left, Left,
Left from the initial state the session is Playing with the block lying on
cells (0,5) and (1,5); the transform of the next move Left puts the block
standing on cell (-1, 5), and the move has no result: its rule check reads
`board[-1][5]`. -/
theorem off_grid_landing_reads_out_of_bounds :
    (moves [.Left, .Left, .Left] init).map (fun g =>
      (g.game_check, footprint g.block, footprint (turn .Left g).block,
        (move .Left g).isNone)) =
      some (0, [(1, 5), (0, 5)], [(-1, 5)], true) := by
  decide!

/-- The order of the lying rule chains: on the commit tick of a tumble whose
block ends lying on two cells of the grid holding `a` and `b`, neither 0
and exactly one of them 2, the outcome is Lost if the other cell does not
hold 4; if it holds 4, the test for 4 comes first, so the switch flag is
flipped, the move is counted and the outcome is left as it was. -/
theorem lying_fragile_order (d : Dir) (g : Game) (hc : committing d g)
    (hl : lying_x (turn d g).block ∨ lying_z (turn d g).block) (a b : Int)
    (ht : (footprint (turn d g).block).map (tile g.board) = [some a, some b])
    (h0 : a ≠ 0 ∧ b ≠ 0) (h2 : (a = 2 ∧ b ≠ 2) ∨ (a ≠ 2 ∧ b = 2)) :
    (a ≠ 4 ∧ b ≠ 4 → ∃ g1, draw g = some g1 ∧ g1.game_check = -1) ∧
    (a = 4 ∨ b = 4 → g.game_check ≠ 1 →
      ∃ g1, draw g = some g1 ∧ g1.game_check = g.game_check ∧
        g1.no_of_moves = g.no_of_moves + 1 ∧
        (g.switch_check = 0 → g1.switch_check = 1) ∧
        (g.switch_check = 1 → g1.switch_check = 0)) := by
  have hprod : a ≠ 4 → b ≠ 4 → ¬ a * b = 4 := by
    intro _ _ hab
    rcases h2 with ⟨rfl, hb⟩ | ⟨ha, rfl⟩ <;> omega
  have h2' : a = 2 ∨ b = 2 := by
    rcases h2 with ⟨h, _⟩ | ⟨_, h⟩
    · exact Or.inl h
    · exact Or.inr h
  have h0' : ¬ (a = 0 ∨ b = 0) := fun h => h.elim h0.1 h0.2
  have key : ∀ s : Game, s.game_check = g.game_check → s.switch_check = g.switch_check →
      s.no_of_moves = g.no_of_moves →
      ∀ o : Game, (o = lying_outcome a b s ∨ o = lying_outcome_right_z a b s) →
      (a ≠ 4 ∧ b ≠ 4 → (finish o).game_check = -1) ∧
      (a = 4 ∨ b = 4 → g.game_check ≠ 1 →
        (finish o).game_check = g.game_check ∧ (finish o).no_of_moves = g.no_of_moves + 1 ∧
        (g.switch_check = 0 → (finish o).switch_check = 1) ∧
        (g.switch_check = 1 → (finish o).switch_check = 0)) := by
    intro s hs1 hs2 hs3 o ho
    constructor
    · intro h4
      have h4' : ¬ (a = 4 ∨ b = 4) := fun h => h.elim h4.1 h4.2
      have hlose : o = lose s := by
        rcases ho with ho | ho <;> rw [ho] <;>
          simp [lying_outcome, lying_outcome_right_z, h0', h4', h2', hprod h4.1 h4.2]
      rw [hlose, finish_of_ne (by show (-1 : Int) ≠ 1; decide)]
      rfl
    · intro h4 hg
      have hflip : o = count (flip s) := by
        rcases ho with ho | ho <;> rw [ho] <;>
          simp [lying_outcome, lying_outcome_right_z, h0', h4]
      have hne : (count (flip s)).game_check ≠ 1 := by
        show (flip s).game_check ≠ 1
        rw [flip_game_check, hs1]; exact hg
      rw [hflip, finish_of_ne hne]
      refine ⟨?_, ?_, ?_, ?_⟩
      · show (flip s).game_check = _
        rw [flip_game_check, hs1]
      · show (flip s).no_of_moves + 1 = _
        rw [flip_no_of_moves, hs3]
      · intro h; exact (flip_switch_check s).1 (hs2.trans h)
      · intro h; exact (flip_switch_check s).2 (hs2.trans h)
  rcases hl with hs | hs
  · rw [footprint_lying_x hs] at ht
    simp only [List.map_cons, List.map_nil, List.cons.injEq, and_true] at ht
    have hd := draw_lying_x hc hs ht.1 ht.2
    have k := key (index_lying_x (turn d g)) (turn_game_check d g) (turn_switch_check d g)
      (turn_no_of_moves d g) _ (Or.inl rfl)
    exact ⟨fun h => ⟨_, hd, k.1 h⟩, fun h hg => ⟨_, hd, k.2 h hg⟩⟩
  · rw [footprint_lying_z hs] at ht
    simp only [List.map_cons, List.map_nil, List.cons.injEq, and_true] at ht
    have hd := draw_lying_z hc hs ht.1 ht.2
    have k := key (index_lying_z (turn d g)) (turn_game_check d g) (turn_switch_check d g)
      (turn_no_of_moves d g) (lying_z_outcome d a b (index_lying_z (turn d g)))
      (by cases d <;> simp [lying_z_outcome])
    exact ⟨fun h => ⟨_, hd, k.1 h⟩, fun h hg => ⟨_, hd, k.2 h hg⟩⟩

/-- C18 (counterexample): from the initial state no completed Right tumble
leaves the outcome Playing. -/
theorem opening_right_is_not_playing :
    ¬ ∃ g1, move .Right init = some g1 ∧ g1.no_of_moves = 1 ∧ g1.game_check = 0 ∧
      g1.block.length = 1 ∧ g1.block.height = 0.5 ∧ g1.block.width = 0.5 := by
  rintro ⟨g1, hm, _, h0, _⟩
  have h : (move .Right init).map (fun g => g.game_check) = some (-1) := by decide!
  rw [hm] at h
  simp only [Option.map_some', Option.some.injEq] at h
  omega

/-- C18 (amended): from the initial state a single completed Right tumble
returns with the block lying along X on cells (7,5) and (6,5), which both
hold 0, with score 1, outcome Lost and extents (length, height, width) =
(1, 0.5, 0.5). -/
theorem opening_right_is_lost :
    (move .Right init).map (fun g1 =>
      ((footprint g1.block, (footprint g1.block).map (tile g1.board)),
        (g1.no_of_moves, g1.game_check),
        (g1.block.length, g1.block.height, g1.block.width))) =
      some (([(7, 5), (6, 5)], [some 0, some 0]), (1, -1), (1, 0.5, 0.5)) := by
  decide!

theorem finish_game_check (t : Game) : (finish t).game_check ≠ 1 := by
  unfold finish
  split_ifs with h
  · rw [(level_reset_fields t).2.1]; decide
  · exact h

theorem ticks_fixed {g : Game} (h : draw g = some g) (n : Nat) : ticks n g = some g := by
  induction n with
  | zero => rfl
  | succ n ih => simp only [ticks, h, Option.some_bind, ih]

/-- C19: from every reachable state, after the release of an arrow key
(angle set to 0) and with no further key event, each of the first nine
ticks raises the angle by exactly 10 and changes nothing else; the tenth
tick, at angle 90, applies the transform and the rule checks of that
direction once, followed by the level reset; when it returns the block is
idle with angle 0 and every later tick leaves the state unchanged. -/
theorem tumble_animation (g : Game) (h : Reachable g) (d : Dir) :
    (keyboard d.key .RELEASE g).block.rotate = 0 ∧
    (∀ n : Nat, n ≤ 9 →
      ticks n (keyboard d.key .RELEASE g) = some (with_angle d g (10 * (n : ℚ)))) ∧
    ticks 10 (keyboard d.key .RELEASE g) = (check d (turn d g)).map finish ∧
    (∀ g1, ticks 10 (keyboard d.key .RELEASE g) = some g1 →
      g1.block.rotate_check = 0 ∧ g1.block.rotate = 0 ∧ ∀ n : Nat, ticks n g1 = some g1) := by
  have hgc := (inv_reachable h).1
  have h10 : ticks 10 (keyboard d.key .RELEASE g) = (check d (turn d g)).map finish := by
    have := move_eq d g hgc
    unfold move at this
    rw [this, draw_commit (committing_at_commit d g), turn_at_commit]
  refine ⟨by rw [keyboard_dir]; rfl, ?_, h10, ?_⟩
  · intro n hn
    rw [keyboard_dir]
    have hq : (0 : ℚ) + 10 * (n : ℚ) ≤ 90 := by
      have : (n : ℚ) ≤ 9 := by exact_mod_cast hn
      linarith
    have := ticks_anim d g hgc n 0 hq
    rw [zero_add] at this
    exact this
  · intro g1 hg1
    rw [h10] at hg1
    obtain ⟨t, ht, hfin⟩ := Option.map_eq_some'.mp hg1
    have hblock : t.block = (turn d g).block := (check_same ht).1
    have hrc : g1.block.rotate_check = 0 ∧ g1.block.rotate = 0 := by
      rw [← hfin]
      unfold finish
      split_ifs
      · rw [level_reset_block]; exact ⟨rfl, rfl⟩
      · rw [hblock]; cases d <;> exact ⟨rfl, rfl⟩
    have hne : g1.game_check ≠ 1 := by
      rw [← hfin]; exact finish_game_check t
    exact ⟨hrc.1, hrc.2, ticks_fixed (draw_idle hne hrc.1)⟩

theorem tumble_animation_witness :
    ticks 10 (keyboard Dir.Left.key .RELEASE init) =
      (check .Left (turn .Left init)).map finish :=
  (tumble_animation init Reachable.start .Left).2.2.1

/-- C20: in every reachable state, a tick taken while a tumble is in flight
with angle below 90 changes the angle by 10 and nothing else, and a tick
taken with no tumble in flight changes nothing at all (extents, centre,
score, switch flag, level, outcome, board and recorded indices are those
of the old state); in both cases the tick returns whatever the board
holds, also on a board on which every lookup would be out of bounds. -/
theorem only_commit_changes (g : Game) (h : Reachable g) :
    (g.block.rotate < 90 ∧ g.block.rotate_check ≠ 0 →
      draw g = some { g with block := { g.block with rotate := g.block.rotate + 10 } } ∧
      ∀ brd : Board, draw { g with board := brd } =
        some { g with board := brd,
                      block := { g.block with rotate := g.block.rotate + 10 } }) ∧
    (g.block.rotate_check = 0 →
      draw g = some g ∧ ∀ brd : Board, draw { g with board := brd } = some { g with board := brd }) := by
  have hgc := (inv_reachable h).1
  constructor
  · intro ha
    exact ⟨draw_anim hgc ha, fun brd => draw_anim (show ({ g with board := brd } : Game).game_check ≠ 1 from hgc) ha⟩
  · intro h0
    exact ⟨draw_idle hgc h0, fun brd => draw_idle (show ({ g with board := brd } : Game).game_check ≠ 1 from hgc) h0⟩

theorem only_commit_changes_witness :
    (draw (with_angle .Right init 40) = some (with_angle .Right init 50)) ∧
    (draw init = some init) :=
  ⟨by
      have h := ((only_commit_changes (with_angle .Right init 40)
        (reachable_ticks 4 (Reachable.key .RIGHT .RELEASE Reachable.start) (by decide!))).1
        (by decide!)).1
      rw [h]
      decide!,
    ((only_commit_changes init Reachable.start).2 (by decide!)).1⟩

/-- C21: in every reachable state `game_check` is 0 (Playing) or -1 (Lost),
never 1; and whatever the state, a frame tick that returns never leaves
`game_check = 1`. -/
theorem cleared_never_observed (g : Game) (h : Reachable g) :
    (g.game_check = 0 ∨ g.game_check = -1) ∧ g.game_check ≠ 1 ∧
    (∀ g0 g1 : Game, draw g0 = some g1 → g1.game_check ≠ 1) := by
  have hval : g.game_check = 0 ∨ g.game_check = -1 := by
    induction h with
    | start => exact Or.inl rfl
    | key k a _ ih =>
      cases a
      · cases k <;> exact ih
      · exact ih
    | @tick g g1 hr hd ih =>
      have hgc := (inv_reachable hr).1
      rcases draw_kinds g with ⟨h1, h2, _⟩ | ⟨d, hc⟩ | ⟨hall, hn, he⟩
      · rw [draw_anim hgc ⟨h1, h2⟩] at hd
        have := Option.some.inj hd
        subst this
        exact ih
      · rcases commit_outcome hc hgc hd with ⟨_, e | e⟩ | ⟨_, e⟩
        · rw [e]; exact ih
        · exact Or.inr e
        · exact Or.inl e
      · rw [he, finish_of_ne hgc] at hd
        have := Option.some.inj hd
        subst this
        exact ih
  refine ⟨hval, ?_, ?_⟩
  · rcases hval with e | e <;> rw [e] <;> decide
  · intro g0 g1 hd
    unfold draw at hd
    obtain ⟨t, _, hfin⟩ := Option.map_eq_some'.mp hd
    rw [← hfin]
    exact finish_game_check t

theorem cleared_never_observed_witness :
    (after_win.game_check = 0 ∨ after_win.game_check = -1) ∧ after_win.game_check ≠ 1 :=
  ⟨(cleared_never_observed after_win reachable_after_win).1,
    (cleared_never_observed after_win reachable_after_win).2.1⟩

/-- C28: in every reachable state `base_check = 1` when the block is
standing (height 1) and `base_check = -1` when it is lying (height 0.5), and
one of the two holds; the state right after a level transition, in which the
block has been reset to standing without an assignment to `base_check`, has
height 1 and `base_check = 1`. -/
theorem correction_sign (g : Game) (h : Reachable g) :
    (g.block.height = 1 → g.base_check = 1) ∧
    (g.block.height = 0.5 → g.base_check = -1) ∧
    (g.block.height = 1 ∨ g.block.height = 0.5) ∧
    (∀ g1, draw g = some g1 → g1.level = g.level + 1 →
      g1.block.height = 1 ∧ g1.base_check = 1) := by
  have hfl := posed_floor (inv_reachable h).2.1
  refine ⟨?_, ?_, ?_, ?_⟩
  · intro h1
    rcases hfl with ⟨_, _, hb⟩ | ⟨hh, _, _⟩
    · exact hb
    · rw [h1] at hh; exact absurd hh one_ne_half
  · intro h5
    rcases hfl with ⟨hh, _, _⟩ | ⟨_, _, hb⟩
    · rw [h5] at hh; exact absurd hh half_ne_one
    · exact hb
  · rcases hfl with ⟨hh, _, _⟩ | ⟨hh, _, _⟩
    · exact Or.inl hh
    · exact Or.inr hh
  · intro g1 hd hlev
    have hgc := (inv_reachable h).1
    have hfl1 := posed_floor (inv_reachable (Reachable.tick h hd)).2.1
    rcases draw_kinds g with ⟨h1, h2, _⟩ | ⟨d, hc⟩ | ⟨_, _, he⟩
    · rw [draw_anim hgc ⟨h1, h2⟩] at hd
      have := Option.some.inj hd
      subst this
      exact absurd hlev (by show ¬ g.level = g.level + 1; omega)
    · rcases commit_result hc hgc hd with ⟨_, _, _, e4, _⟩ | ⟨_, _, e3⟩
      · omega
      · have hb : g1.block.height = 1 := by rw [e3, level_reset_block]; rfl
        rcases hfl1 with ⟨_, _, hb1⟩ | ⟨hh, _, _⟩
        · exact ⟨hb, hb1⟩
        · rw [hb] at hh; exact absurd hh one_ne_half
    · rw [he, finish_of_ne hgc] at hd
      have := Option.some.inj hd
      subst this
      exact absurd hlev (by omega)

theorem correction_sign_witness :
    ∃ g1, draw (at_commit .Left before_win) = some g1 ∧ g1.block.height = 1 ∧
      g1.base_check = 1 :=
  ⟨(draw (at_commit .Left before_win)).get (by decide!), by simp,
    (correction_sign (at_commit .Left before_win)
      (reachable_at_commit .Left reachable_before_win)).2.2.2 _ (by simp) (by decide!)⟩

/-- C27: in every reachable state the quotients that the rule checks
convert to `int` are exact integers: for a standing block on cell `(i, j)`
the two quotients are `i` and `j`; for a block lying along X the quotients
with offsets +0.25 and -0.25 are `i + 1` and `i`, with row quotient `j`; for
a block lying along Z the row quotients with offsets +0.25 and -0.25 are
`j + 1` and `j`, with column quotient `i`. The conversion returns exactly
these integers, so the two cells of a lying footprint differ by 1 in one
index and agree in the other. -/
theorem grid_alignment (g : Game) (h : Reachable g) :
    ∃ i j : Int,
      (standing g.block ∧
        (g.block.center.x + 2.5) / 0.5 = (i : ℚ) ∧ (-g.block.center.z + 2.5) / 0.5 = (j : ℚ) ∧
        cell g.block = (i, j)) ∨
      (lying_x g.block ∧
        (g.block.center.x + 0.25 + 2.5) / 0.5 = ((i + 1 : Int) : ℚ) ∧
        (g.block.center.x - 0.25 + 2.5) / 0.5 = (i : ℚ) ∧
        (-g.block.center.z + 2.5) / 0.5 = (j : ℚ) ∧
        cell_x0 g.block = (i + 1, j) ∧ cell_x1 g.block = (i, j)) ∨
      (lying_z g.block ∧
        (-g.block.center.z + 0.25 + 2.5) / 0.5 = ((j + 1 : Int) : ℚ) ∧
        (-g.block.center.z - 0.25 + 2.5) / 0.5 = (j : ℚ) ∧
        (g.block.center.x + 2.5) / 0.5 = (i : ℚ) ∧
        cell_z0 g.block = (i, j + 1) ∧ cell_z1 g.block = (i, j)) := by
  obtain ⟨x, z, hp | hp | hp⟩ := (inv_reachable h).2.1
  · refine ⟨x, z, Or.inl ⟨hp.1, ?_, ?_, ?_⟩⟩
    · rw [hp.2.1]; norm_num
    · rw [hp.2.1]; norm_num
    · have hf := stands_footprint hp
      rw [footprint_standing hp.1] at hf
      exact List.head_eq_of_cons_eq hf
  · have hf := lies_x_footprint hp
    rw [footprint_lying_x hp.1] at hf
    simp only [List.cons.injEq, and_true] at hf
    refine ⟨x, z, Or.inr (Or.inl ⟨hp.1, ?_, ?_, ?_, hf.1, hf.2⟩)⟩
    · rw [hp.2.1]; push_cast; norm_num; ring
    · rw [hp.2.1]; norm_num
    · rw [hp.2.1]; norm_num
  · have hf := lies_z_footprint hp
    rw [footprint_lying_z hp.1] at hf
    simp only [List.cons.injEq, and_true] at hf
    refine ⟨x, z, Or.inr (Or.inr ⟨hp.1, ?_, ?_, ?_, hf.1, hf.2⟩)⟩
    · rw [hp.2.1]; push_cast; norm_num; ring
    · rw [hp.2.1]; norm_num
    · rw [hp.2.1]; norm_num

theorem grid_alignment_witness :
    ∃ i j : Int,
      (standing before_win.block ∧
        (before_win.block.center.x + 2.5) / 0.5 = (i : ℚ) ∧
        (-before_win.block.center.z + 2.5) / 0.5 = (j : ℚ) ∧
        cell before_win.block = (i, j)) ∨
      (lying_x before_win.block ∧
        (before_win.block.center.x + 0.25 + 2.5) / 0.5 = ((i + 1 : Int) : ℚ) ∧
        (before_win.block.center.x - 0.25 + 2.5) / 0.5 = (i : ℚ) ∧
        (-before_win.block.center.z + 2.5) / 0.5 = (j : ℚ) ∧
        cell_x0 before_win.block = (i + 1, j) ∧ cell_x1 before_win.block = (i, j)) ∨
      (lying_z before_win.block ∧
        (-before_win.block.center.z + 0.25 + 2.5) / 0.5 = ((j + 1 : Int) : ℚ) ∧
        (-before_win.block.center.z - 0.25 + 2.5) / 0.5 = (j : ℚ) ∧
        (before_win.block.center.x + 2.5) / 0.5 = (i : ℚ) ∧
        cell_z0 before_win.block = (i, j + 1) ∧ cell_z1 before_win.block = (i, j)) :=
  grid_alignment before_win reachable_before_win

/-- C24: each of the three level tables is 10x10 with every entry one of
the codes 0, 1, 2, 3, 4, 6, and `createBoard` at level 1, 2, 3 makes the
board equal to the table of that level, so that every cell read agrees. -/
theorem level_data_well_formed (g : Game) :
    well_formed board_1 ∧ well_formed board_2 ∧ well_formed board_3 ∧
    (g.level = 1 → (createBoard g).board = board_1 ∧
      ∀ i j : Int, board_at (createBoard g).board i j = board_at board_1 i j) ∧
    (g.level = 2 → (createBoard g).board = board_2 ∧
      ∀ i j : Int, board_at (createBoard g).board i j = board_at board_2 i j) ∧
    (g.level = 3 → (createBoard g).board = board_3 ∧
      ∀ i j : Int, board_at (createBoard g).board i j = board_at board_3 i j) := by
  refine ⟨by decide, by decide, by decide, ?_, ?_, ?_⟩
  · intro h
    have : (createBoard g).board = board_1 := by simp [createBoard, h]
    exact ⟨this, fun i j => by rw [this]⟩
  · intro h
    have : (createBoard g).board = board_2 := by simp [createBoard, h]
    exact ⟨this, fun i j => by rw [this]⟩
  · intro h
    have : (createBoard g).board = board_3 := by simp [createBoard, h]
    exact ⟨this, fun i j => by rw [this]⟩

theorem level_data_well_formed_witness :
    (createBoard { init with level := 2 }).board = board_2 :=
  ((level_data_well_formed { init with level := 2 }).2.2.2.2.1 rfl).1

theorem standing_rules_a_eq_b (g : Game) : standing_rules_a g = standing_rules_b g := by
  unfold standing_rules_a standing_rules_b
  cases board_at g.board g.x_check g.z_check with
  | none => rfl
  | some c =>
    simp only [Option.some_bind]
    split_ifs <;> first | rfl | omega

theorem check_with_lying_z_irrelevant {s lx lz lz1 : Game → Option Game}
    (hs : ∀ g g1, s g = some g1 → SameBlock g g1)
    (hx : ∀ g g1, lx g = some g1 → SameBlock g g1)
    (t : Game) (hz : ¬ (t.block.height = 0.5 ∧ t.block.width = 1)) :
    check_with s lx lz t = check_with s lx lz1 t := by
  unfold check_with
  cases ha : (if t.block.height = 1 then s (index_standing t) else some t) with
  | none => rfl
  | some a =>
    have h1 : a.block = t.block := by
      by_cases hh : t.block.height = 1
      · simp only [hh, if_true] at ha
        exact (sameBlock_trans (index_standing_same t) (hs _ _ ha)).1
      · simp only [hh, if_false, Option.some.injEq] at ha
        subst ha; rfl
    simp only [Option.some_bind]
    by_cases h5 : a.block.height = 0.5
    · simp only [h5, if_true]
      cases hb : (if a.block.length = 1 then lx (index_lying_x a) else some a) with
      | none => rfl
      | some b =>
        have h2 : b.block = a.block := by
          by_cases hl : a.block.length = 1
          · simp only [hl, if_true] at hb
            exact (sameBlock_trans (index_lying_x_same a) (hx _ _ hb)).1
          · simp only [hl, if_false, Option.some.injEq] at hb
            subst hb; rfl
        have hw : ¬ b.block.width = 1 := by
          rw [h2, h1]
          intro hw
          exact hz ⟨by rw [← h1]; exact h5, hw⟩
        simp only [Option.some_bind, hw, if_false]
    · simp only [h5, if_false]

theorem before_edge_reached :
    moves [.Left, .Left, .Left, .Back, .Back, .Back, .Back, .Right, .Right, .Right, .Right,
      .Right, .Forward, .Right, .Forward, .Forward, .Forward, .Left, .Left, .Forward] init =
      some before_edge := by
  decide!

/-- C25 (the code at the failing input): the rule checks of the Left, Back
and Forward branches are the same function, and those of the Right branch
agree with them on every block that is not lying along Z; but on the
post-tumble block of the move Right from the reachable state `before_edge`
(lying along Z on cells (7,9) and (7,8), holding 0 and 1) the checks of the
Left branch give score 21 and those of the Right branch give score 22. -/
theorem right_branch_counts_twice :
    check .Left = check .Back ∧
    (∀ t : Game, check .Forward t = check .Left t) ∧
    (∀ t : Game, ¬ (t.block.height = 0.5 ∧ t.block.width = 1) →
      check .Right t = check .Left t) ∧
    (footprint (turn .Right before_edge).block).map (tile before_edge.board) =
      [some 0, some 1] ∧
    (check .Left (turn .Right before_edge)).map
      (fun t => (t.no_of_moves, t.switch_check, t.game_check, t.level)) =
      some (21, 0, -1, 1) ∧
    (check .Right (turn .Right before_edge)).map
      (fun t => (t.no_of_moves, t.switch_check, t.game_check, t.level)) =
      some (22, 0, -1, 1) := by
  have hab : standing_rules_b = standing_rules_a := by
    funext g; exact (standing_rules_a_eq_b g).symm
  refine ⟨rfl, ?_, ?_, by decide!, by decide!, by decide!⟩
  · intro t
    show check_with standing_rules_b lying_rules lying_rules t =
      check_with standing_rules_a lying_rules lying_rules t
    rw [hab]
  · intro t hz
    show check_with standing_rules_b lying_rules lying_rules_right_z t =
      check_with standing_rules_a lying_rules lying_rules t
    rw [hab]
    exact check_with_lying_z_irrelevant (fun _ _ => standing_rules_a_same)
      (fun _ _ => lying_rules_same) t hz

/-- C26: each level can be cleared. For each of the three tables there is a
sequence of complete moves from the start of the level (spawn block on the
centre, switch off, Playing) in which every move lands with its footprint
on the grid, returns and leaves the session Playing on the same level,
followed by one move that lands standing on the cell holding 6 and
increments the level; and played one after the other from the initial
state, the three sequences lead to the state `after_win`. -/
theorem levels_solvable :
    (∃ (ds : List Dir) (d : Dir) (g : Game), safe_path ds (spawn board_1 1) = true ∧
      moves ds (spawn board_1 1) = some g ∧ wins d g) ∧
    (∃ (ds : List Dir) (d : Dir) (g : Game), safe_path ds (spawn board_2 2) = true ∧
      moves ds (spawn board_2 2) = some g ∧ wins d g) ∧
    (∃ (ds : List Dir) (d : Dir) (g : Game), safe_path ds (spawn board_3 3) = true ∧
      moves ds (spawn board_3 3) = some g ∧ wins d g) ∧
    spawn board_1 1 = init ∧
    moves (solve_1 ++ solve_2 ++ solve_3) init = some after_win := by
  refine ⟨⟨solve_1.dropLast, .Left, (moves solve_1.dropLast (spawn board_1 1)).get (by decide!),
      by decide!, by simp, by decide!⟩,
    ⟨solve_2.dropLast, .Left, (moves solve_2.dropLast (spawn board_2 2)).get (by decide!),
      by decide!, by simp, by decide!⟩,
    ⟨solve_3.dropLast, .Left, (moves solve_3.dropLast (spawn board_3 3)).get (by decide!),
      by decide!, by simp, by decide!⟩,
    by decide!, by decide!⟩

theorem erase_flip (g : Game) : erase_switch (flip g) = erase_switch g := by
  unfold flip
  split_ifs <;> rfl

theorem blind_some : Blind (fun g => some g) := fun _ => rfl

theorem blind_bind {f k : Game → Option Game} (hf : Blind f) (hk : Blind k) :
    Blind (fun g => (f g).bind k) := by
  intro g
  have key : ∀ o : Option Game, (o.bind k).map erase_switch =
      (o.map erase_switch).bind (fun y => (k y).map erase_switch) := by
    intro o
    cases o with
    | none => rfl
    | some x => exact hk x
  show ((f g).bind k).map erase_switch = ((f (erase_switch g)).bind k).map erase_switch
  rw [key, key, hf g]

theorem blind_ite {p : object_type → Prop} [DecidablePred p] {f k : Game → Option Game}
    (hf : Blind f) (hk : Blind k) : Blind (fun g => if p g.block then f g else k g) := by
  intro g
  show (if p g.block then f g else k g).map erase_switch =
    (if p g.block then f (erase_switch g) else k (erase_switch g)).map erase_switch
  split_ifs
  · exact hf g
  · exact hk g

theorem blind_pre {f : Game → Option Game} (pre : Game → Game)
    (hpre : ∀ g, erase_switch (pre g) = pre (erase_switch g)) (hf : Blind f) :
    Blind (fun g => f (pre g)) := by
  intro g
  show (f (pre g)).map erase_switch = (f (pre (erase_switch g))).map erase_switch
  rw [hf (pre g), hpre]

theorem blind_standing_rules_a : Blind standing_rules_a := by
  intro g
  unfold standing_rules_a
  show Option.map erase_switch ((board_at g.board g.x_check g.z_check).bind _) =
    Option.map erase_switch ((board_at g.board g.x_check g.z_check).bind _)
  cases board_at g.board g.x_check g.z_check with
  | none => rfl
  | some c =>
    simp only [Option.some_bind]
    split_ifs <;> simp only [Option.map_some', Option.some.injEq]
    · rfl
    · rfl
    · show count (erase_switch (flip g)) = count (erase_switch (flip (erase_switch g)))
      rw [erase_flip, erase_flip]; rfl
    · rfl
    · rfl

theorem blind_lying_rules : Blind lying_rules := by
  intro g
  unfold lying_rules
  show Option.map erase_switch ((board_at g.board g.x_check g.z_check).bind _) =
    Option.map erase_switch ((board_at g.board g.x_check g.z_check).bind _)
  cases board_at g.board g.x_check g.z_check with
  | none => rfl
  | some a =>
    simp only [Option.some_bind]
    by_cases ha : a = 0
    · simp only [ha, if_true]; rfl
    · simp only [ha, if_false]
      show Option.map erase_switch ((board_at g.board g.x1_check g.z1_check).bind _) =
        Option.map erase_switch ((board_at g.board g.x1_check g.z1_check).bind _)
      cases board_at g.board g.x1_check g.z1_check with
      | none => rfl
      | some b =>
        simp only [Option.some_bind]
        split_ifs <;> simp only [Option.map_some', Option.some.injEq]
        · rfl
        · show count (erase_switch (flip g)) = count (erase_switch (flip (erase_switch g)))
          rw [erase_flip, erase_flip]; rfl
        · rfl
        · rfl
        · rfl

theorem blind_lying_rules_right_z : Blind lying_rules_right_z := by
  intro g
  unfold lying_rules_right_z
  show Option.map erase_switch ((board_at g.board g.x_check g.z_check).bind _) =
    Option.map erase_switch ((board_at g.board g.x_check g.z_check).bind _)
  cases board_at g.board g.x_check g.z_check with
  | none => rfl
  | some a =>
    simp only [Option.some_bind]
    show Option.map erase_switch ((board_at g.board g.x1_check g.z1_check).bind _) =
      Option.map erase_switch ((board_at g.board g.x1_check g.z1_check).bind _)
    cases board_at g.board g.x1_check g.z1_check with
    | none => rfl
    | some b =>
      simp only [Option.some_bind]
      split_ifs <;> simp only [Option.map_some', Option.some.injEq]
      all_goals first
        | rfl
        | (show count (erase_switch (flip (lose g))) =
            count (erase_switch (flip (lose (erase_switch g))))
           rw [erase_flip, erase_flip]; rfl)
        | (show count (erase_switch (flip g)) = count (erase_switch (flip (erase_switch g)))
           rw [erase_flip, erase_flip]; rfl)

theorem blind_standing_rules_b : Blind standing_rules_b := by
  have : standing_rules_b = standing_rules_a := by
    funext g; exact (standing_rules_a_eq_b g).symm
  rw [this]; exact blind_standing_rules_a

theorem blind_check_with {s lx lz : Game → Option Game} (hs : Blind s) (hx : Blind lx)
    (hz : Blind lz) : Blind (check_with s lx lz) := by
  have h1 : Blind (fun g => if g.block.height = 1 then s (index_standing g) else some g) :=
    blind_ite (p := fun b => b.height = 1) (blind_pre index_standing (fun _ => rfl) hs) blind_some
  have h2 : Blind (fun g => if g.block.length = 1 then lx (index_lying_x g) else some g) :=
    blind_ite (p := fun b => b.length = 1) (blind_pre index_lying_x (fun _ => rfl) hx) blind_some
  have h3 : Blind (fun g => if g.block.width = 1 then lz (index_lying_z g) else some g) :=
    blind_ite (p := fun b => b.width = 1) (blind_pre index_lying_z (fun _ => rfl) hz) blind_some
  have h4 : Blind (fun g1 => if g1.block.height = 0.5 then
      (if g1.block.length = 1 then lx (index_lying_x g1) else some g1).bind fun g2 =>
        if g2.block.width = 1 then lz (index_lying_z g2) else some g2
      else some g1) :=
    blind_ite (p := fun b => b.height = 0.5) (blind_bind h2 h3) blind_some
  exact blind_bind h1 h4

theorem blind_check (d : Dir) : Blind (check d) := by
  cases d
  · exact blind_check_with blind_standing_rules_a blind_lying_rules blind_lying_rules
  · exact blind_check_with blind_standing_rules_b blind_lying_rules blind_lying_rules_right_z
  · exact blind_check_with blind_standing_rules_b blind_lying_rules blind_lying_rules
  · exact blind_check_with blind_standing_rules_a blind_lying_rules blind_lying_rules

theorem blind_branch (d : Dir) : Blind (branch d) := by
  have h1 : Blind (fun g => check d (turn d g)) :=
    blind_pre (turn d) (fun g => by cases d <;> rfl) (blind_check d)
  exact blind_ite (p := fun b => b.rotate_check = d.code) h1 blind_some

theorem erase_finish (t : Game) :
    erase_switch (finish t) = erase_switch (finish (erase_switch t)) := by
  unfold finish
  show erase_switch (if t.game_check = 1 then level_reset t else t) =
    erase_switch (if t.game_check = 1 then level_reset (erase_switch t) else erase_switch t)
  split_ifs
  · unfold level_reset createBoard
    show erase_switch _ = erase_switch _
    simp only [erase_switch]
    split_ifs <;> rfl
  · rfl

theorem blind_draw : Blind draw := by
  have hanim : Blind (fun g =>
      some { g with block := { g.block with rotate := g.block.rotate + 5 * 2 } }) :=
    fun _ => rfl
  have hbr : Blind (fun g => (branch .Left g).bind fun a => (branch .Right a).bind fun b =>
      (branch .Forward b).bind fun c => branch .Back c) :=
    blind_bind (blind_branch .Left) (blind_bind (blind_branch .Right)
      (blind_bind (blind_branch .Forward) (blind_branch .Back)))
  have hpre : Blind (fun g => if g.block.rotate < 90 ∧ g.block.rotate_check ≠ 0 then
      some { g with block := { g.block with rotate := g.block.rotate + 5 * 2 } }
      else (branch .Left g).bind fun a => (branch .Right a).bind fun b =>
        (branch .Forward b).bind fun c => branch .Back c) :=
    blind_ite (p := fun b => b.rotate < 90 ∧ b.rotate_check ≠ 0) hanim hbr
  intro g
  have key : ∀ o : Option Game, (o.map finish).map erase_switch =
      (o.map erase_switch).map (fun y => erase_switch (finish y)) := by
    intro o
    cases o with
    | none => rfl
    | some x => exact congrArg some (erase_finish x)
  unfold draw
  rw [key, key]
  exact congrArg (Option.map fun y => erase_switch (finish y)) (hpre g)

theorem blind_step (e : Event) : Blind (step e) := by
  cases e with
  | key k a =>
    intro g
    cases a
    · cases k <;> rfl
    · rfl
  | tick => exact blind_draw

theorem blind_run (es : List Event) : Blind (run es) := by
  induction es with
  | nil => exact blind_some
  | cons e es ih => exact blind_bind (blind_step e) ih

theorem standing_outcome_bridge_floor {c : Int} (s : Game) (h : c = 3 ∨ c = 1) :
    (standing_outcome c s).game_check = s.game_check := by
  rcases h with rfl | rfl <;> simp [standing_outcome, count]

theorem lying_outcome_bridge_floor {a b : Int} (s : Game) (ha : a = 3 ∨ a = 1)
    (hb : b = 3 ∨ b = 1) :
    (lying_outcome a b s).game_check = s.game_check ∧
    (lying_outcome_right_z a b s).game_check = s.game_check := by
  rcases ha with rfl | rfl <;> rcases hb with rfl | rfl <;>
    simp [lying_outcome, lying_outcome_right_z, count]

/-- C22: (1) for every sequence of key events and frame ticks and every
state, changing the switch flag of the state changes nothing in the result
but the switch flag: either both runs have no result, or both have one and
the two final states agree in block (extents, centre, angle, direction),
score, level, outcome, board, recorded indices and correction sign;
(2) on the commit tick of a tumble whose block ends standing or lying on
the grid with every footprint cell holding 3 or 1, the tick returns and the
outcome is the one before the tick, so it is not made Lost, whatever the
switch flag. -/
theorem switch_has_no_effect (es : List Event) (g : Game) (s : Int) :
    (run es { g with switch_check := s }).map erase_switch = (run es g).map erase_switch ∧
    (∀ d : Dir, committing d g → valid_shape (turn d g).block →
      on_grid g.board (turn d g).block → g.game_check ≠ 1 →
      (∀ c ∈ footprint (turn d g).block, tile g.board c = some 3 ∨ tile g.board c = some 1) →
      ∃ g1, draw g = some g1 ∧ g1.game_check = g.game_check) := by
  constructor
  · rw [blind_run es { g with switch_check := s }, blind_run es g]
    rfl
  · intro d hc hs hin hg hall
    rcases draw_cases hc hs hin with ⟨_, hf, c, ht, hd⟩ | ⟨_, hf, a, b, ha, hb, hd⟩ |
        ⟨_, hf, a, b, ha, hb, hd⟩
    · have hc1 : c = 3 ∨ c = 1 := by
        have := hall (cell (turn d g).block) (by rw [hf]; simp)
        rw [ht] at this
        rcases this with h | h
        · exact Or.inl (Option.some.inj h)
        · exact Or.inr (Option.some.inj h)
      have e := standing_outcome_bridge_floor (index_standing (turn d g)) hc1
      have e2 : (standing_outcome c (index_standing (turn d g))).game_check = g.game_check :=
        e.trans (turn_game_check d g)
      refine ⟨_, hd, ?_⟩
      rw [finish_of_ne (by rw [e2]; exact hg)]
      exact e2
    · have ha1 : a = 3 ∨ a = 1 := by
        have := hall (cell_x0 (turn d g).block) (by rw [hf]; simp)
        rw [ha] at this
        rcases this with h | h
        · exact Or.inl (Option.some.inj h)
        · exact Or.inr (Option.some.inj h)
      have hb1 : b = 3 ∨ b = 1 := by
        have := hall (cell_x1 (turn d g).block) (by rw [hf]; simp)
        rw [hb] at this
        rcases this with h | h
        · exact Or.inl (Option.some.inj h)
        · exact Or.inr (Option.some.inj h)
      have e2 : (lying_outcome a b (index_lying_x (turn d g))).game_check = g.game_check :=
        (lying_outcome_bridge_floor _ ha1 hb1).1.trans (turn_game_check d g)
      refine ⟨_, hd, ?_⟩
      rw [finish_of_ne (by rw [e2]; exact hg)]
      exact e2
    · have ha1 : a = 3 ∨ a = 1 := by
        have := hall (cell_z0 (turn d g).block) (by rw [hf]; simp)
        rw [ha] at this
        rcases this with h | h
        · exact Or.inl (Option.some.inj h)
        · exact Or.inr (Option.some.inj h)
      have hb1 : b = 3 ∨ b = 1 := by
        have := hall (cell_z1 (turn d g).block) (by rw [hf]; simp)
        rw [hb] at this
        rcases this with h | h
        · exact Or.inl (Option.some.inj h)
        · exact Or.inr (Option.some.inj h)
      have e2 : (lying_z_outcome d a b (index_lying_z (turn d g))).game_check =
          g.game_check := by
        have := lying_outcome_bridge_floor (index_lying_z (turn d g)) ha1 hb1
        cases d
        · exact this.1.trans (turn_game_check _ g)
        · exact this.2.trans (turn_game_check _ g)
        · exact this.1.trans (turn_game_check _ g)
        · exact this.1.trans (turn_game_check _ g)
      refine ⟨_, hd, ?_⟩
      rw [finish_of_ne (by rw [e2]; exact hg)]
      exact e2

theorem switch_has_no_effect_witness :
    ∃ g1, draw (at_commit .Right (place board_2 2 1 0.5 0.5 ⟨-1.75, -0.25, 0⟩ (-1))) = some g1 ∧
      g1.game_check =
        (at_commit .Right (place board_2 2 1 0.5 0.5 ⟨-1.75, -0.25, 0⟩ (-1))).game_check :=
  (switch_has_no_effect [] (at_commit .Right (place board_2 2 1 0.5 0.5 ⟨-1.75, -0.25, 0⟩ (-1)))
      0).2 .Right (by decide!) (by decide!) (by decide!) (by decide!) (by decide!)

theorem tables_fragile_apart_from_switch :
    fragile_apart_from_switch board_1 ∧ fragile_apart_from_switch board_2 ∧
      fragile_apart_from_switch board_3 := by
  refine ⟨?_, ?_, ?_⟩ <;> decide!

theorem tile_in_range {brd : Board} {x z c : Int} (h : tile brd (x, z) = some c) :
    0 ≤ x ∧ x < 10 ∧ 0 ≤ z ∧ z < 10 := by
  by_contra hn
  have : tile brd (x, z) = none := by
    show board_at brd x z = none
    unfold board_at
    rw [if_neg hn]
  rw [this] at h
  exact Option.noConfusion h

theorem level_board_pairs {brd : Board} (hb : level_board brd) {x z : Int} :
    pair_clear brd (x + 1, z) (x, z) ∧ pair_clear brd (x, z + 1) (x, z) := by
  have hall : fragile_apart_from_switch brd := by
    rcases hb with h | h | h <;> subst h
    · exact tables_fragile_apart_from_switch.1
    · exact tables_fragile_apart_from_switch.2.1
    · exact tables_fragile_apart_from_switch.2.2
  by_cases hr : 0 ≤ x ∧ x < 10 ∧ 0 ≤ z ∧ z < 10
  · obtain ⟨h1, h2, h3, h4⟩ := hr
    have hx : ((x.toNat : Nat) : Int) = x := Int.toNat_of_nonneg h1
    have hz : ((z.toNat : Nat) : Int) = z := Int.toNat_of_nonneg h3
    have := hall x.toNat (List.mem_range.mpr (by omega)) z.toNat (List.mem_range.mpr (by omega))
    rw [hx, hz] at this
    exact this
  · have hnone : tile brd (x, z) = none := by
      show board_at brd x z = none
      unfold board_at
      rw [if_neg hr]
    constructor <;> (unfold pair_clear; rw [hnone]; simp)

theorem before_fragile_reached :
    moves (solve_1 ++ solve_2 ++ [.Right, .Right, .Back, .Back, .Left]) init =
      some before_fragile := by
  decide!

theorem to_int_round_of_intCast {q : ℚ} {n : Int} (h : q = (n : ℚ)) : to_int q = round q := by
  rw [h, to_int_intCast, round_intCast]

/-- For a block aligned with the grid, every index the rule checks derive
for its shape is the integer nearest to the quotient it is converted from. -/
theorem posed_index_nearest {t : Game} (h : posed t) :
    (standing t.block →
      (index_standing t).x_check = round ((t.block.center.x + 2.5) / 0.5) ∧
      (index_standing t).z_check = round ((-t.block.center.z + 2.5) / 0.5)) ∧
    (lying_x t.block →
      (index_lying_x t).x_check = round ((t.block.center.x + 0.25 + 2.5) / 0.5) ∧
      (index_lying_x t).z_check = round ((-t.block.center.z + 2.5) / 0.5) ∧
      (index_lying_x t).x1_check = round ((t.block.center.x - 0.25 + 2.5) / 0.5) ∧
      (index_lying_x t).z1_check = round ((-t.block.center.z + 2.5) / 0.5)) ∧
    (lying_z t.block →
      (index_lying_z t).z_check = round ((-t.block.center.z + 0.25 + 2.5) / 0.5) ∧
      (index_lying_z t).x_check = round ((t.block.center.x + 2.5) / 0.5) ∧
      (index_lying_z t).z1_check = round ((-t.block.center.z - 0.25 + 2.5) / 0.5) ∧
      (index_lying_z t).x1_check = round ((t.block.center.x + 2.5) / 0.5)) := by
  obtain ⟨x, z, hp | hp | hp⟩ := h
  · have ex : (t.block.center.x + 2.5) / 0.5 = (x : ℚ) := by rw [hp.2.1]; norm_num
    have ez : (-t.block.center.z + 2.5) / 0.5 = (z : ℚ) := by rw [hp.2.1]; norm_num
    refine ⟨fun _ => ⟨to_int_round_of_intCast ex, to_int_round_of_intCast ez⟩, ?_, ?_⟩
    · intro hs
      have h1 := hp.1.1
      have h2 := hs.1
      rw [h1] at h2
      norm_num at h2
    · intro hs
      have h1 := hp.1.2.1
      have h2 := hs.2.1
      rw [h1] at h2
      norm_num at h2
  · have e0 : (t.block.center.x + 0.25 + 2.5) / 0.5 = ((x + 1 : Int) : ℚ) := by
      rw [hp.2.1]; push_cast; norm_num; ring
    have e1 : (t.block.center.x - 0.25 + 2.5) / 0.5 = (x : ℚ) := by rw [hp.2.1]; norm_num
    have ez : (-t.block.center.z + 2.5) / 0.5 = (z : ℚ) := by rw [hp.2.1]; norm_num
    refine ⟨?_, fun _ => ⟨to_int_round_of_intCast e0, to_int_round_of_intCast ez,
      to_int_round_of_intCast e1, to_int_round_of_intCast ez⟩, ?_⟩
    · intro hs
      have h1 := hp.1.1
      have h2 := hs.1
      rw [h1] at h2
      norm_num at h2
    · intro hs
      have h1 := hp.1.1
      have h2 := hs.1
      rw [h1] at h2
      norm_num at h2
  · have e0 : (-t.block.center.z + 0.25 + 2.5) / 0.5 = ((z + 1 : Int) : ℚ) := by
      rw [hp.2.1]; push_cast; norm_num; ring
    have e1 : (-t.block.center.z - 0.25 + 2.5) / 0.5 = (z : ℚ) := by rw [hp.2.1]; norm_num
    have ex : (t.block.center.x + 2.5) / 0.5 = (x : ℚ) := by rw [hp.2.1]; norm_num
    refine ⟨?_, ?_, fun _ => ⟨to_int_round_of_intCast e0, to_int_round_of_intCast ex,
      to_int_round_of_intCast e1, to_int_round_of_intCast ex⟩⟩
    · intro hs
      have h1 := hp.1.2.1
      have h2 := hs.2.1
      rw [h1] at h2
      norm_num at h2
    · intro hs
      have h1 := hp.1.1
      have h2 := hs.1
      rw [h1] at h2
      norm_num at h2

end BlockGame
